import Mathlib

/-!
# Chain-state store (`NodeDB`) and wallet transaction engine (`BaseTransaction`)

A shallow embedding of `beam/node_db.cpp`, `wallet/core/base_transaction.cpp`,
`wallet/transactions/assets/assets_utils.cpp` and the constructor of `UTXO` in
`private_keys/include/storage.h`, and a model of the swap offer protocol handler and board, which
the sources only test.

* SQL tables are lists of rows; a statement that throws (a constraint violation reported by
  `sqlite3_step`, or `TestChanged1Row`) makes the operation return `none`. `Open` and
  `Transaction` work on a connection that also records the transaction statements it gets.
* C strings and `std::string`s are lists of chars; a store outside an array and an iterator
  outside its string are undefined behaviour and give `none`.
* `Height` is a `uint64_t`: heights are natural numbers and `+ 1` / `- 1` are taken modulo `2 ^ 64`.
* Hashes and other blobs are natural numbers (only their equality is ever used).
-/

namespace beam

/-! ## Part 1. Definitions: `NodeDB` -/

/-- Modulus of `uint64_t` arithmetic (`Height`). -/
def Height.modulus : Nat := 18446744073709551616

/-- The value of `h + 1` for a `uint64_t` height `h`. -/
def Height.next (h : Nat) : Nat := (h + 1) % Height.modulus

/-- The value of `h - 1` for a `uint64_t` height `h`. -/
def Height.prev (h : Nat) : Nat := (h + (Height.modulus - 1)) % Height.modulus

namespace Block.SystemState

/-- `Block::SystemState::ID`: the key `(m_Height, m_Hash)` of a state. -/
structure ID where
  m_Height : Nat
  m_Hash : Nat
deriving DecidableEq, Repr

/-- `Block::SystemState::Full`: the fields listed by `StateCvt_Fields`. -/
structure Full where
  m_Height : Nat
  m_Hash : Nat
  m_HashPrev : Nat
  m_Difficulty : Nat
  m_TimeStamp : Nat
  m_Utxos : Nat
  m_Kernels : Nat
deriving DecidableEq, Repr

/-- A `Full` is passed where a `const ID&` is expected (`OnStateAddRemove(s, ...)`). -/
def Full.toID (s : Full) : ID := ⟨s.m_Height, s.m_Hash⟩

end Block.SystemState

open Block.SystemState

/-- A row of table `States` together with its SQLite `rowid`.
The blob columns `PoW`, `BlindOffset`, `Mmr`, `Body` are never written by the modelled code and
are left out. -/
structure StateRow where
  rowid : Nat
  Height : Nat
  Hash : Nat
  HashPrev : Nat
  Difficulty : Nat
  Timestamp : Nat
  HashUtxos : Nat
  HashKernels : Nat
  StateFlags : Nat
  RowPrev : Option Nat
  CountNext : Int
deriving DecidableEq, Repr

/-- A row of table `Tips`: `(Height, State)`, which is also its primary key. -/
structure TipRow where
  Height : Nat
  State : Nat
deriving DecidableEq, Repr

/-- `StateAuxData`, as filled by `get_StateAux`. -/
structure StateAuxData where
  m_RowPrev : Nat
  m_CountNext : Nat
  m_Flags : Nat
deriving DecidableEq, Repr

/-- The database: the contents of tables `States` and `Tips`.
Foreign keys are declared in `Create` but SQLite does not enforce them unless
`PRAGMA foreign_keys` is switched on, which `Open` does not do. -/
structure NodeDB where
  States : List StateRow
  Tips : List TipRow
deriving DecidableEq, Repr

namespace NodeDB

/-- The database right after `Create`: both tables empty. -/
def empty : NodeDB := ⟨[], []⟩

/-- The `int` that `sqlite3_bind_int` receives when `Recordset::put(int, uint32_t)` is called with
the `uint32_t` value `x`. -/
def bind_int (x : Nat) : Int :=
  if x % 4294967296 < 2147483648 then ((x % 4294967296 : Nat) : Int)
  else ((x % 4294967296 : Nat) : Int) - 4294967296

/-- The rowid SQLite gives to a row inserted without an explicit rowid: one more than the largest
rowid in use, `1` for an empty table (`get_LastInsertRowID` right after the `INSERT`). -/
def get_LastInsertRowID (rows : List StateRow) : Nat :=
  (rows.map (fun r => r.rowid)).foldr max 0 + 1

/-- The `WHERE Height=? AND HashPrev=?` clause of `Query::StateUpdPrevRow`, bound to
`k.m_Height + 1` and `k.m_Hash`. -/
def isNextOf (k : ID) (r : StateRow) : Bool :=
  decide (r.Height = Height.next k.m_Height) && decide (r.HashPrev = k.m_Hash)

/-- Effect of `Query::StateUpdPrevRow` on one row. -/
def setRowPrevOfNext (k : ID) (v : Option Nat) (r : StateRow) : StateRow :=
  if isNextOf k r then { r with RowPrev := v } else r

/-- Effect of `Query::StateUpdNextCount` on one row. -/
def addCountAt (rowid : Nat) (nDelta : Int) (r : StateRow) : StateRow :=
  if r.rowid = rowid then { r with CountNext := r.CountNext + nDelta } else r

/-- Effect of `Query::StateUpdPrevRow2` on one row. -/
def setRowPrevAt (rowid : Nat) (rowPrev : Nat) (r : StateRow) : StateRow :=
  if r.rowid = rowid then { r with RowPrev := some rowPrev } else r

/-- `NodeDB::AddNextCount`. `nDelta` is the `int` bound to the statement: a row count reported
by `sqlite3_changes` (an `int`, unchanged by the round trip through `uint32_t`) or
`bind_int` of `uint32_t(-1)`. `TestChanged1Row` throws unless exactly one row was updated. -/
def AddNextCount (db : NodeDB) (rowid : Nat) (nDelta : Int) : Option NodeDB :=
  if db.States.countP (fun r => decide (r.rowid = rowid)) = 1 then
    some { db with States := db.States.map (addCountAt rowid nDelta) }
  else none

/-- `NodeDB::TipAdd`: `INSERT INTO Tips VALUES(h, rowid)`; the primary key `(Height, State)` makes
the statement fail when the pair is already there. -/
def TipAdd (db : NodeDB) (rowid : Nat) (h : Nat) : Option NodeDB :=
  if (⟨h, rowid⟩ : TipRow) ∈ db.Tips then none
  else some { db with Tips := db.Tips ++ [⟨h, rowid⟩] }

/-- `NodeDB::TipDel`: `DELETE FROM Tips WHERE Height=? AND State=?` followed by
`TestChanged1Row`. -/
def TipDel (db : NodeDB) (rowid : Nat) (h : Nat) : Option NodeDB :=
  if db.Tips.count (⟨h, rowid⟩ : TipRow) = 1 then
    some { db with Tips := db.Tips.filter (fun t => decide (t ≠ (⟨h, rowid⟩ : TipRow))) }
  else none

/-- `Query::StateUpdPrevRow2` followed by `TestChanged1Row`. -/
def StateUpdPrevRow2 (db : NodeDB) (rowid rowPrev : Nat) : Option NodeDB :=
  if db.States.countP (fun r => decide (r.rowid = rowid)) = 1 then
    some { db with States := db.States.map (setRowPrevAt rowid rowPrev) }
  else none

/-- `NodeDB::StateFindSafe`: the rowid of the row with key `k`, `0` when there is none. -/
def StateFindSafe (db : NodeDB) (k : ID) : Nat :=
  match db.States.find? (fun r => decide (r.Height = k.m_Height) && decide (r.Hash = k.m_Hash)) with
  | some r => r.rowid
  | none => 0

/-- `NodeDB::get_State`: throws when the row is absent. -/
def get_State (db : NodeDB) (rowid : Nat) : Option Full :=
  match db.States.find? (fun r => decide (r.rowid = rowid)) with
  | some r => some ⟨r.Height, r.Hash, r.HashPrev, r.Difficulty, r.Timestamp, r.HashUtxos,
      r.HashKernels⟩
  | none => none

/-- `NodeDB::get_StateAux`: throws when the row is absent; a NULL `RowPrev` reads as `0`. -/
def get_StateAux (db : NodeDB) (rowid : Nat) : Option StateAuxData :=
  match db.States.find? (fun r => decide (r.rowid = rowid)) with
  | some r => some ⟨r.RowPrev.getD 0, (r.CountNext % 4294967296).toNat, r.StateFlags % 4294967296⟩
  | none => none

/-- `NodeDB::OnStateAddRemove`. -/
def OnStateAddRemove (db : NodeDB) (k : ID) (rowid rowPrev : Nat) (bAdd : Bool) :
    Option NodeDB :=
  let nCountAncestors := db.States.countP (isNextOf k)
  let db1 : NodeDB :=
    { db with States := db.States.map (setRowPrevOfNext k (if bAdd then some rowid else none)) }
  let r2 : Option NodeDB :=
    if nCountAncestors ≠ 0 then
      (if bAdd then AddNextCount db1 rowid (nCountAncestors : Int) else some db1)
    else
      (if bAdd then TipAdd db1 rowid k.m_Height else TipDel db1 rowid k.m_Height)
  match r2 with
  | none => none
  | some db2 =>
    if rowPrev ≠ 0 then
      match AddNextCount db2 rowPrev (if bAdd then 1 else bind_int 4294967295) with
      | none => none
      | some db3 =>
        if bAdd then
          match StateUpdPrevRow2 db3 rowid rowPrev with
          | none => none
          | some db4 => TipDel db4 rowPrev (Height.prev k.m_Height)
        else TipAdd db3 rowPrev (Height.prev k.m_Height)
    else some db2

/-- The row written by `Query::StateIns`: the fields of `s`, `StateFlags = 0`, `CountNext = 0`
and a NULL `RowPrev`. -/
def newStateRow (rowid : Nat) (s : Full) : StateRow :=
  ⟨rowid, s.m_Height, s.m_Hash, s.m_HashPrev, s.m_Difficulty, s.m_TimeStamp, s.m_Utxos,
    s.m_Kernels, 0, none, 0⟩

/-- `NodeDB::InsertState`. The `INSERT` fails on a duplicate primary key `(Height, Hash)`.
Returns the new database and the rowid. -/
def InsertState (db : NodeDB) (s : Full) : Option (NodeDB × Nat) :=
  if db.States.any (fun r => decide (r.Height = s.m_Height) && decide (r.Hash = s.m_Hash)) then none
  else
    let rowid := get_LastInsertRowID db.States
    let db1 : NodeDB := { db with States := db.States ++ [newStateRow rowid s] }
    let rowPrev := StateFindSafe db1 ⟨Height.prev s.m_Height, s.m_HashPrev⟩
    match OnStateAddRemove db1 s.toID rowid rowPrev true with
    | none => none
    | some db2 => some (db2, rowid)

/-- `NodeDB::DeleteIdleState`. -/
def DeleteIdleState (db : NodeDB) (rowid : Nat) : Option NodeDB :=
  match get_State db rowid with
  | none => none
  | some s =>
    match get_StateAux db rowid with
    | none => none
    | some d =>
      match OnStateAddRemove db s.toID rowid d.m_RowPrev false with
      | none => none
      | some db1 =>
        if db1.States.countP (fun r => decide (r.rowid = rowid)) = 1 then
          some { db1 with States := db1.States.filter (fun r => decide (r.rowid ≠ rowid)) }
        else none

/-- Stores reachable from the empty database by successful `InsertState` and `DeleteIdleState`
calls. The argument of `InsertState` is a C++ value, so its `m_Height` is below `2 ^ 64`. -/
inductive Reachable : NodeDB → Prop
  | init : Reachable NodeDB.empty
  | insert {db db1 : NodeDB} {s : Full} {rowid : Nat} :
      Reachable db → s.m_Height < Height.modulus → InsertState db s = some (db1, rowid) →
      Reachable db1
  | delete {db db1 : NodeDB} {rowid : Nat} :
      Reachable db → DeleteIdleState db rowid = some db1 → Reachable db1

/-- Is `p` the parent of `r` as the code finds it: the row with the hash `r.HashPrev` at the
height `r.Height - 1`, computed in `uint64_t` (`kPrev.m_Height = s.m_Height - 1`)? -/
def isParentOf (p r : StateRow) : Bool :=
  decide (p.Height = Height.prev r.Height) && decide (p.Hash = r.HashPrev)

/-- Is `p` at `(r.Height - 1, r.HashPrev)`, in the plain sense of the words: one height below
`r`, with the hash that `r` names as its predecessor? No row is one height below height 0. -/
def isAtPrevHeight (p r : StateRow) : Bool :=
  decide (p.Height + 1 = r.Height) && decide (p.Hash = r.HashPrev)

/-- The links of `r` rebuilt from scratch over the rows `rows`, in the words of the spec:
`RowPrev` is the rowid of the row at `(r.Height - 1, r.HashPrev)` if there is one and NULL
otherwise, `CountNext` is the number of rows that have `r` at their
`(Height - 1, HashPrev)`. -/
def rebuildRow (rows : List StateRow) (r : StateRow) : StateRow :=
  { r with
    RowPrev := (rows.find? (fun p => isAtPrevHeight p r)).map (fun p => p.rowid)
    CountNext := ((rows.countP (fun c => isAtPrevHeight r c) : Nat) : Int) }

/-- The table `States` with every row's links rebuilt from scratch. -/
def rebuildLinks (rows : List StateRow) : List StateRow :=
  rows.map (rebuildRow rows)

/-! ### Auxiliary definitions used by the proofs -/

/-- Net effect of a successful `OnStateAddRemove` on one row of `States`; `n` is the number of
rows matched by `Query::StateUpdPrevRow`. -/
def onRow (k : ID) (rowid rowPrev : Nat) (bAdd : Bool) (n : Nat) (r : StateRow) : StateRow :=
  let r1 := setRowPrevOfNext k (if bAdd then some rowid else none) r
  let r2 := if n ≠ 0 ∧ bAdd = true then addCountAt rowid (n : Int) r1 else r1
  if rowPrev ≠ 0 then
    let r3 := addCountAt rowPrev (if bAdd then 1 else bind_int 4294967295) r2
    if bAdd then setRowPrevAt rowid rowPrev r3 else r3
  else r2

/-- Net effect of a successful `OnStateAddRemove` on table `Tips`. -/
def onTips (k : ID) (rowid rowPrev : Nat) (bAdd : Bool) (n : Nat) (T : List TipRow) :
    List TipRow :=
  let T2 :=
    if n ≠ 0 then T
    else if bAdd then T ++ [⟨k.m_Height, rowid⟩]
    else T.filter (fun t => decide (t ≠ (⟨k.m_Height, rowid⟩ : TipRow)))
  if rowPrev ≠ 0 then
    (if bAdd then T2.filter (fun t => decide (t ≠ (⟨Height.prev k.m_Height, rowPrev⟩ : TipRow)))
     else T2 ++ [⟨Height.prev k.m_Height, rowPrev⟩])
  else T2

/-- Consistency of table `States`: rowids are distinct and non-zero, heights fit a `uint64_t`,
the primary key `(Height, Hash)` is unique, `RowPrev` points to the parent row exactly when that
row is present, and `CountNext` counts the rows pointing back. -/
structure Consistent (rows : List StateRow) : Prop where
  nodup : (rows.map (fun r => r.rowid)).Nodup
  pos : ∀ r ∈ rows, r.rowid ≠ 0
  hlt : ∀ r ∈ rows, r.Height < Height.modulus
  key : ∀ a ∈ rows, ∀ b ∈ rows, a.Height = b.Height → a.Hash = b.Hash → a.rowid = b.rowid
  prev : ∀ r ∈ rows, ∀ id, r.RowPrev = some id ↔
    ∃ p ∈ rows, p.rowid = id ∧ isParentOf p r = true
  cnt : ∀ r ∈ rows,
    r.CountNext = ((rows.countP (fun c => decide (c.RowPrev = some r.rowid)) : Nat) : Int)

/-! ### Sample states and stores -/

/-- A state at height 2 whose predecessor hash is `1`. -/
def sampleA : Full := ⟨2, 10, 1, 0, 0, 0, 0⟩

/-- Another state at height 2 with the same predecessor hash `1`. -/
def sampleB : Full := ⟨2, 11, 1, 0, 0, 0, 0⟩

/-- The state at height 1 with hash `1`: the parent of `sampleA` and `sampleB`. -/
def sampleP : Full := ⟨1, 1, 0, 0, 0, 0, 0⟩

/-- The store after `InsertState sampleA` on the empty database. -/
def dbA : NodeDB := ⟨[newStateRow 1 sampleA], [⟨2, 1⟩]⟩

/-- The store after `InsertState sampleB` on `dbA`. -/
def dbAB : NodeDB := ⟨[newStateRow 1 sampleA, newStateRow 2 sampleB], [⟨2, 1⟩, ⟨2, 2⟩]⟩

/-- The store after `InsertState sampleP` on `dbAB`: both children are linked to the new row. -/
def dbABP : NodeDB :=
  ⟨[{ newStateRow 1 sampleA with RowPrev := some 3 },
    { newStateRow 2 sampleB with RowPrev := some 3 },
    { newStateRow 3 sampleP with CountNext := 2 }], [⟨2, 1⟩, ⟨2, 2⟩]⟩

/-- The store after `DeleteIdleState 1` on `dbABP`. -/
def dbBP : NodeDB :=
  ⟨[{ newStateRow 2 sampleB with RowPrev := some 3 },
    { newStateRow 3 sampleP with CountNext := 1 }], [⟨2, 2⟩, ⟨1, 3⟩]⟩

/-- A state at the greatest height, `2 ^ 64 - 1`, with hash `1`. -/
def sampleTop : Full := ⟨18446744073709551615, 1, 0, 0, 0, 0, 0⟩

/-- A state at height 0 whose predecessor hash is `1`. -/
def sampleZero : Full := ⟨0, 2, 1, 0, 0, 0, 0⟩

/-- The store after `InsertState sampleTop` on the empty database. -/
def dbTop : NodeDB := ⟨[newStateRow 1 sampleTop], [⟨18446744073709551615, 1⟩]⟩

/-- The store after `InsertState sampleZero` on `dbTop`: the row at height 0 is linked to the
row at height `2 ^ 64 - 1`. -/
def dbTopZero : NodeDB :=
  ⟨[{ newStateRow 1 sampleTop with CountNext := 1 },
    { newStateRow 2 sampleZero with RowPrev := some 1 }], [⟨0, 2⟩]⟩

/-- The store after `InsertState sampleA` on `dbTopZero`. -/
def dbTopZeroA : NodeDB :=
  ⟨[{ newStateRow 1 sampleTop with CountNext := 1 },
    { newStateRow 2 sampleZero with RowPrev := some 1 },
    newStateRow 3 sampleA], [⟨0, 2⟩, ⟨2, 3⟩]⟩

/-- The store after `InsertState sampleP` on the empty database. -/
def dbP : NodeDB := ⟨[newStateRow 1 sampleP], [⟨1, 1⟩]⟩

/-- The store after `InsertState sampleA` on `dbP`. -/
def dbPA : NodeDB :=
  ⟨[{ newStateRow 1 sampleP with CountNext := 1 },
    { newStateRow 2 sampleA with RowPrev := some 1 }], [⟨2, 2⟩]⟩

/-- The store after `InsertState sampleP` on `dbA`. -/
def dbAP : NodeDB :=
  ⟨[{ newStateRow 1 sampleA with RowPrev := some 2 },
    { newStateRow 2 sampleP with CountNext := 1 }], [⟨2, 1⟩]⟩

end NodeDB

end beam

/-! ## Part 1 (continued). Definitions: `NodeDB::Open` and `NodeDB::Transaction` -/

namespace beam

namespace NodeDB

/-- Modulus of `uint32_t` arithmetic (the values of `ParamInt`). -/
def ParamInt.modulus : Nat := 4294967296

/-- A row of table `Params`: its key `ID` and the column `ParamInt`, which may be NULL. The
column `ParamBlob` is not used by the modelled code and is left out. -/
structure ParamRow where
  ID : Nat
  ParamInt : Option Nat
deriving DecidableEq, Repr

/-- The tables that `Create` makes, as far as `Open` uses them: the rows of table `Params`. -/
structure Tables where
  Params : List ParamRow
deriving DecidableEq, Repr

/-- `Query::Begin`, `Query::Commit` and `Query::Rollback`: the statements of
`NodeDB::Transaction`. -/
inductive Query where
  | Begin
  | Commit
  | Rollback
deriving DecidableEq, Repr

/-- The ways in which the modelled functions fail: the `std::runtime_error` of `ThrowError`
(an SQLite error), of `Open` (`"wrong version"`) and of `TestChanged1Row` (`"oops1"`), and a
failed `assert`. -/
inductive Failure where
  | sqlite
  | wrong_version
  | oops1
  | assertion
deriving DecidableEq, Repr

/-- The connection `m_pDb`: the tables it sees (`none` while the database has no tables), the
tables as they were at `BEGIN` while a transaction is active, and the transaction statements it
has received so far (oldest first). -/
structure sqlite3 where
  tables : Option Tables
  journal : Option (Option Tables)
  log : List Query
deriving DecidableEq, Repr

/-- `SQLITE_OK`. -/
def SQLITE_OK : Nat := 0

/-- `SQLITE_MISUSE`. -/
def SQLITE_MISUSE : Nat := 21

/-- `NodeDB::TestRet`: what is thrown for the result code `ret`, nothing for `SQLITE_OK`. -/
def TestRet (ret : Nat) : Option Failure :=
  if SQLITE_OK ≠ ret then some Failure.sqlite else none

/-- The result code of `sqlite3_config(SQLITE_CONFIG_SINGLETHREAD)`. SQLite accepts the call
only before the library is initialised and answers `SQLITE_MISUSE` afterwards; the first
`sqlite3_open` of a process initialises the library. `initialized` tells whether that has
happened. -/
def sqlite3_config (initialized : Bool) : Nat :=
  if initialized then SQLITE_MISUSE else SQLITE_OK

/-- The connection that `sqlite3_open` gives on a database that holds `file`. -/
def sqlite3_open (file : Option Tables) : sqlite3 := ⟨file, none, []⟩

/-- `NodeDB::ExecStep` on a transaction statement: what is thrown (nothing when the statement
succeeds) and the connection afterwards. As in SQLite, `BEGIN` is an error inside a transaction,
`COMMIT` and `ROLLBACK` are errors outside one, `COMMIT` keeps the tables and `ROLLBACK` puts
back the tables of `BEGIN`. -/
def ExecStep (db : sqlite3) : Query → Option Failure × sqlite3
  | Query.Begin =>
    match db.journal with
    | none => (none, { db with journal := some db.tables, log := db.log ++ [Query.Begin] })
    | some _ => (some Failure.sqlite, { db with log := db.log ++ [Query.Begin] })
  | Query.Commit =>
    match db.journal with
    | some _ => (none, { db with journal := none, log := db.log ++ [Query.Commit] })
    | none => (some Failure.sqlite, { db with log := db.log ++ [Query.Commit] })
  | Query.Rollback =>
    match db.journal with
    | some saved => (none, { tables := saved, journal := none, log := db.log ++ [Query.Rollback] })
    | none => (some Failure.sqlite, { db with log := db.log ++ [Query.Rollback] })

/-- `NodeDB::Transaction`: `m_pDB` is either NULL or points to the database, which the model
passes along. -/
structure Transaction where
  m_pDB : Bool
deriving DecidableEq, Repr

namespace Transaction

/-- `NodeDB::Transaction::Start`. -/
def Start (t : Transaction) (db : sqlite3) : Option Failure × Transaction × sqlite3 :=
  if t.m_pDB then (some Failure.assertion, t, db)
  else
    match ExecStep db Query.Begin with
    | (some e, db1) => (some e, t, db1)
    | (none, db1) => (none, { m_pDB := true }, db1)

/-- `NodeDB::Transaction::Commit`. -/
def Commit (t : Transaction) (db : sqlite3) : Option Failure × Transaction × sqlite3 :=
  if t.m_pDB then
    match ExecStep db Query.Commit with
    | (some e, db1) => (some e, t, db1)
    | (none, db1) => (none, { m_pDB := false }, db1)
  else (some Failure.assertion, t, db)

/-- `NodeDB::Transaction::Rollback`: an exception of `ExecStep` is caught. -/
def Rollback (t : Transaction) (db : sqlite3) : Transaction × sqlite3 :=
  if t.m_pDB then ({ m_pDB := false }, (ExecStep db Query.Rollback).2) else (t, db)

/-- `NodeDB::Transaction::~Transaction`, which runs on every exit from the scope of the
object. -/
def destructor (t : Transaction) (db : sqlite3) : Transaction × sqlite3 := t.Rollback db

end Transaction

/-- `NodeDB::Create`: the `CREATE TABLE` statements fail when the tables exist. -/
def Create (db : sqlite3) : Option Failure × sqlite3 :=
  match db.tables with
  | none => (none, { db with tables := some ⟨[]⟩ })
  | some _ => (some Failure.sqlite, db)

/-- `NodeDB::ParamIntSet`: the `UPDATE`, and the `INSERT` when the `UPDATE` changed no row. The
value is a `uint32_t`. -/
def ParamIntSet (db : sqlite3) (ID val : Nat) : Option Failure × sqlite3 :=
  match db.tables with
  | none => (some Failure.sqlite, db)
  | some t =>
    let row : ParamRow := ⟨ID, some (val % ParamInt.modulus)⟩
    if t.Params.any (fun r => decide (r.ID = ID)) then
      (none, { db with tables := some ⟨t.Params.map (fun r => if r.ID = ID then row else r)⟩ })
    else (none, { db with tables := some ⟨t.Params ++ [row]⟩ })

/-- `NodeDB::ParamIntGet`: `some val` when it returns `true`, `none` when it returns `false`.
`sqlite3_column_int` gives `0` for NULL and the low 32 bits of the stored integer. -/
def ParamIntGet (db : sqlite3) (ID : Nat) : Except Failure (Option Nat) :=
  match db.tables with
  | none => Except.error Failure.sqlite
  | some t =>
    match t.Params.find? (fun r => decide (r.ID = ID)) with
    | none => Except.ok none
    | some r => Except.ok (some (r.ParamInt.getD 0 % ParamInt.modulus))

/-- `NodeDB::ParamIntGetDef`; `defVal` is its argument `def`. -/
def ParamIntGetDef (db : sqlite3) (ID : Nat) (defVal : Nat) : Except Failure Nat :=
  match ParamIntGet db ID with
  | Except.error e => Except.error e
  | Except.ok none => Except.ok defVal
  | Except.ok (some val) => Except.ok val

/-- The constant `DB_VER` of `NodeDB::Open`. -/
def DB_VER : Nat := 8

/-- The statements of `NodeDB::Open` between the construction of the `Transaction` and
`t.Commit()`. `DbVer` is the value of `ParamID::DbVer`, which `node_db.h` declares. -/
def Open.body (db : sqlite3) (DbVer : Nat) (bCreate : Bool) : Option Failure × sqlite3 :=
  if bCreate then
    match Create db with
    | (some e, db1) => (some e, db1)
    | (none, db1) => ParamIntSet db1 DbVer DB_VER
  else
    match ParamIntGetDef db DbVer 0 with
    | Except.error e => (some e, db)
    | Except.ok ver => if DB_VER ≠ ver then (some Failure.wrong_version, db) else (none, db)

/-- `NodeDB::Open` on a database that holds `file`: what is thrown (nothing when it returns) and
the connection afterwards (none when `Open` fails before it has one to work with).
`initialized` tells whether SQLite has been initialised in this process (by an earlier
`sqlite3_open`) and `openRet` is the result code of `sqlite3_open`. The `Transaction` is
destroyed on every way out of the function once it has been constructed. -/
def Open (initialized : Bool) (openRet : Nat) (file : Option Tables) (DbVer : Nat)
    (bCreate : Bool) : Option Failure × Option sqlite3 :=
  match TestRet (sqlite3_config initialized) with
  | some e => (some e, none)
  | none =>
    match TestRet openRet with
    | some e => (some e, none)
    | none =>
      match Transaction.Start ⟨false⟩ (sqlite3_open file) with
      | (some e, _, db1) => (some e, some db1)
      | (none, t, db1) =>
        match Open.body db1 DbVer bCreate with
        | (some e, db2) => (some e, some (t.destructor db2).2)
        | (none, db2) =>
          match t.Commit db2 with
          | (some e, t1, db3) => (some e, some (t1.destructor db3).2)
          | (none, t1, db3) => (none, some (t1.destructor db3).2)

/-- The value that table `Params` of `file` holds for `ID`: nothing when the database has no
tables or no such row, `0` for NULL. -/
def storedParamInt (file : Option Tables) (ID : Nat) : Option Nat :=
  match file with
  | none => none
  | some t => (t.Params.find? (fun r => decide (r.ID = ID))).map (fun r => r.ParamInt.getD 0)

/-- A database whose `DbVer` (parameter 0) is `ver`, next to another parameter. -/
def sampleFile (ver : Nat) : Option Tables := some ⟨[⟨1, some 77⟩, ⟨0, some ver⟩]⟩

/-- A connection inside a transaction that has inserted parameter 5 since `BEGIN`. -/
def sampleConnection : sqlite3 :=
  ⟨some ⟨[⟨0, some 8⟩, ⟨5, some 1⟩]⟩, some (some ⟨[⟨0, some 8⟩]⟩), [Query.Begin]⟩

end NodeDB

end beam

/-! ## Part 1 (continued). Definitions: `BaseTransaction` -/

namespace beam

open Block.SystemState

namespace wallet

/-- `TxStatus`. -/
inductive TxStatus where
  | Pending
  | InProgress
  | Canceled
  | Completed
  | Failed
  | Registering
deriving DecidableEq, Repr

/-- `TxFailureReason`: the reasons named in `base_transaction.cpp`. -/
inductive TxFailureReason where
  | Unknown
  | Canceled
  | TransactionExpired
  | NoKeyKeeper
  | NoMasterKey
  | KeyKeeperUserAbort
  | KeyKeeperError
deriving DecidableEq, Repr

/-- `TxType`, the value of the virtual `GetType()`. -/
inductive TxType where
  | Simple
  | AtomicSwap
  | AssetIssue
deriving DecidableEq, Repr

/-- `TxParameterID`: the parameters read or written by `base_transaction.cpp`. -/
inductive TxParameterID where
  | Status
  | FailureReason
  | MyID
  | PeerID
  | MySecureWalletID
  | PeerSecureWalletID
  | MaxHeight
  | PeerResponseHeight
  | TransactionRegistered
  | KernelID
  | KernelUnconfirmedHeight
  | KernelProofHeight
  | NonceSlot
  | ModifyTime
deriving DecidableEq, Repr

/-- A decoded parameter value: a status, a failure reason, or a number (heights, identifiers,
hashes, timestamps and slots are natural numbers). -/
inductive ParamValue where
  | status (s : TxStatus)
  | reason (r : TxFailureReason)
  | num (n : Nat)
deriving DecidableEq, Repr

/-- `SetTxParameter`: the parameter-update message sent to the peer. -/
structure SetTxParameter where
  m_From : Nat
  m_TxID : Nat
  m_Type : TxType
  m_Parameters : List (TxParameterID × ParamValue)
deriving DecidableEq, Repr

/-- `SetTxParameter::AddParameter`. -/
def SetTxParameter.AddParameter (msg : SetTxParameter) (id : TxParameterID) (v : ParamValue) :
    SetTxParameter :=
  { msg with m_Parameters := msg.m_Parameters ++ [(id, v)] }

/-- A default-constructed `SetTxParameter`. -/
def SetTxParameter.default : SetTxParameter := ⟨0, 0, TxType.Simple, []⟩

/-- `Coin`: the fields that `SetCompletedTxCoinStatuses` reads or writes, and the coin's id.
`m_createTxId` and `m_spentTxId` are `boost::optional<TxID>`. -/
structure Coin where
  m_ID : Nat
  m_createTxId : Option Nat
  m_spentTxId : Option Nat
  m_confirmHeight : Nat
  m_spentHeight : Nat
  m_maturity : Nat
deriving DecidableEq, Repr

/-- The calls a transaction makes on its wallet database, on its negotiator gateway and on the
reactor (`io::AsyncEvent::create` and `post`). -/
inductive Call where
  | setTxParameter (txID : Nat) (id : TxParameterID) (value : ParamValue) (flag : Bool)
  | rollbackTx (txID : Nat)
  | send_tx_params (peerID : Nat) (msg : SetTxParameter)
  | on_tx_completed (txID : Nat)
  | get_tip
  | OnAsyncStarted
  | OnAsyncFinished
  | saveCoins (coins : List Coin)
  | SlotAllocate
  | SlotFree (iSlot : Nat)
  | AsyncEvent_create
  | post
deriving DecidableEq, Repr

/-- Modelled from the spec: the parameter map of one transaction (`get_parameter` returns the
stored value or nothing), which `base_transaction.h` and the wallet database implement outside
the given sources. One optional field per parameter. -/
structure TxParameters where
  Status : Option TxStatus
  FailureReason : Option TxFailureReason
  MyID : Option Nat
  PeerID : Option Nat
  MySecureWalletID : Option Nat
  PeerSecureWalletID : Option Nat
  MaxHeight : Option Nat
  PeerResponseHeight : Option Nat
  TransactionRegistered : Option Nat
  KernelID : Option Nat
  KernelUnconfirmedHeight : Option Nat
  KernelProofHeight : Option Nat
  NonceSlot : Option Nat
  ModifyTime : Option Nat
deriving DecidableEq, Repr

/-- The parameter map with nothing stored. -/
def TxParameters.empty : TxParameters :=
  ⟨none, none, none, none, none, none, none, none, none, none, none, none, none, none⟩

/-- Modelled from the spec: `set_parameter` stores the value under its parameter id
(`base_transaction.h` is not among the sources). A value of the wrong kind for the id is never
passed by the modelled code and is ignored. -/
def TxParameters.set (p : TxParameters) : TxParameterID → ParamValue → TxParameters
  | .Status, .status s => { p with Status := some s }
  | .FailureReason, .reason r => { p with FailureReason := some r }
  | .MyID, .num n => { p with MyID := some n }
  | .PeerID, .num n => { p with PeerID := some n }
  | .MySecureWalletID, .num n => { p with MySecureWalletID := some n }
  | .PeerSecureWalletID, .num n => { p with PeerSecureWalletID := some n }
  | .MaxHeight, .num n => { p with MaxHeight := some n }
  | .PeerResponseHeight, .num n => { p with PeerResponseHeight := some n }
  | .TransactionRegistered, .num n => { p with TransactionRegistered := some n }
  | .KernelID, .num n => { p with KernelID := some n }
  | .KernelUnconfirmedHeight, .num n => { p with KernelUnconfirmedHeight := some n }
  | .KernelProofHeight, .num n => { p with KernelProofHeight := some n }
  | .NonceSlot, .num n => { p with NonceSlot := some n }
  | .ModifyTime, .num n => { p with ModifyTime := some n }
  | _, _ => p

/-- A `BaseTransaction`: its id, its type, the parameters stored for it, the log of the calls
it has made so far (oldest first) and whether `m_EventToUpdate` holds an event. -/
structure BaseTransaction where
  m_ID : Nat
  m_Type : TxType
  params : TxParameters
  calls : List Call
  m_EventToUpdate : Bool
deriving DecidableEq, Repr

/-- An exception thrown inside `Update`: a `TransactionFailedException` with its `m_Notify` and
`m_Reason`, or any other `std::exception`. -/
inductive TxException where
  | failed (notify : Bool) (reason : TxFailureReason)
  | other
deriving DecidableEq, Repr

/-- What `Update` gets from outside `base_transaction.cpp`: the gateway's answer to `get_tip`,
the value of `getTimestamp()`, the default value of the second argument of `OnFailed` and the
exception thrown by `GetMandatoryParameter` (both declared in `base_transaction.h`, which is not
among the sources), and the type-specific `UpdateImpl`, which returns the transaction as it
leaves it and the exception it throws, if any. -/
structure UpdateEnv where
  tip : Option Full
  now : Nat
  notifyDefault : Bool
  missingParameter : TxException
  UpdateImpl : BaseTransaction → BaseTransaction × Option TxException

namespace BaseTransaction

/-- Modelled from the spec: `SetParameter(paramID, value, flag)` of `base_transaction.h` hands
the triple to the wallet database, which stores the value. -/
def SetParameter (tx : BaseTransaction) (id : TxParameterID) (v : ParamValue) (flag : Bool) :
    BaseTransaction :=
  { tx with params := tx.params.set id v
            calls := tx.calls ++ [Call.setTxParameter tx.m_ID id v flag] }

/-- `BaseTransaction::UpdateTxDescription`. -/
def UpdateTxDescription (tx : BaseTransaction) (s : TxStatus) : BaseTransaction :=
  tx.SetParameter TxParameterID.Status (ParamValue.status s) true

/-- `BaseTransaction::RollbackTx`. -/
def RollbackTx (tx : BaseTransaction) : BaseTransaction :=
  { tx with calls := tx.calls ++ [Call.rollbackTx tx.m_ID] }

/-- The call `GetGateway().on_tx_completed(GetTxID())`. -/
def on_tx_completed (tx : BaseTransaction) : BaseTransaction :=
  { tx with calls := tx.calls ++ [Call.on_tx_completed tx.m_ID] }

/-- `BaseTransaction::SendTxParameters`: returns the flag and the transaction after the call. -/
def SendTxParameters (tx : BaseTransaction) (msg : SetTxParameter) : Bool × BaseTransaction :=
  let msg1 : SetTxParameter := { msg with m_TxID := tx.m_ID, m_Type := tx.m_Type }
  match tx.params.MyID, tx.params.PeerID with
  | some myID, some peerID =>
    let msg2 : SetTxParameter := { msg1 with m_From := myID }
    let msg3 : SetTxParameter :=
      match tx.params.MySecureWalletID, tx.params.PeerSecureWalletID with
      | some secureWalletID, some _ =>
        msg2.AddParameter TxParameterID.PeerSecureWalletID (ParamValue.num secureWalletID)
      | _, _ => msg2
    (true, { tx with calls := tx.calls ++ [Call.send_tx_params peerID msg3] })
  | _, _ => (false, tx)

/-- `BaseTransaction::NotifyFailure`. -/
def NotifyFailure (tx : BaseTransaction) (reason : TxFailureReason) : BaseTransaction :=
  match tx.params.Status.getD TxStatus.Failed with
  | TxStatus.Pending | TxStatus.InProgress =>
    (tx.SendTxParameters
      (SetTxParameter.default.AddParameter TxParameterID.FailureReason
        (ParamValue.reason reason))).2
  | _ => tx

/-- `BaseTransaction::OnFailed`. -/
def OnFailed (tx : BaseTransaction) (reason : TxFailureReason) (notify : Bool) :
    BaseTransaction :=
  let tx1 := if notify then tx.NotifyFailure reason else tx
  let tx2 := tx1.SetParameter TxParameterID.FailureReason (ParamValue.reason reason) false
  let tx3 := tx2.UpdateTxDescription
    (if reason = TxFailureReason.Canceled then TxStatus.Canceled else TxStatus.Failed)
  let tx4 := tx3.RollbackTx
  tx4.on_tx_completed

/-- `BaseTransaction::CanCancel`. -/
def CanCancel (tx : BaseTransaction) : Bool :=
  let status := tx.params.Status.getD TxStatus.Failed
  decide (status = TxStatus.InProgress) || decide (status = TxStatus.Pending)

/-- `BaseTransaction::Cancel`. The `else` branch only writes to the log file. -/
def Cancel (tx : BaseTransaction) : BaseTransaction :=
  let s := tx.params.Status.getD TxStatus.Failed
  if s = TxStatus.Pending ∨ s = TxStatus.InProgress then
    let tx1 := if s = TxStatus.InProgress then tx.NotifyFailure TxFailureReason.Canceled else tx
    let tx2 := tx1.UpdateTxDescription TxStatus.Canceled
    let tx3 := tx2.RollbackTx
    tx3.on_tx_completed
  else tx

/-- `BaseTransaction::GetTip`: asks the gateway; `tip` is what `get_tip` answers (`none` when it
returns `false`). -/
def GetTip (tx : BaseTransaction) (tip : Option Full) : Option Full × BaseTransaction :=
  (tip, { tx with calls := tx.calls ++ [Call.get_tip] })

/-- `BaseTransaction::CheckExpired`. `tip` is the gateway's answer to `get_tip`;
`notifyDefault` is the default value of the second argument of `OnFailed`, which is declared in
`base_transaction.h`, outside the given sources. -/
def CheckExpired (tx : BaseTransaction) (tip : Option Full) (notifyDefault : Bool) :
    Bool × BaseTransaction :=
  if tx.params.Status = some TxStatus.Failed ∨ tx.params.Status = some TxStatus.Canceled ∨
      tx.params.Status = some TxStatus.Completed then (false, tx)
  else
    match (match tx.params.MaxHeight with
      | some h => some h
      | none => tx.params.PeerResponseHeight) with
    | none => (false, tx)
    | some maxHeight =>
      if tx.params.TransactionRegistered = none ∨ tx.params.KernelID = none then
        match tx.GetTip tip with
        | (some state, tx1) =>
          if state.m_Height > maxHeight then
            (true, tx1.OnFailed TxFailureReason.TransactionExpired notifyDefault)
          else (false, tx1)
        | (none, tx1) => (false, tx1)
      else
        match tx.params.KernelUnconfirmedHeight with
        | some lastUnconfirmedHeight =>
          if lastUnconfirmedHeight > 0 then
            if lastUnconfirmedHeight ≥ maxHeight then
              (true, tx.OnFailed TxFailureReason.TransactionExpired notifyDefault)
            else (false, tx)
          else (false, tx)
        | none => (false, tx)

/-- Modelled from the spec: the default value of `notify` in the declaration of `OnFailed`
(`base_transaction.h` is not among the sources). Where the code writes `OnFailed(reason)` the
spec has `on_failed(reason, notify=true)`. -/
def OnFailed.defaultNotify : Bool := true

/-- Modelled from the spec: the default value of the flag of `SetParameter`
(`set_parameter<T>(id, value, shouldSend=false, sub=0)`; `base_transaction.h` is not among the
sources). -/
def SetParameter.defaultFlag : Bool := false

/-- `BaseTransaction::Rollback`: returns the flag and the transaction after the call. -/
def Rollback (tx : BaseTransaction) (height : Nat) : Bool × BaseTransaction :=
  match tx.params.KernelProofHeight with
  | some proofHeight =>
    if proofHeight > height then
      let tx1 := tx.SetParameter TxParameterID.Status (ParamValue.status TxStatus.Registering)
        SetParameter.defaultFlag
      let tx2 := tx1.SetParameter TxParameterID.KernelProofHeight (ParamValue.num 0)
        SetParameter.defaultFlag
      let tx3 := tx2.SetParameter TxParameterID.KernelUnconfirmedHeight (ParamValue.num 0)
        SetParameter.defaultFlag
      (true, tx3)
    else (false, tx)
  | none => (false, tx)

/-- `BaseTransaction::CheckExternalFailures`. `GetMandatoryParameter<TxStatus>` is declared in
`base_transaction.h`; as the spec has it (`get_mandatory` raises when the parameter is absent), it
throws when `Status` is not stored, and the result is then the exception. -/
def CheckExternalFailures (tx : BaseTransaction) (env : UpdateEnv) :
    Except TxException (Bool × BaseTransaction) :=
  match tx.params.FailureReason with
  | some reason =>
    match tx.params.Status with
    | none => Except.error env.missingParameter
    | some s =>
      if s = TxStatus.InProgress then Except.ok (true, tx.OnFailed reason env.notifyDefault)
      else Except.ok (false, tx)
  | none => Except.ok (false, tx)

/-- The `catch` clauses of `BaseTransaction::Update`. -/
def Update.onException (env : UpdateEnv) (tx : BaseTransaction) : TxException → BaseTransaction
  | TxException.failed notify reason => tx.OnFailed reason notify
  | TxException.other => tx.OnFailed TxFailureReason.Unknown env.notifyDefault

/-- The rest of the `try` block of `BaseTransaction::Update` once `UpdateImpl` has returned or
thrown: `CheckExpired` and the stamping of `ModifyTime`, or the `catch` clause. -/
def Update.afterImpl (env : UpdateEnv) : BaseTransaction × Option TxException → BaseTransaction
  | (tx, some ex) => Update.onException env tx ex
  | (tx, none) =>
    (tx.CheckExpired env.tip env.notifyDefault).2.SetParameter TxParameterID.ModifyTime
      (ParamValue.num env.now) true

/-- `BaseTransaction::Update`. The `AsyncContextHolder` calls `OnAsyncStarted` when it is built
and `OnAsyncFinished` when the function is left, whichever way. -/
def Update (tx : BaseTransaction) (env : UpdateEnv) : BaseTransaction :=
  let tx1 : BaseTransaction :=
    { tx with calls := tx.calls ++ [Call.OnAsyncStarted], m_EventToUpdate := false }
  let tx2 : BaseTransaction :=
    match tx1.CheckExternalFailures env with
    | Except.error ex => Update.onException env tx1 ex
    | Except.ok (true, t) => t
    | Except.ok (false, t) => Update.afterImpl env (env.UpdateImpl t)
  { tx2 with calls := tx2.calls ++ [Call.OnAsyncFinished] }

/-- The body of the loop of `SetCompletedTxCoinStatuses` for the transaction `txID`:
`std::setmin` lowers a height to `proofHeight` when that is smaller, and the maturity is
`proofHeight + Rules::get().Maturity.Std` in `uint64_t` arithmetic. -/
def setCompletedCoin (txID MaturityStd proofHeight : Nat) (coin : Coin) : Coin :=
  let bIn : Bool := decide (coin.m_createTxId = some txID)
  let bOut : Bool := decide (coin.m_spentTxId = some txID)
  if bIn || bOut then
    let coin1 : Coin :=
      if bIn then
        { coin with
          m_confirmHeight := min coin.m_confirmHeight proofHeight
          m_maturity := (proofHeight + MaturityStd) % Height.modulus }
      else coin
    if bOut then { coin1 with m_spentHeight := min coin1.m_spentHeight proofHeight } else coin1
  else coin

/-- `BaseTransaction::SetCompletedTxCoinStatuses`. `coins` is what `getCoinsByTx(GetTxID())`
returns and `MaturityStd` is `Rules::get().Maturity.Std`. -/
def SetCompletedTxCoinStatuses (tx : BaseTransaction) (coins : List Coin)
    (MaturityStd proofHeight : Nat) : BaseTransaction :=
  { tx with calls := tx.calls ++
      [Call.saveCoins (coins.map (setCompletedCoin tx.m_ID MaturityStd proofHeight))] }

/-- `BaseTransaction::GetSlotSafe`: the slot it returns and the transaction after the call.
`Invalid` is the value of `IPrivateKeyKeeper2::Slot::Invalid`, which the header of the key keeper
declares, and `allocated` is what `SlotAllocate()` returns when it is called. -/
def GetSlotSafe (tx : BaseTransaction) (Invalid : Nat) (bAllocateIfAbsent : Bool)
    (allocated : Nat) : Nat × BaseTransaction :=
  let iSlot := tx.params.NonceSlot.getD Invalid
  if bAllocateIfAbsent && decide (Invalid = iSlot) then
    let tx1 : BaseTransaction := { tx with calls := tx.calls ++ [Call.SlotAllocate] }
    (allocated,
      tx1.SetParameter TxParameterID.NonceSlot (ParamValue.num allocated)
        SetParameter.defaultFlag)
  else (iSlot, tx)

/-- `BaseTransaction::FreeSlotSafe`. `GetSlotSafe(false)` never allocates, so the value handed
to it for `SlotAllocate()` is not used. -/
def FreeSlotSafe (tx : BaseTransaction) (Invalid : Nat) : BaseTransaction :=
  let r := tx.GetSlotSafe Invalid false Invalid
  if Invalid ≠ r.1 then
    let tx1 : BaseTransaction := { r.2 with calls := r.2.calls ++ [Call.SlotFree r.1] }
    tx1.SetParameter TxParameterID.NonceSlot (ParamValue.num Invalid) SetParameter.defaultFlag
  else r.2

/-- `BaseTransaction::FreeResources`. -/
def FreeResources (tx : BaseTransaction) (Invalid : Nat) : BaseTransaction :=
  tx.FreeSlotSafe Invalid

/-- A transaction in progress with both wallet ids stored. -/
def sampleInProgress : BaseTransaction :=
  ⟨7, TxType.Simple,
    { TxParameters.empty with
      Status := some TxStatus.InProgress, MyID := some 100, PeerID := some 200 }, [], false⟩

/-- A registered transaction in progress whose `MaxHeight` and `KernelUnconfirmedHeight` are
both `0`. -/
def sampleRegisteredAtZero : BaseTransaction :=
  ⟨7, TxType.Simple,
    { TxParameters.empty with
      Status := some TxStatus.InProgress, MaxHeight := some 0,
      TransactionRegistered := some 1, KernelID := some 5,
      KernelUnconfirmedHeight := some 0 }, [], false⟩

/-- A registered transaction in progress whose kernel was last seen unconfirmed at its max
height 100. -/
def sampleRegistered : BaseTransaction :=
  ⟨7, TxType.Simple,
    { TxParameters.empty with
      Status := some TxStatus.InProgress, MaxHeight := some 100,
      TransactionRegistered := some 1, KernelID := some 5,
      KernelUnconfirmedHeight := some 100 }, [], false⟩

/-- A completed transaction with nothing else stored. -/
def sampleCompleted : BaseTransaction :=
  ⟨7, TxType.Simple, { TxParameters.empty with Status := some TxStatus.Completed }, [], false⟩

/-- A failed transaction whose peer reported the failure. -/
def sampleFailed : BaseTransaction :=
  ⟨7, TxType.Simple,
    { TxParameters.empty with
      Status := some TxStatus.Failed, FailureReason := some TxFailureReason.Unknown,
      MaxHeight := some 100 }, [], false⟩

/-- A transaction in progress for which a failure reason has arrived. -/
def sampleExternallyFailed : BaseTransaction :=
  ⟨7, TxType.Simple,
    { TxParameters.empty with
      Status := some TxStatus.InProgress, FailureReason := some TxFailureReason.Unknown,
      MyID := some 100, PeerID := some 200 }, [], false⟩

/-- A transaction for which a failure reason has arrived before any status was stored. -/
def sampleNoStatus : BaseTransaction :=
  ⟨7, TxType.Simple,
    { TxParameters.empty with
      FailureReason := some TxFailureReason.Unknown, MyID := some 100, PeerID := some 200 },
    [], false⟩

/-- An `UpdateImpl` that moves the transaction to `InProgress`. -/
def sampleImpl (tx : BaseTransaction) : BaseTransaction × Option TxException :=
  (tx.UpdateTxDescription TxStatus.InProgress, none)

/-- A transaction whose kernel was proved at height 50. -/
def sampleProved : BaseTransaction :=
  ⟨7, TxType.Simple,
    { TxParameters.empty with
      Status := some TxStatus.Completed, KernelProofHeight := some 50 }, [], false⟩

/-- An environment whose `UpdateImpl` does nothing: no tip, time 5. -/
def sampleEnv : UpdateEnv :=
  ⟨none, 5, OnFailed.defaultNotify, TxException.other, fun tx => (tx, none)⟩

/-- A coin spent, but not created, by transaction 7. -/
def sampleSpentCoin : Coin := ⟨1, none, some 7, 20, 200, 30⟩

/-- A coin created by transaction 7. -/
def sampleCreatedCoin : Coin := ⟨2, some 7, none, 200, 300, 0⟩

/-- A transaction in progress that holds nonce slot 3. -/
def sampleWithSlot : BaseTransaction :=
  ⟨7, TxType.Simple,
    { TxParameters.empty with Status := some TxStatus.InProgress, NonceSlot := some 3 },
    [], false⟩

/-- A pending transaction that is not registered yet and must be done by height 100. -/
def samplePending : BaseTransaction :=
  ⟨7, TxType.Simple,
    { TxParameters.empty with Status := some TxStatus.Pending, MaxHeight := some 100 }, [], false⟩

end BaseTransaction

/-! ### Swap offers: protocol handler and board

The handler and the board live in `wallet/client/extensions`, outside the given sources; only
their unit test is there. They are modelled from the spec (§4.7, §4.8). -/

/-- `SwapOfferStatus`. -/
inductive SwapOfferStatus where
  | Pending
  | InProgress
  | Completed
  | Canceled
  | Expired
  | Failed
deriving DecidableEq, Repr

/-- `AtomicSwapCoin`. -/
inductive AtomicSwapCoin where
  | Bitcoin
  | Litecoin
  | Qtum
  | Unknown
deriving DecidableEq, Repr

/-- `ChangeAction`. -/
inductive ChangeAction where
  | Added
  | Removed
  | Updated
  | Reset
deriving DecidableEq, Repr

/-- Modelled from the spec: a swap offer `{tx_id, status, publisher_id, coin, parameters…}`; the
parameters are the mandatory ones of §3, each present or absent. -/
structure SwapOffer where
  m_txId : Nat
  m_status : SwapOfferStatus
  m_publisherId : Nat
  m_coin : AtomicSwapCoin
  AtomicSwapCoin : Option AtomicSwapCoin
  AtomicSwapIsBeamSide : Option Bool
  Amount : Option Nat
  AtomicSwapAmount : Option Nat
  MinHeight : Option Nat
  PeerResponseTime : Option Nat
  TransactionType : Option TxType
deriving DecidableEq, Repr

/-- Modelled from the spec: what the offer protocol handler (§4.7) is built on. Byte strings are
lists of numbers. `encode`/`decode` are the parameter-map encoding of an offer, `privateKey`
gives the private BBS key of a publisher whose address is local (derived from `own_id`) and
nothing for any other publisher, `publicKey` is the publisher's public BBS key, `sign` and
`verify` are the signature scheme and `signatureSize` is the fixed length of a signature. -/
structure OfferBoardProtocolHandler where
  signatureSize : Nat
  encode : SwapOffer → List Nat
  decode : List Nat → Option SwapOffer
  privateKey : Nat → Option Nat
  publicKey : Nat → Nat
  sign : Nat → List Nat → List Nat
  verify : Nat → List Nat → List Nat → Bool

namespace OfferBoardProtocolHandler

/-- Modelled from the spec: `create_message(offer, publisher_id)` signs the body with the
publisher's private BBS key and returns `[body][signature]`; it returns nothing when the
publisher is not local. -/
def createMessage (h : OfferBoardProtocolHandler) (offer : SwapOffer) (publisherId : Nat) :
    Option (List Nat) :=
  match h.privateKey publisherId with
  | none => none
  | some sk => some (h.encode offer ++ h.sign sk (h.encode offer))

/-- Modelled from the spec: `parse_message(bytes)` strips the fixed-length signature from the
tail, verifies it against the public BBS key of the publisher named in the body and returns
nothing on any mismatch (truncated, unparseable, bad signature). It is a total function: it
never throws. -/
def parseMessage (h : OfferBoardProtocolHandler) (bytes : List Nat) : Option SwapOffer :=
  if bytes.length < h.signatureSize then none
  else
    let body := bytes.take (bytes.length - h.signatureSize)
    let signature := bytes.drop (bytes.length - h.signatureSize)
    match h.decode body with
    | none => none
    | some offer =>
      if h.verify (h.publicKey offer.m_publisherId) body signature then some offer else none

end OfferBoardProtocolHandler

/-- Modelled from the spec: a transaction description (§3), as far as the board reads it: its
`tx_id`, type and status. -/
structure TxDescription where
  m_txId : Nat
  m_txType : TxType
  m_status : TxStatus
deriving DecidableEq, Repr

/-- Modelled from the spec: the swap offers board (§4.8), its in-memory index of offers and what
its observers have been told so far (oldest first). -/
structure SwapOffersBoard where
  m_offers : List SwapOffer
  m_notifications : List (ChangeAction × List SwapOffer)
deriving DecidableEq, Repr

namespace SwapOffersBoard

/-- Modelled from the spec: an offer is expired at `height` when
`min_height + peer_response_time ≤ height`. -/
def isExpired (height : Nat) (offer : SwapOffer) : Bool :=
  match offer.MinHeight, offer.PeerResponseTime with
  | some minHeight, some peerResponseTime => decide (minHeight + peerResponseTime ≤ height)
  | _, _ => false

/-- One pass over the offers at chain height `height`: an expired offer is dropped and its
observers are told `Removed` with the offer in status `Expired`; any other offer is kept. -/
def expireOffers (height : Nat) :
    List SwapOffer → List SwapOffer × List (ChangeAction × List SwapOffer)
  | [] => ([], [])
  | offer :: rest =>
    let r := expireOffers height rest
    if isExpired height offer then
      (r.1, (ChangeAction.Removed, [{ offer with m_status := SwapOfferStatus.Expired }]) :: r.2)
    else (offer :: r.1, r.2)

/-- Modelled from the spec: `on_system_state_changed(id)` removes every offer whose
`min_height + peer_response_time ≤ id.height` and notifies `Removed`, each removed offer's
status being `Expired`. -/
def onSystemStateChanged (board : SwapOffersBoard) (id : ID) : SwapOffersBoard :=
  let r := expireOffers id.m_Height board.m_offers
  { m_offers := r.1, m_notifications := board.m_notifications ++ r.2 }

/-- Modelled from the spec: the board-local failures that `publish_offer` throws (§4.8, §7);
the unit test catches them under these names. -/
inductive Exception where
  | InvalidOfferException
  | ForeignOfferException
  | OfferAlreadyPublishedException
  | ExpiredOfferException
deriving DecidableEq, Repr

/-- Modelled from the spec: the offer has every mandatory parameter of §3: `AtomicSwapCoin`,
`AtomicSwapIsBeamSide`, `Amount`, `AtomicSwapAmount`, `MinHeight`, `PeerResponseTime` and
`TransactionType = AtomicSwap`. -/
def hasMandatoryParameters (offer : SwapOffer) : Bool :=
  offer.AtomicSwapCoin.isSome && offer.AtomicSwapIsBeamSide.isSome && offer.Amount.isSome &&
    offer.AtomicSwapAmount.isSome && offer.MinHeight.isSome && offer.PeerResponseTime.isSome &&
    decide (offer.TransactionType = some TxType.AtomicSwap)

/-- Modelled from the spec: an offer is invalid (`InvalidOffer`) if any mandatory parameter is
missing, its coin is `Unknown`, or its status is not `Pending`. -/
def isOfferValid (offer : SwapOffer) : Bool :=
  hasMandatoryParameters offer && decide (offer.m_coin ≠ AtomicSwapCoin.Unknown) &&
    decide (offer.m_status = SwapOfferStatus.Pending)

/-- Whether the board holds an offer with this `tx_id`. -/
def contains (board : SwapOffersBoard) (txId : Nat) : Bool :=
  board.m_offers.any (fun o => decide (o.m_txId = txId))

/-- Modelled from the spec: a transaction description that deactivates the offer of its
`tx_id`: its type is `AtomicSwap` and its status is `InProgress`, `Canceled` or `Failed`. -/
def deactivates (tx : TxDescription) : Bool :=
  decide (tx.m_txType = TxType.AtomicSwap) &&
    (decide (tx.m_status = TxStatus.InProgress) || decide (tx.m_status = TxStatus.Canceled) ||
      decide (tx.m_status = TxStatus.Failed))

/-- Modelled from the spec: `publish_offer` (§4.8; the board itself is not among the sources).
It throws `InvalidOffer`, `ForeignOffer` (the publisher is not a local address, that is, the
handler has no private key for it), `OfferAlreadyPublished` or `ExpiredOffer`, in this order.
Otherwise the offer is up for admission, and the transaction store (`store`) is consulted
(delayed update): if it holds a transaction of the offer's `tx_id` that has already reached
`InProgress`, `Canceled` or `Failed`, the offer is silently rejected, as in
`TestDelayedOfferUpdate`, where it ends on no board. Otherwise the board signs the offer, sends
the message through the router, inserts the offer into the index and notifies the observers
with `Added`. The result is the board afterwards and the message handed to the router, if
any. -/
def publishOffer (board : SwapOffersBoard) (handler : OfferBoardProtocolHandler)
    (store : List TxDescription) (currentHeight : Nat) (offer : SwapOffer) :
    Except Exception (SwapOffersBoard × Option (List Nat)) :=
  if !isOfferValid offer then Except.error Exception.InvalidOfferException
  else if (handler.privateKey offer.m_publisherId).isNone then
    Except.error Exception.ForeignOfferException
  else if board.contains offer.m_txId then Except.error Exception.OfferAlreadyPublishedException
  else if isExpired currentHeight offer then Except.error Exception.ExpiredOfferException
  else if store.any (fun tx => decide (tx.m_txId = offer.m_txId) && deactivates tx) then
    Except.ok (board, none)
  else
    match handler.createMessage offer offer.m_publisherId with
    | none => Except.error Exception.ForeignOfferException
    | some msg =>
      Except.ok
        ({ m_offers := board.m_offers ++ [offer]
           m_notifications := board.m_notifications ++ [(ChangeAction.Added, [offer])] },
          some msg)

/-- `PublishOfferNoThrow` of `swap_board_test.cpp`: `publishOffer` with its four exceptions
caught. -/
def PublishOfferNoThrow (board : SwapOffersBoard) (handler : OfferBoardProtocolHandler)
    (store : List TxDescription) (currentHeight : Nat) (offer : SwapOffer) : SwapOffersBoard :=
  match board.publishOffer handler store currentHeight offer with
  | Except.ok (board1, _) => board1
  | Except.error _ => board

/-- Modelled from the spec: receipt of a payload on the SwapOffers channel (§4.8): parse; drop
if invalid; drop if the `tx_id` is already known; drop silently if the transaction store
(`store`) holds a transaction of that `tx_id` that has already reached `InProgress`, `Canceled`
or `Failed` (delayed update); otherwise insert and notify. The flag is the listener's answer:
whether the payload parsed (§4.6). -/
def onMessage (board : SwapOffersBoard) (handler : OfferBoardProtocolHandler)
    (store : List TxDescription) (msg : List Nat) : Bool × SwapOffersBoard :=
  match handler.parseMessage msg with
  | none => (false, board)
  | some offer =>
    if !isOfferValid offer then (true, board)
    else if board.contains offer.m_txId then (true, board)
    else if store.any (fun tx => decide (tx.m_txId = offer.m_txId) && deactivates tx) then
      (true, board)
    else
      (true,
        { m_offers := board.m_offers ++ [offer]
          m_notifications := board.m_notifications ++ [(ChangeAction.Added, [offer])] })

/-- The offer with this `tx_id`, if the index holds one, and the index without it. -/
def removeOffer (txId : Nat) : List SwapOffer → Option (SwapOffer × List SwapOffer)
  | [] => none
  | o :: rest =>
    if o.m_txId = txId then some (o, rest)
    else
      match removeOffer txId rest with
      | none => none
      | some (x, rest1) => some (x, o :: rest1)

/-- Modelled from the spec: what `on_transaction_changed(Updated, txs)` does for one `tx`: if
it deactivates and its `tx_id` matches an offer, that offer is removed and the observers are
notified with `Removed`; otherwise nothing happens. -/
def onTransactionChanged.step (board : SwapOffersBoard) (tx : TxDescription) :
    SwapOffersBoard :=
  if deactivates tx then
    match removeOffer tx.m_txId board.m_offers with
    | some (offer, rest) =>
      { m_offers := rest
        m_notifications := board.m_notifications ++ [(ChangeAction.Removed, [offer])] }
    | none => board
  else board

/-- Modelled from the spec: `on_transaction_changed(Updated, txs)` (§4.8), one `tx` after the
other. -/
def onTransactionChanged (board : SwapOffersBoard) (txs : List TxDescription) :
    SwapOffersBoard :=
  txs.foldl onTransactionChanged.step board

/-- The boards that the operations of §4.8 build from the empty board. -/
inductive Reachable (handler : OfferBoardProtocolHandler) : SwapOffersBoard → Prop
  | empty : Reachable handler ⟨[], []⟩
  | publish (board board1 : SwapOffersBoard) (store : List TxDescription)
      (currentHeight : Nat) (offer : SwapOffer) (msg : Option (List Nat)) :
      Reachable handler board →
      board.publishOffer handler store currentHeight offer = Except.ok (board1, msg) →
      Reachable handler board1
  | receive (board : SwapOffersBoard) (store : List TxDescription) (msg : List Nat) :
      Reachable handler board → Reachable handler (board.onMessage handler store msg).2
  | transactionChanged (board : SwapOffersBoard) (txs : List TxDescription) :
      Reachable handler board → Reachable handler (board.onTransactionChanged txs)
  | systemStateChanged (board : SwapOffersBoard) (id : ID) :
      Reachable handler board → Reachable handler (board.onSystemStateChanged id)

end SwapOffersBoard

/-- A pending Bitcoin offer published by address 100, with `MinHeight = 100` and
`PeerResponseTime = 50`. -/
def sampleOffer : SwapOffer :=
  { m_txId := 1, m_status := SwapOfferStatus.Pending, m_publisherId := 100,
    m_coin := AtomicSwapCoin.Bitcoin, AtomicSwapCoin := some AtomicSwapCoin.Bitcoin,
    AtomicSwapIsBeamSide := some true, Amount := some 852, AtomicSwapAmount := some 741,
    MinHeight := some 100, PeerResponseTime := some 50,
    TransactionType := some TxType.AtomicSwap }

/-- A toy protocol handler: the body of every offer is `[1, 2, 3]` and decodes to `sampleOffer`,
address 100 is local with private key 11 and public key 12, the signature of a body under key
`sk` is `[sk + 1]` and it verifies under public key `pk` when it is `[pk]`. -/
def sampleHandler : OfferBoardProtocolHandler :=
  { signatureSize := 1
    encode := fun _ => [1, 2, 3]
    decode := fun body => if body = [1, 2, 3] then some sampleOffer else none
    privateKey := fun publisherId => if publisherId = 100 then some 11 else none
    publicKey := fun publisherId => if publisherId = 100 then 12 else 0
    sign := fun sk _ => [sk + 1]
    verify := fun pk _ signature => decide (signature = [pk]) }

/-- The offer `sampleOffer` under another `tx_id`. -/
def sampleOfferWithId (txId : Nat) : SwapOffer := { sampleOffer with m_txId := txId }

/-- A board that holds five offers, with the `tx_id`s 1 to 5. -/
def sampleBoard : SwapOffersBoard :=
  ⟨[sampleOfferWithId 1, sampleOfferWithId 2, sampleOfferWithId 3, sampleOfferWithId 4,
    sampleOfferWithId 5], []⟩

/-- Status updates of the five transactions of `sampleBoard`, and one of another type. -/
def sampleUpdates : List TxDescription :=
  [⟨5, TxType.AtomicSwap, TxStatus.Completed⟩, ⟨4, TxType.AtomicSwap, TxStatus.Pending⟩,
    ⟨1, TxType.AtomicSwap, TxStatus.InProgress⟩, ⟨3, TxType.AtomicSwap, TxStatus.Failed⟩,
    ⟨2, TxType.AtomicSwap, TxStatus.Canceled⟩, ⟨4, TxType.AtomicSwap, TxStatus.Registering⟩,
    ⟨4, TxType.Simple, TxStatus.InProgress⟩]

end wallet

end beam

/-! ## Part 1 (continued). Definitions: the offer protocol handler over a wallet database -/

namespace beam

namespace wallet

/-! The encoding of an offer (`SwapOfferToken`, `toByteBuffer`), the key derivation and the
signature (`SwapOfferConfirmation`) are outside the given sources as well. The unit test shows
how a key pair is derived and how a message is put together (`deriveKeypair`, `signData`,
`makeMsg`); what these helpers call is modelled from the spec. -/

/-- Modelled from the spec: the number that stands for a `SwapOfferStatus` in the encoding of
an offer, its position among the statuses of §3. -/
def SwapOfferStatus.code : SwapOfferStatus → Nat
  | SwapOfferStatus.Pending => 0
  | SwapOfferStatus.InProgress => 1
  | SwapOfferStatus.Completed => 2
  | SwapOfferStatus.Canceled => 3
  | SwapOfferStatus.Expired => 4
  | SwapOfferStatus.Failed => 5

/-- Modelled from the spec: the status that a number stands for, if any. -/
def SwapOfferStatus.ofCode : Nat → Option SwapOfferStatus
  | 0 => some SwapOfferStatus.Pending
  | 1 => some SwapOfferStatus.InProgress
  | 2 => some SwapOfferStatus.Completed
  | 3 => some SwapOfferStatus.Canceled
  | 4 => some SwapOfferStatus.Expired
  | 5 => some SwapOfferStatus.Failed
  | _ => none

/-- Modelled from the spec: the number that stands for an `AtomicSwapCoin` in the encoding. -/
def AtomicSwapCoin.code : AtomicSwapCoin → Nat
  | AtomicSwapCoin.Bitcoin => 0
  | AtomicSwapCoin.Litecoin => 1
  | AtomicSwapCoin.Qtum => 2
  | AtomicSwapCoin.Unknown => 3

/-- Modelled from the spec: the coin that a number stands for, if any. -/
def AtomicSwapCoin.ofCode : Nat → Option AtomicSwapCoin
  | 0 => some AtomicSwapCoin.Bitcoin
  | 1 => some AtomicSwapCoin.Litecoin
  | 2 => some AtomicSwapCoin.Qtum
  | 3 => some AtomicSwapCoin.Unknown
  | _ => none

/-- Modelled from the spec: the number that stands for a `TxType` in the encoding. -/
def TxType.code : TxType → Nat
  | TxType.Simple => 0
  | TxType.AtomicSwap => 1
  | TxType.AssetIssue => 2

/-- Modelled from the spec: the transaction type that a number stands for, if any. -/
def TxType.ofCode : Nat → Option TxType
  | 0 => some TxType.Simple
  | 1 => some TxType.AtomicSwap
  | 2 => some TxType.AssetIssue
  | _ => none

/-- Modelled from the spec: a parameter map as it goes on the wire (§6), the pairs
`(param_id, blob)`. The slots of an offer are numbered in the order of §3: `AtomicSwapCoin` 0,
`AtomicSwapIsBeamSide` 1, `Amount` 2, `AtomicSwapAmount` 3, `MinHeight` 4, `PeerResponseTime` 5
and `TransactionType` 6. -/
abbrev PackedParameters : Type := List (Nat × List Nat)

/-- Modelled from the spec: the parameters of an offer as a parameter map, the present ones in
the order of their slots (the encoding is deterministic, §4.2). -/
def SwapOffer.Pack (offer : SwapOffer) : PackedParameters :=
  (offer.AtomicSwapCoin.map (fun v => (0, [v.code]))).toList ++
    (offer.AtomicSwapIsBeamSide.map (fun v => (1, [if v then 1 else 0]))).toList ++
    (offer.Amount.map (fun v => (2, [v]))).toList ++
    (offer.AtomicSwapAmount.map (fun v => (3, [v]))).toList ++
    (offer.MinHeight.map (fun v => (4, [v]))).toList ++
    (offer.PeerResponseTime.map (fun v => (5, [v]))).toList ++
    (offer.TransactionType.map (fun v => (6, [v.code]))).toList

/-- Modelled from the spec: `set_parameter` on an offer from a wire pair: the blob is decoded
as the type of the slot; nothing for an unknown slot or a blob that does not decode. -/
def SwapOffer.SetParameter (offer : SwapOffer) (id : Nat) (blob : List Nat) : Option SwapOffer :=
  match id, blob with
  | 0, [v] => (AtomicSwapCoin.ofCode v).map (fun c => { offer with AtomicSwapCoin := some c })
  | 1, [v] =>
    if v = 0 then some { offer with AtomicSwapIsBeamSide := some false }
    else if v = 1 then some { offer with AtomicSwapIsBeamSide := some true }
    else none
  | 2, [v] => some { offer with Amount := some v }
  | 3, [v] => some { offer with AtomicSwapAmount := some v }
  | 4, [v] => some { offer with MinHeight := some v }
  | 5, [v] => some { offer with PeerResponseTime := some v }
  | 6, [v] => (TxType.ofCode v).map (fun t => { offer with TransactionType := some t })
  | _, _ => none

/-- Modelled from the spec: the pairs of a parameter map set on an offer one after the other;
nothing as soon as one of them does not decode. -/
def SwapOffer.Unpack : SwapOffer → PackedParameters → Option SwapOffer
  | offer, [] => some offer
  | offer, (id, blob) :: rest =>
    match offer.SetParameter id blob with
    | none => none
    | some offer1 => SwapOffer.Unpack offer1 rest

namespace SwapOfferToken

/-- Modelled from the spec: the version tag of the encoding (§4.2: version-tagged). -/
def VERSION : Nat := 1

/-- Modelled from the spec: the pairs of a parameter map in the shared encoding (§4.2:
length-prefixed): each pair as its slot, the length of its blob and the blob. -/
def writeParameters : PackedParameters → List Nat
  | [] => []
  | (id, blob) :: rest => id :: blob.length :: (blob ++ writeParameters rest)

/-- Modelled from the spec: `count` pairs read back from the shared encoding, and what follows
them; nothing when the bytes end before the pairs do. -/
def readParameters : Nat → List Nat → Option (PackedParameters × List Nat)
  | 0, bytes => some ([], bytes)
  | count + 1, id :: len :: bytes =>
    if bytes.length < len then none
    else
      match readParameters count (bytes.drop len) with
      | none => none
      | some (ps, rest) => some ((id, bytes.take len) :: ps, rest)
  | _ + 1, _ => none

/-- Modelled from the spec: `toByteBuffer(SwapOfferToken(offer))`, the body of a message: the
parameter-map encoding of the offer `{tx_id, status, publisher_id, coin, parameters…}`: the
version tag, the four fields, the number of parameters and the parameters. -/
def toByteBuffer (offer : SwapOffer) : List Nat :=
  VERSION :: offer.m_txId :: offer.m_status.code :: offer.m_publisherId :: offer.m_coin.code ::
    offer.Pack.length :: writeParameters offer.Pack

/-- Modelled from the spec: the offer that a body encodes; nothing when the body is truncated or
unparseable (another version tag, an unknown status, coin or slot, a blob that does not decode,
bytes left over). -/
def fromByteBuffer : List Nat → Option SwapOffer
  | version :: txId :: status :: publisherId :: coin :: count :: rest =>
    if version ≠ VERSION then none
    else
      match SwapOfferStatus.ofCode status, AtomicSwapCoin.ofCode coin,
        readParameters count rest with
      | some s, some c, some (ps, []) =>
        SwapOffer.Unpack ⟨txId, s, publisherId, c, none, none, none, none, none, none, none⟩ ps
      | _, _, _ => none
  | _ => none

end SwapOfferToken

namespace ECC

/-- Modelled from the spec: what the BBS keys and signatures are computed in. The spec names the
keys and the signature and leaves the scheme open; the model takes a Schnorr signature over the
integers modulo `order` under addition, with the generator `G`, the hash `Oracle` that gives
the challenge and the function `nonce` that gives the signer's nonce. -/
structure Context where
  order : Nat
  G : Nat
  Oracle : List Nat → Nat
  nonce : Nat → List Nat → Nat

end ECC

/-- Modelled from the spec: `PeerID::FromSk`, the public key of the private key `sk`. -/
def PeerID.FromSk (ctx : ECC.Context) (sk : Nat) : Nat := sk * ctx.G % ctx.order

namespace SwapOfferConfirmation

/-- Modelled from the spec: the fixed length of a signature: the public nonce and the
response. -/
def SIGNATURE_SIZE : Nat := 2

/-- Modelled from the spec: `SwapOfferConfirmation::Sign`, the signature of `m_offerData` under
the private key `sk`: the public nonce `R = r·G` and `r + e·sk`, where `e` is the challenge for
`R` and the data. -/
def Sign (ctx : ECC.Context) (sk : Nat) (m_offerData : List Nat) : List Nat :=
  let r := ctx.nonce sk m_offerData
  let R := r * ctx.G % ctx.order
  [R, (r + ctx.Oracle (R :: m_offerData) * sk) % ctx.order]

/-- Modelled from the spec: `SwapOfferConfirmation::IsValid`, whether `m_Signature` is a
signature of `m_offerData` under the public key `pk`: it is `[R, k]` with `k·G = R + e·pk`. -/
def IsValid (ctx : ECC.Context) (pk : Nat) (m_offerData : List Nat) : List Nat → Bool
  | [R, k] =>
    decide (k * ctx.G % ctx.order = (R + ctx.Oracle (R :: m_offerData) * pk) % ctx.order)
  | _ => false

end SwapOfferConfirmation

/-- Modelled from the spec: a wallet address (§3), as far as the handler reads it: `wallet_id`,
which is the public BBS key of the address, and `own_id`, which is non-zero iff the local wallet
holds the private material. -/
structure WalletAddress where
  m_walletID : Nat
  m_OwnID : Nat
deriving DecidableEq, Repr

/-- `deriveKeypair` of `swap_board_test.cpp`: the private key that the key derivation function
gives for `keyIndex` (`DeriveKey`, here `sbbsKdf`) and its public key. -/
def deriveKeypair (ctx : ECC.Context) (sbbsKdf : Nat → Nat) (keyIndex : Nat) : Nat × Nat :=
  let sk := sbbsKdf keyIndex
  (PeerID.FromSk ctx sk, sk)

/-- `signData` of `swap_board_test.cpp`: the signature of `data` under the key derived for
`keyIndex`. -/
def signData (ctx : ECC.Context) (sbbsKdf : Nat → Nat) (data : List Nat) (keyIndex : Nat) :
    List Nat :=
  SwapOfferConfirmation.Sign ctx (deriveKeypair ctx sbbsKdf keyIndex).2 data

/-- `makeMsg` of `swap_board_test.cpp`: the message body and the signature, one after the
other. -/
def makeMsg (msgRaw signatureRaw : List Nat) : List Nat := msgRaw ++ signatureRaw

/-- Modelled from the spec: the handler that `OfferBoardProtocolHandler(sbbsKdf, walletDB)`
constructs (§4.7). The body is the parameter-map encoding of the offer. The publisher is local
when the wallet holds an address with that `wallet_id` and a non-zero `own_id`; its private BBS
key is derived from `own_id`. The public BBS key of a publisher is its `wallet_id`, which the
body carries. -/
def OfferBoardProtocolHandler.construct (ctx : ECC.Context) (sbbsKdf : Nat → Nat)
    (walletDB : List WalletAddress) : OfferBoardProtocolHandler :=
  { signatureSize := SwapOfferConfirmation.SIGNATURE_SIZE
    encode := SwapOfferToken.toByteBuffer
    decode := SwapOfferToken.fromByteBuffer
    privateKey := fun publisherId =>
      (walletDB.find? (fun a => decide (a.m_walletID = publisherId) && decide (a.m_OwnID ≠ 0))).map
        (fun a => (deriveKeypair ctx sbbsKdf a.m_OwnID).2)
    publicKey := fun publisherId => publisherId
    sign := SwapOfferConfirmation.Sign ctx
    verify := SwapOfferConfirmation.IsValid ctx }

/-- A small group for the examples: the integers modulo 101 with generator 3; the challenge is
the sum of the hashed numbers. -/
def sampleContext : ECC.Context := ⟨101, 3, List.sum, fun sk data => sk + data.length⟩

/-- A key derivation function for the examples. -/
def sampleKdf (keyIndex : Nat) : Nat := keyIndex + 10

/-- A wallet with a remote contact and the local address 100, whose `own_id` is 57: the private
key is 67 and `67 · 3 = 201 = 100` modulo 101. -/
def sampleWalletDB : List WalletAddress := [⟨55, 0⟩, ⟨100, 57⟩]

/-- The handler of the examples. -/
def sampleProtocolHandler : OfferBoardProtocolHandler :=
  OfferBoardProtocolHandler.construct sampleContext sampleKdf sampleWalletDB

/-- An offer without its optional parameters, published by the local address 100. -/
def sampleBareOffer : SwapOffer :=
  ⟨9, SwapOfferStatus.InProgress, 100, AtomicSwapCoin.Qtum, none, none, some 5, none, none, none,
    none⟩

end wallet

end beam

/-! ## Part 1 (continued). Definitions: `UTXO` (`private_keys/include/storage.h`) -/

namespace storage

/-- `BUFSIZE`. -/
def BUFSIZE : Nat := 256

/-- `strlen(data)`. A C string is the list of the chars (numbers) that memory holds from `data`
on; the first `0` among them, or else the end of the list, is its terminating NUL. -/
def strlen (data : List Nat) : Nat := (data.takeWhile (fun c => c != 0)).length

/-- `UTXO`: the members `id` and `info` (`char info[BUFSIZE+1]`). -/
structure UTXO where
  id : Nat
  info : List Nat
deriving DecidableEq, Repr

namespace UTXO

/-- The stores `info[i] = c` of the constructor `UTXO(num, data)`, as pairs `(i, c)` in the
order in which they are made: those of the loop, then `info[n] = 0`. -/
def stores (data : List Nat) : List (Nat × Nat) :=
  let n := min (strlen data + 1) (BUFSIZE + 1)
  (List.range n).map (fun i => (i, data.getD i 0)) ++ [(n, 0)]

/-- One store `info[i] = c`; it is undefined (`none`) outside the array. -/
def store (info : List Nat) (w : Nat × Nat) : Option (List Nat) :=
  if w.1 < info.length then some (info.set w.1 w.2) else none

/-- The stores `ws` made one after the other. -/
def storeAll : List (Nat × Nat) → List Nat → Option (List Nat)
  | [], info => some info
  | w :: ws, info =>
    match store info w with
    | none => none
    | some info1 => storeAll ws info1

/-- The constructor `UTXO(num, data)`; `info0` is what the `BUFSIZE + 1` chars of `info` hold
before it runs. The result is `none` when a store falls outside `info`. -/
def construct (info0 : List Nat) (num : Nat) (data : List Nat) : Option UTXO :=
  (storeAll (stores data) info0).map (fun info => ⟨num, info⟩)

end UTXO

/-- A string of 256 chars `a`. -/
def sampleLongData : List Nat := List.replicate 256 97

/-- The string `abc`. -/
def sampleShortData : List Nat := [97, 98, 99]

end storage

/-! ## Part 1 (continued). Definitions: `AssetMeta` -/

namespace beam

namespace wallet

/-- `STD_META_MARK`. -/
def STD_META_MARK : List Char := ['S', 'T', 'D', ':']

/-- `NAME_KEY`. -/
def NAME_KEY : List Char := ['N']

/-- `SHORT_NAME_KEY`. -/
def SHORT_NAME_KEY : List Char := ['S', 'N']

/-- `UNIT_NAME_KEY`. -/
def UNIT_NAME_KEY : List Char := ['U', 'N']

/-- `NTH_UNIT_NAME_KEY`. -/
def NTH_UNIT_NAME_KEY : List Char := ['N', 'T', 'H', 'U', 'N']

/-- `AssetMeta`: strings are lists of chars and the map `_values` is the list of its
`(key, value)` pairs. -/
structure AssetMeta where
  _std : Bool
  _meta : List Char
  _values : List (List Char × List Char)
deriving DecidableEq, Repr

namespace AssetMeta

/-- `std::size(STD_META_MARK) - 1`. -/
def STD_LEN : Nat := 4

/-- `strncmp(a, b, n) == 0`: the first `n` chars agree, where the comparison stops after a NUL
and a string that has ended reads as NUL. -/
def strncmp_eq : List Char → List Char → Nat → Bool
  | _, _, 0 => true
  | a, b, n + 1 =>
    let ca := a.headD (Char.ofNat 0)
    let cb := b.headD (Char.ofNat 0)
    if ca = cb then
      if ca = Char.ofNat 0 then true else strncmp_eq a.tail b.tail n
    else false

/-- The matches of the regular expression `[^;]+` in `s`, as `std::sregex_token_iterator`
yields them: the maximal non-empty runs of chars other than `;`, in order. `cur` holds the chars
of the run being read, last one first. -/
def tokenize.go : List Char → List Char → List (List Char)
  | [], cur => if cur = [] then [] else [cur.reverse]
  | c :: cs, cur =>
    if c = ';' then
      if cur = [] then tokenize.go cs [] else cur.reverse :: tokenize.go cs []
    else tokenize.go cs (c :: cur)

/-- The matches of `[^;]+` in `s`. -/
def tokenize (s : List Char) : List (List Char) := tokenize.go s []

/-- Insertion into a `std::set<std::string>`, kept as the sorted list of its elements. -/
def set_insert (x : List Char) : List (List Char) → List (List Char)
  | [] => [x]
  | y :: ys =>
    if x < y then x :: y :: ys
    else if x = y then y :: ys
    else y :: set_insert x ys

/-- The `std::set<std::string>` built from a range. -/
def set_of (l : List (List Char)) : List (List Char) :=
  l.foldl (fun s x => set_insert x s) []

/-- `it.find_first_of(c)`; `none` is `std::string::npos`. -/
def find_first_of : List Char → Char → Option Nat
  | [], _ => none
  | x :: xs, c => if x = c then some 0 else (find_first_of xs c).map (fun i => i + 1)

/-- `_values[key] = val`. -/
def map_assign (values : List (List Char × List Char)) (key val : List Char) :
    List (List Char × List Char) :=
  (key, val) :: values.filter (fun kv => kv.1 != key)

/-- `_values.find(key) != _values.end()`. -/
def map_contains (values : List (List Char × List Char)) (key : List Char) : Bool :=
  values.any (fun kv => kv.1 == key)

/-- The body of the loop of `Parse` for the token `it`. For a token without `=`,
`find_first_of` gives `npos` and `it.begin() + eq` is not an iterator of the token: the
behaviour is undefined (`none`). -/
def Parse.step (values : List (List Char × List Char)) (it : List Char) :
    Option (List (List Char × List Char)) :=
  match find_first_of it '=' with
  | none => none
  | some 0 => some values
  | some (eq + 1) => some (map_assign values (it.take (eq + 1)) (it.drop (eq + 1 + 1)))

/-- The loop of `Parse` over the tokens. -/
def Parse.loop : List (List Char) → List (List Char × List Char) →
    Option (List (List Char × List Char))
  | [], values => some values
  | it :: rest, values =>
    match Parse.step values it with
    | none => none
    | some values1 => Parse.loop rest values1

/-- `AssetMeta::Parse`. -/
def Parse (m : AssetMeta) : Option AssetMeta :=
  if !strncmp_eq m._meta STD_META_MARK STD_LEN then some { m with _std := false }
  else
    match Parse.loop (set_of (tokenize (m._meta.drop STD_LEN))) m._values with
    | none => none
    | some values =>
      some { m with
        _values := values
        _std := map_contains values NAME_KEY && map_contains values SHORT_NAME_KEY &&
          map_contains values UNIT_NAME_KEY && map_contains values NTH_UNIT_NAME_KEY }

/-- The constructor `AssetMeta(std::string meta)`. -/
def construct (meta : List Char) : Option AssetMeta := Parse ⟨false, meta, []⟩

/-- `AssetMeta::isStd`. -/
def isStd (m : AssetMeta) : Bool := m._std

/-- The segments `ts` written one after the other with `;` between them. -/
def joinTokens : List (List Char) → List Char
  | [] => []
  | [t] => t
  | t :: ts => t ++ ';' :: joinTokens ts

/-- A standard metadata string. -/
def sampleMeta : List Char := "STD:N=Coin;SN=CN;UN=Cgro;NTHUN=Cgroth".toList

/-- The same tokens in another order, with an empty token and an unknown key. -/
def sampleMetaShuffled : List Char := "STD:NTHUN=Cgroth;;UN=Cgro;X=1;N=Coin;SN=CN;".toList

/-- A metadata string without the key `NTHUN`. -/
def sampleMetaNoUnit : List Char := "STD:N=Coin;SN=CN;UN=Cgro".toList

end AssetMeta

end wallet

end beam

/-! ## Part 2. Theorems: `NodeDB` -/

namespace beam

open Block.SystemState

namespace NodeDB

theorem Height.prev_next {h : Nat} (hh : h < Height.modulus) :
    Height.prev (Height.next h) = h := by
  unfold Height.prev Height.next Height.modulus at *
  omega

theorem Height.next_prev {h : Nat} (hh : h < Height.modulus) :
    Height.next (Height.prev h) = h := by
  unfold Height.prev Height.next Height.modulus at *
  omega

theorem Height.prev_ne (h : Nat) : Height.prev h ≠ h := by
  unfold Height.prev Height.modulus
  omega

theorem Height.next_ne (h : Nat) : Height.next h ≠ h := by
  unfold Height.next Height.modulus
  omega

theorem Height.prev_ne_next (h : Nat) : Height.prev h ≠ Height.next h := by
  unfold Height.prev Height.next Height.modulus
  omega

theorem bind_int_neg_one : bind_int 4294967295 = -1 := by decide

theorem AddNextCount_eq_some {db db' : NodeDB} {id : Nat} {d : Int}
    (h : AddNextCount db id d = some db') :
    db.States.countP (fun r => decide (r.rowid = id)) = 1 ∧
      db' = { db with States := db.States.map (addCountAt id d) } := by
  unfold AddNextCount at h
  split at h
  · exact ⟨by assumption, by simpa using h.symm⟩
  · simp at h

theorem StateUpdPrevRow2_eq_some {db db' : NodeDB} {id p : Nat}
    (h : StateUpdPrevRow2 db id p = some db') :
    db.States.countP (fun r => decide (r.rowid = id)) = 1 ∧
      db' = { db with States := db.States.map (setRowPrevAt id p) } := by
  unfold StateUpdPrevRow2 at h
  split at h
  · exact ⟨by assumption, by simpa using h.symm⟩
  · simp at h

theorem TipAdd_eq_some {db db' : NodeDB} {id hgt : Nat} (h : TipAdd db id hgt = some db') :
    (⟨hgt, id⟩ : TipRow) ∉ db.Tips ∧ db' = { db with Tips := db.Tips ++ [⟨hgt, id⟩] } := by
  unfold TipAdd at h
  split at h
  · simp at h
  · exact ⟨by assumption, by simpa using h.symm⟩

theorem TipDel_eq_some {db db' : NodeDB} {id hgt : Nat} (h : TipDel db id hgt = some db') :
    db.Tips.count (⟨hgt, id⟩ : TipRow) = 1 ∧
      db' = { db with Tips := db.Tips.filter (fun t => decide (t ≠ (⟨hgt, id⟩ : TipRow))) } := by
  unfold TipDel at h
  split at h
  · exact ⟨by assumption, by simpa using h.symm⟩
  · simp at h

theorem OnStateAddRemove_eq_some {db db' : NodeDB} {k : ID} {R P : Nat} {bAdd : Bool}
    (h : OnStateAddRemove db k R P bAdd = some db') :
    db' = ⟨db.States.map (onRow k R P bAdd (db.States.countP (isNextOf k))),
      onTips k R P bAdd (db.States.countP (isNextOf k)) db.Tips⟩ := by
  unfold OnStateAddRemove at h
  simp only at h
  split at h
  · simp at h
  · rename_i db2 h2
    have e2 : db2 = ⟨db.States.map (fun r =>
          if db.States.countP (isNextOf k) ≠ 0 ∧ bAdd = true then
            addCountAt R (db.States.countP (isNextOf k) : Int)
              (setRowPrevOfNext k (if bAdd then some R else none) r)
          else setRowPrevOfNext k (if bAdd then some R else none) r),
        if db.States.countP (isNextOf k) ≠ 0 then db.Tips
        else if bAdd then db.Tips ++ [⟨k.m_Height, R⟩]
        else db.Tips.filter (fun t => decide (t ≠ (⟨k.m_Height, R⟩ : TipRow)))⟩ := by
      by_cases hn : db.States.countP (isNextOf k) = 0 <;> cases bAdd
      all_goals simp only [hn, ne_eq, not_true_eq_false, not_false_eq_true, if_true, if_false,
        Bool.false_eq_true] at h2
      · obtain ⟨-, rfl⟩ := TipDel_eq_some h2
        simp [hn]
      · obtain ⟨-, rfl⟩ := TipAdd_eq_some h2
        simp [hn]
      · obtain rfl := Option.some.inj h2
        simp [hn]
      · obtain ⟨-, rfl⟩ := AddNextCount_eq_some h2
        simp [hn, Function.comp_def]
    clear h2
    subst e2
    by_cases hP : P = 0
    · simp only [hP, ne_eq, not_true_eq_false, if_false] at h
      obtain rfl := Option.some.inj h
      simp [onRow, onTips, hP]
    · simp only [hP, ne_eq, not_false_eq_true, if_true] at h
      split at h
      · simp at h
      · rename_i db3 h3
        obtain ⟨-, rfl⟩ := AddNextCount_eq_some h3
        cases bAdd
        · simp only [Bool.false_eq_true, if_false] at h
          obtain ⟨-, rfl⟩ := TipAdd_eq_some h
          simp [onRow, onTips, hP, Function.comp_def]
        · simp only [if_true] at h
          split at h
          · simp at h
          · rename_i db4 h4
            obtain ⟨-, rfl⟩ := StateUpdPrevRow2_eq_some h4
            obtain ⟨-, rfl⟩ := TipDel_eq_some h
            simp [onRow, onTips, hP, Function.comp_def]

theorem onRow_rowid (k : ID) (R P : Nat) (b : Bool) (n : Nat) (r : StateRow) :
    (onRow k R P b n r).rowid = r.rowid := by
  unfold onRow setRowPrevOfNext addCountAt setRowPrevAt
  cases b <;> simp <;> split_ifs <;> simp_all

theorem onRow_Height (k : ID) (R P : Nat) (b : Bool) (n : Nat) (r : StateRow) :
    (onRow k R P b n r).Height = r.Height := by
  unfold onRow setRowPrevOfNext addCountAt setRowPrevAt
  cases b <;> simp <;> split_ifs <;> simp_all

theorem onRow_Hash (k : ID) (R P : Nat) (b : Bool) (n : Nat) (r : StateRow) :
    (onRow k R P b n r).Hash = r.Hash := by
  unfold onRow setRowPrevOfNext addCountAt setRowPrevAt
  cases b <;> simp <;> split_ifs <;> simp_all

theorem onRow_HashPrev (k : ID) (R P : Nat) (b : Bool) (n : Nat) (r : StateRow) :
    (onRow k R P b n r).HashPrev = r.HashPrev := by
  unfold onRow setRowPrevOfNext addCountAt setRowPrevAt
  cases b <;> simp <;> split_ifs <;> simp_all

theorem onRow_RowPrev (k : ID) (R P : Nat) (b : Bool) (n : Nat) (r : StateRow) :
    (onRow k R P b n r).RowPrev =
      if b = true ∧ P ≠ 0 ∧ r.rowid = R then some P
      else if isNextOf k r = true then (if b = true then some R else none)
      else r.RowPrev := by
  unfold onRow setRowPrevOfNext addCountAt setRowPrevAt
  cases b <;> simp <;> split_ifs <;> simp_all

theorem onRow_CountNext (k : ID) (R P : Nat) (b : Bool) (n : Nat) (r : StateRow) :
    (onRow k R P b n r).CountNext =
      r.CountNext + (if b = true ∧ r.rowid = R then (n : Int) else 0)
        + (if P ≠ 0 ∧ r.rowid = P then (if b = true then 1 else -1) else 0) := by
  unfold onRow setRowPrevOfNext addCountAt setRowPrevAt
  cases b <;> simp [bind_int_neg_one] <;> split_ifs <;> simp_all

theorem rowid_lt_get_LastInsertRowID {rows : List StateRow} {r : StateRow} (hr : r ∈ rows) :
    r.rowid < get_LastInsertRowID rows := by
  unfold get_LastInsertRowID
  induction rows with
  | nil => simp at hr
  | cons a t ih =>
    simp only [List.map_cons, List.foldr_cons]
    rcases List.mem_cons.mp hr with rfl | h
    · omega
    · have := ih h
      omega

theorem StateFindSafe_spec (db : NodeDB) (k : ID) :
    (StateFindSafe db k = 0 ∧
        ∀ r ∈ db.States, ¬ (r.Height = k.m_Height ∧ r.Hash = k.m_Hash)) ∨
      ∃ p ∈ db.States, p.rowid = StateFindSafe db k ∧ p.Height = k.m_Height ∧ p.Hash = k.m_Hash := by
  unfold StateFindSafe
  cases hf : db.States.find?
      (fun r => decide (r.Height = k.m_Height) && decide (r.Hash = k.m_Hash)) with
  | none =>
    left
    refine ⟨rfl, ?_⟩
    intro r hr
    have := List.find?_eq_none.mp hf r hr
    simpa using this
  | some p =>
    right
    have hp := List.find?_some hf
    have hm := List.mem_of_find?_eq_some hf
    simp only [Bool.and_eq_true, decide_eq_true_eq] at hp
    exact ⟨p, hm, rfl, hp.1, hp.2⟩

theorem eq_of_rowid_eq {rows : List StateRow} (hnd : (rows.map (fun r => r.rowid)).Nodup)
    {a b : StateRow} (ha : a ∈ rows) (hb : b ∈ rows) (h : a.rowid = b.rowid) : a = b :=
  List.inj_on_of_nodup_map hnd ha hb h

theorem countP_rowid_eq_one {rows : List StateRow} (hnd : (rows.map (fun r => r.rowid)).Nodup)
    {a : StateRow} (ha : a ∈ rows) :
    rows.countP (fun r => decide (r.rowid = a.rowid)) = 1 := by
  induction rows with
  | nil => simp at ha
  | cons x t ih =>
    simp only [List.map_cons, List.nodup_cons, List.mem_map, not_exists, not_and] at hnd
    rcases List.mem_cons.mp ha with rfl | h
    · have : t.countP (fun r => decide (r.rowid = a.rowid)) = 0 := by
        rw [List.countP_eq_zero]
        intro y hy
        simpa using hnd.1 y hy
      simp [List.countP_cons, this]
    · have hx : x.rowid ≠ a.rowid := fun e => hnd.1 a h e.symm
      simp [List.countP_cons, hx, ih hnd.2 h]

/-- Removing the one row with rowid `x.rowid` lowers the count of a predicate that holds at `x`
by one. -/
theorem countP_split_off {rows : List StateRow} (hnd : (rows.map (fun r => r.rowid)).Nodup)
    {x : StateRow} (hx : x ∈ rows) (p : StateRow → Bool) (hp : p x = true) :
    rows.countP p = rows.countP (fun c => p c && decide (c.rowid ≠ x.rowid)) + 1 := by
  induction rows with
  | nil => simp at hx
  | cons a t ih =>
    simp only [List.map_cons, List.nodup_cons, List.mem_map, not_exists, not_and] at hnd
    rcases List.mem_cons.mp hx with rfl | h
    · have : t.countP (fun c => p c && decide (c.rowid ≠ x.rowid)) = t.countP p := by
        apply List.countP_congr
        intro y hy
        have : y.rowid ≠ x.rowid := hnd.1 y hy
        simp [this]
      rw [List.countP_cons, List.countP_cons, this]
      simp [hp]
    · have hax : a.rowid ≠ x.rowid := fun e => hnd.1 x h e.symm
      rw [List.countP_cons, List.countP_cons, ih hnd.2 h]
      simp [hax]
      omega

theorem onRow_eq (k : ID) (R P : Nat) (b : Bool) (n : Nat) (r : StateRow) :
    onRow k R P b n r =
      { r with
        RowPrev := (onRow k R P b n r).RowPrev
        CountNext := (onRow k R P b n r).CountNext } := by
  unfold onRow setRowPrevOfNext addCountAt setRowPrevAt
  cases b <;> simp <;> split_ifs <;> simp_all

/-- What a successful adding `OnStateAddRemove` tells about table `Tips`. -/
theorem OnStateAddRemove_add_tips {db db' : NodeDB} {k : ID} {R P : Nat}
    (h : OnStateAddRemove db k R P true = some db') :
    (db.States.countP (isNextOf k) = 0 → (⟨k.m_Height, R⟩ : TipRow) ∉ db.Tips) ∧
      (P ≠ 0 → (onTips k R 0 true (db.States.countP (isNextOf k)) db.Tips).count
        (⟨Height.prev k.m_Height, P⟩ : TipRow) = 1) := by
  unfold OnStateAddRemove at h
  simp only [if_true] at h
  split at h
  · simp at h
  · rename_i db2 h2
    by_cases hn : db.States.countP (isNextOf k) = 0
    · simp only [hn, ne_eq, not_true_eq_false, if_false] at h2
      obtain ⟨hnot, rfl⟩ := TipAdd_eq_some h2
      refine ⟨fun _ => hnot, ?_⟩
      intro hP
      simp only [hP, ne_eq, not_false_eq_true, if_true] at h
      split at h
      · simp at h
      · rename_i db3 h3
        obtain ⟨-, rfl⟩ := AddNextCount_eq_some h3
        split at h
        · simp at h
        · rename_i db4 h4
          obtain ⟨-, rfl⟩ := StateUpdPrevRow2_eq_some h4
          obtain ⟨hc, -⟩ := TipDel_eq_some h
          simpa [onTips, hn] using hc
    · simp only [hn, ne_eq, not_false_eq_true, if_true] at h2
      obtain ⟨-, rfl⟩ := AddNextCount_eq_some h2
      refine ⟨fun e => absurd e hn, ?_⟩
      intro hP
      simp only [hP, ne_eq, not_false_eq_true, if_true] at h
      split at h
      · simp at h
      · rename_i db3 h3
        obtain ⟨-, rfl⟩ := AddNextCount_eq_some h3
        split at h
        · simp at h
        · rename_i db4 h4
          obtain ⟨-, rfl⟩ := StateUpdPrevRow2_eq_some h4
          obtain ⟨hc, -⟩ := TipDel_eq_some h
          simpa [onTips, hn] using hc

/-- Sufficient conditions for a removing `OnStateAddRemove` to succeed. -/
theorem OnStateAddRemove_remove_ok (db : NodeDB) (k : ID) (R P : Nat)
    (h1 : db.States.countP (isNextOf k) = 0 → db.Tips.count (⟨k.m_Height, R⟩ : TipRow) = 1)
    (h2 : P ≠ 0 → db.States.countP (fun r => decide (r.rowid = P)) = 1)
    (h3 : P ≠ 0 → (⟨Height.prev k.m_Height, P⟩ : TipRow) ∉
      onTips k R 0 false (db.States.countP (isNextOf k)) db.Tips) :
    OnStateAddRemove db k R P false =
      some ⟨db.States.map (onRow k R P false (db.States.countP (isNextOf k))),
        onTips k R P false (db.States.countP (isNextOf k)) db.Tips⟩ := by
  have hcount : ∀ (f : StateRow → StateRow), (∀ r, (f r).rowid = r.rowid) →
      (db.States.map f).countP (fun r => decide (r.rowid = P)) =
        db.States.countP (fun r => decide (r.rowid = P)) := by
    intro f hf
    rw [List.countP_map]
    simp [Function.comp_def, hf]
  have hsr : ∀ r, (setRowPrevOfNext k none r).rowid = r.rowid := by
    intro r; unfold setRowPrevOfNext; split <;> rfl
  unfold OnStateAddRemove
  by_cases hn : db.States.countP (isNextOf k) = 0 <;> by_cases hP : P = 0
  · simp [hn, hP, TipDel, h1 hn, onRow, onTips]
  · have h2' := h2 hP
    have h3' := h3 hP
    simp [onTips, hn] at h3'
    simp [hn, hP, TipDel, h1 hn, AddNextCount, TipAdd, onRow, onTips, hcount _ hsr, h2',
      Function.comp_def]
    exact h3'
  · simp [hn, hP, onRow, onTips]
  · have h2' := h2 hP
    have h3' := h3 hP
    simp [onTips, hn] at h3'
    simp [hn, hP, AddNextCount, TipAdd, onRow, onTips, hcount _ hsr, h2', h3',
      Function.comp_def]

theorem StateFindSafe_append_new (db : NodeDB) (s : Full) (R : Nat) :
    StateFindSafe { db with States := db.States ++ [newStateRow R s] }
        ⟨Height.prev s.m_Height, s.m_HashPrev⟩ =
      StateFindSafe db ⟨Height.prev s.m_Height, s.m_HashPrev⟩ := by
  unfold StateFindSafe
  have hne : ¬ (s.m_Height = Height.prev s.m_Height) := fun e => Height.prev_ne _ e.symm
  simp [List.find?_append, newStateRow, hne]

theorem countP_isNextOf_append_new (rows : List StateRow) (s : Full) (R : Nat) :
    (rows ++ [newStateRow R s]).countP (isNextOf s.toID) = rows.countP (isNextOf s.toID) := by
  have hne : ¬ (s.m_Height = Height.next s.m_Height) := fun e => Height.next_ne _ e.symm
  simp [isNextOf, newStateRow, Full.toID, hne]

theorem InsertState_eq_some {db db' : NodeDB} {s : Full} {R : Nat}
    (h : InsertState db s = some (db', R)) :
    (∀ r ∈ db.States, ¬ (r.Height = s.m_Height ∧ r.Hash = s.m_Hash)) ∧
      R = get_LastInsertRowID db.States ∧
      db' = ⟨(db.States ++ [newStateRow R s]).map
          (onRow s.toID R (StateFindSafe db ⟨Height.prev s.m_Height, s.m_HashPrev⟩) true
            (db.States.countP (isNextOf s.toID))),
        onTips s.toID R (StateFindSafe db ⟨Height.prev s.m_Height, s.m_HashPrev⟩) true
          (db.States.countP (isNextOf s.toID)) db.Tips⟩ := by
  unfold InsertState at h
  split at h
  · simp at h
  · rename_i hk
    simp only at h
    split at h
    · simp at h
    · rename_i db2 h2
      simp only [Option.some.injEq, Prod.mk.injEq] at h
      obtain ⟨rfl, rfl⟩ := h
      have := OnStateAddRemove_eq_some h2
      rw [StateFindSafe_append_new] at this
      simp only [countP_isNextOf_append_new] at this
      refine ⟨?_, rfl, this⟩
      intro r hr
      simp only [List.any_eq_true, Bool.and_eq_true, decide_eq_true_eq, not_exists, not_and] at hk
      intro hc
      exact hk r hr hc.1 hc.2

/-- What a successful `InsertState` tells about table `Tips` before the call. -/
theorem InsertState_tips {db db' : NodeDB} {s : Full} {R : Nat}
    (h : InsertState db s = some (db', R)) :
    (db.States.countP (isNextOf s.toID) = 0 → (⟨s.m_Height, R⟩ : TipRow) ∉ db.Tips) ∧
      (StateFindSafe db ⟨Height.prev s.m_Height, s.m_HashPrev⟩ ≠ 0 →
        (onTips s.toID R 0 true (db.States.countP (isNextOf s.toID)) db.Tips).count
          (⟨Height.prev s.m_Height, StateFindSafe db ⟨Height.prev s.m_Height, s.m_HashPrev⟩⟩
            : TipRow) = 1) := by
  unfold InsertState at h
  split at h
  · simp at h
  · simp only at h
    split at h
    · simp at h
    · rename_i db2 h2
      simp only [Option.some.injEq, Prod.mk.injEq] at h
      obtain ⟨rfl, rfl⟩ := h
      have := OnStateAddRemove_add_tips h2
      rw [StateFindSafe_append_new] at this
      simp only [countP_isNextOf_append_new] at this
      exact this

theorem DeleteIdleState_ok (db : NodeDB) (R : Nat) {db1 : NodeDB} {x : StateRow}
    (hf : db.States.find? (fun r => decide (r.rowid = R)) = some x)
    (h1 : OnStateAddRemove db ⟨x.Height, x.Hash⟩ R (x.RowPrev.getD 0) false = some db1)
    (h2 : db1.States.countP (fun r => decide (r.rowid = R)) = 1) :
    DeleteIdleState db R =
      some { db1 with States := db1.States.filter (fun r => decide (r.rowid ≠ R)) } := by
  unfold DeleteIdleState get_State get_StateAux
  simp only [hf, Full.toID, h1, h2, if_true]

theorem isNextOf_iff {k : ID} {r : StateRow} (hk : k.m_Height < Height.modulus)
    (hr : r.Height < Height.modulus) :
    isNextOf k r = true ↔ k.m_Height = Height.prev r.Height ∧ k.m_Hash = r.HashPrev := by
  unfold isNextOf
  simp only [Bool.and_eq_true, decide_eq_true_eq]
  constructor
  · rintro ⟨h1, h2⟩
    exact ⟨by rw [h1, Height.prev_next hk], h2.symm⟩
  · rintro ⟨h1, h2⟩
    exact ⟨by rw [h1, Height.next_prev hr], h2.symm⟩

theorem isParentOf_iff {p r : StateRow} :
    isParentOf p r = true ↔ p.Height = Height.prev r.Height ∧ p.Hash = r.HashPrev := by
  unfold isParentOf
  simp

theorem Consistent_empty : Consistent [] := by
  constructor <;> simp

theorem Consistent_insert {db db' : NodeDB} {s : Full} {R : Nat}
    (hc : Consistent db.States) (hs : s.m_Height < Height.modulus)
    (h : InsertState db s = some (db', R)) : Consistent db'.States := by
  obtain ⟨hkey, hR, rfl⟩ := InsertState_eq_some h
  have hfresh : ∀ r ∈ db.States, r.rowid ≠ R := fun r hr => by
    have := rowid_lt_get_LastInsertRowID hr
    omega
  have hR0 : R ≠ 0 := by
    unfold get_LastInsertRowID at hR
    omega
  have hP := StateFindSafe_spec db ⟨Height.prev s.m_Height, s.m_HashPrev⟩
  generalize StateFindSafe db ⟨Height.prev s.m_Height, s.m_HashPrev⟩ = P at hP ⊢
  simp only at hP
  generalize hn : db.States.countP (isNextOf s.toID) = n
  have hsk : s.toID.m_Height < Height.modulus := hs
  -- the parent rowid is never the new rowid
  have hPR : P ≠ R := by
    rcases hP with ⟨h0, -⟩ | ⟨p, hp, hpid, -⟩
    · omega
    · exact hpid ▸ hfresh p hp
  have hP0 : P ≠ 0 → ∃ p ∈ db.States, p.rowid = P ∧ p.Height = Height.prev s.m_Height ∧
      p.Hash = s.m_HashPrev := by
    intro hne
    rcases hP with ⟨h0, -⟩ | hp
    · exact absurd h0 hne
    · exact hp
  -- effect on the old rows
  have hFprev : ∀ r ∈ db.States, (onRow s.toID R P true n r).RowPrev =
      if isNextOf s.toID r = true then some R else r.RowPrev := by
    intro r hr
    rw [onRow_RowPrev]
    simp [hfresh r hr]
  have hFcnt : ∀ r ∈ db.States, (onRow s.toID R P true n r).CountNext =
      r.CountNext + if r.rowid = P then 1 else 0 := by
    intro r hr
    rw [onRow_CountNext]
    have h0 := hc.pos r hr
    by_cases hrp : r.rowid = P
    · have : P ≠ 0 := hrp ▸ h0
      simp [hfresh r hr, hrp, this, hPR]
    · simp [hfresh r hr, hrp]
  -- the new row
  have hNnext : isNextOf s.toID (newStateRow R s) = false := by
    have hne : ¬ (s.m_Height = Height.next s.m_Height) := fun e => Height.next_ne _ e.symm
    simp [isNextOf, newStateRow, Full.toID, hne]
  have hNprev : (onRow s.toID R P true n (newStateRow R s)).RowPrev =
      if P = 0 then none else some P := by
    rw [onRow_RowPrev, hNnext]
    by_cases hp : P = 0 <;> simp [hp, newStateRow]
  have hNcnt : (onRow s.toID R P true n (newStateRow R s)).CountNext = (n : Int) := by
    rw [onRow_CountNext]
    simp [newStateRow, hPR.symm]
  have hNid : (onRow s.toID R P true n (newStateRow R s)).rowid = R := by
    rw [onRow_rowid]; rfl
  have hNh : (onRow s.toID R P true n (newStateRow R s)).Height = s.m_Height := by
    rw [onRow_Height]; rfl
  have hNhash : (onRow s.toID R P true n (newStateRow R s)).Hash = s.m_Hash := by
    rw [onRow_Hash]; rfl
  have hNhp : (onRow s.toID R P true n (newStateRow R s)).HashPrev = s.m_HashPrev := by
    rw [onRow_HashPrev]; rfl
  -- no old row has a parent pointer to a row with the new key
  have hnoparent : ∀ c ∈ db.States, isNextOf s.toID c = true → c.RowPrev = none := by
    intro c hcm hnx
    cases hrp : c.RowPrev with
    | none => rfl
    | some id =>
      obtain ⟨p, hp, -, hpar⟩ := (hc.prev c hcm id).mp hrp
      rw [isParentOf_iff] at hpar
      rw [isNextOf_iff hsk (hc.hlt c hcm)] at hnx
      exact absurd ⟨hpar.1.trans hnx.1.symm, hpar.2.trans hnx.2.symm⟩ (hkey p hp)
  have hpar : ∀ a b : StateRow, isParentOf (onRow s.toID R P true n a)
      (onRow s.toID R P true n b) = isParentOf a b := by
    intro a b
    unfold isParentOf
    rw [onRow_Height, onRow_Height, onRow_Hash, onRow_HashPrev]
  have hNself : isParentOf (newStateRow R s) (newStateRow R s) = false := by
    have hne : ¬ (s.m_Height = Height.prev s.m_Height) := fun e => Height.prev_ne _ e.symm
    simp [isParentOf, newStateRow, hne]
  have hmem : ∀ x : StateRow,
      x ∈ List.map (onRow s.toID R P true n) (db.States ++ [newStateRow R s]) ↔
        (∃ r ∈ db.States, onRow s.toID R P true n r = x) ∨
          x = onRow s.toID R P true n (newStateRow R s) := by
    intro x
    simp only [List.map_append, List.map_cons, List.map_nil, List.mem_append, List.mem_map,
      List.mem_singleton]
  constructor
  · -- rowids stay distinct
    simp only [List.map_append, List.map_map, List.map_cons, List.map_nil, Function.comp_def,
      onRow_rowid]
    refine List.Nodup.append hc.nodup (List.nodup_singleton _) ?_
    intro x hx hx2
    simp only [List.mem_map] at hx
    obtain ⟨r, hr, rfl⟩ := hx
    simp only [List.mem_singleton] at hx2
    exact hfresh r hr hx2
  · -- rowids are non-zero
    intro r hr
    rcases (hmem r).mp hr with ⟨r0, hr0, rfl⟩ | rfl
    · rw [onRow_rowid]; exact hc.pos r0 hr0
    · rw [hNid]; exact hR0
  · -- heights fit
    intro r hr
    rcases (hmem r).mp hr with ⟨r0, hr0, rfl⟩ | rfl
    · rw [onRow_Height]; exact hc.hlt r0 hr0
    · rw [hNh]; exact hs
  · -- the primary key stays unique
    intro a ha b hb hh hhash
    rcases (hmem a).mp ha with ⟨a0, ha0, rfl⟩ | rfl <;>
      rcases (hmem b).mp hb with ⟨b0, hb0, rfl⟩ | rfl
    · simp only [onRow_rowid, onRow_Height, onRow_Hash] at hh hhash ⊢
      exact hc.key a0 ha0 b0 hb0 hh hhash
    · exfalso
      simp only [onRow_Height, onRow_Hash] at hh hhash
      exact hkey a0 ha0 ⟨hh, hhash⟩
    · exfalso
      simp only [onRow_Height, onRow_Hash] at hh hhash
      exact hkey b0 hb0 ⟨hh.symm, hhash.symm⟩
    · rfl
  · -- RowPrev is the parent, if present
    intro r hr id
    rcases (hmem r).mp hr with ⟨r0, hr0, rfl⟩ | rfl
    · rw [hFprev r0 hr0]
      by_cases hnx : isNextOf s.toID r0 = true
      · simp only [hnx, if_true, Option.some.injEq]
        have hnx2 := (isNextOf_iff hsk (hc.hlt r0 hr0)).mp hnx
        constructor
        · intro hid
          refine ⟨_, (hmem _).mpr (Or.inr rfl), hNid.trans hid, ?_⟩
          rw [hpar, isParentOf_iff]
          exact hnx2
        · rintro ⟨p, hp, hpid, hpp⟩
          rcases (hmem p).mp hp with ⟨p0, hp0, rfl⟩ | rfl
          · exfalso
            rw [hpar, isParentOf_iff] at hpp
            exact hkey p0 hp0 ⟨hpp.1.trans hnx2.1.symm, hpp.2.trans hnx2.2.symm⟩
          · exact hNid.symm.trans hpid
      · simp only [hnx, if_false, Bool.false_eq_true]
        rw [hc.prev r0 hr0 id]
        constructor
        · rintro ⟨p, hp, hpid, hpp⟩
          refine ⟨_, (hmem _).mpr (Or.inl ⟨p, hp, rfl⟩), ?_, ?_⟩
          · rw [onRow_rowid]; exact hpid
          · rw [hpar]; exact hpp
        · rintro ⟨p, hp, hpid, hpp⟩
          rcases (hmem p).mp hp with ⟨p0, hp0, rfl⟩ | rfl
          · rw [onRow_rowid] at hpid
            rw [hpar] at hpp
            exact ⟨p0, hp0, hpid, hpp⟩
          · exfalso
            rw [hpar, isParentOf_iff] at hpp
            exact hnx ((isNextOf_iff hsk (hc.hlt r0 hr0)).mpr hpp)
    · rw [hNprev]
      constructor
      · intro hid
        by_cases hp0 : P = 0
        · simp [hp0] at hid
        · simp only [hp0, if_false, Option.some.injEq] at hid
          obtain ⟨p, hp, hpid, hph, hphash⟩ := hP0 hp0
          refine ⟨_, (hmem _).mpr (Or.inl ⟨p, hp, rfl⟩), ?_, ?_⟩
          · rw [onRow_rowid]; exact hpid.trans hid
          · rw [hpar, isParentOf_iff]; exact ⟨hph, hphash⟩
      · rintro ⟨p, hp, hpid, hpp⟩
        rcases (hmem p).mp hp with ⟨p0, hp0, rfl⟩ | rfl
        · rw [hpar, isParentOf_iff] at hpp
          rw [onRow_rowid] at hpid
          rcases hP with ⟨-, hnone⟩ | ⟨q, hq, hqid, hqh, hqhash⟩
          · exact absurd hpp (hnone p0 hp0)
          · have e := hc.key p0 hp0 q hq (hpp.1.trans hqh.symm) (hpp.2.trans hqhash.symm)
            have hPid : P = id := by rw [← hqid, ← e, hpid]
            have hP0' : P ≠ 0 := by rw [← hqid]; exact hc.pos q hq
            rw [if_neg hP0', hPid]
        · exfalso
          rw [hpar, hNself] at hpp
          exact Bool.false_ne_true hpp
  · -- CountNext counts the rows pointing back
    intro r hr
    rw [List.map_append, List.countP_append, List.countP_map]
    simp only [List.map_cons, List.map_nil, List.countP_singleton, Function.comp_def]
    rcases (hmem r).mp hr with ⟨r0, hr0, rfl⟩ | rfl
    · rw [hFcnt r0 hr0, onRow_rowid, hNprev, hc.cnt r0 hr0]
      have hcongr : db.States.countP
            (fun c => decide ((onRow s.toID R P true n c).RowPrev = some r0.rowid)) =
          db.States.countP (fun c => decide (c.RowPrev = some r0.rowid)) := by
        apply List.countP_congr
        intro c hcm
        rw [hFprev c hcm]
        by_cases hnx : isNextOf s.toID c = true
        · have := hnoparent c hcm hnx
          have hne : ¬ (R = r0.rowid) := fun e => hfresh r0 hr0 e.symm
          simp [hnx, this, hne]
        · simp [hnx]
      rw [hcongr]
      have h0 := hc.pos r0 hr0
      by_cases hrp : r0.rowid = P
      · have hP0' : P ≠ 0 := hrp ▸ h0
        simp [hrp, hP0']
      · have hrp' : ¬ (P = r0.rowid) := fun e => hrp e.symm
        by_cases hp0 : P = 0 <;> simp [hrp, hrp', hp0, h0]
    · rw [hNcnt, hNid, hNprev]
      have hcongr : db.States.countP
            (fun c => decide ((onRow s.toID R P true n c).RowPrev = some R)) =
          db.States.countP (isNextOf s.toID) := by
        apply List.countP_congr
        intro c hcm
        rw [hFprev c hcm]
        by_cases hnx : isNextOf s.toID c = true
        · simp [hnx]
        · simp only [hnx, if_false, Bool.false_eq_true, decide_eq_true_eq, iff_false]
          intro hcr
          obtain ⟨p, hp, hpid, -⟩ := (hc.prev c hcm R).mp hcr
          exact hfresh p hp hpid
      rw [hcongr, hn]
      by_cases hp0 : P = 0 <;> simp [hp0, hPR]

theorem DeleteIdleState_eq_some {db db' : NodeDB} {R : Nat}
    (h : DeleteIdleState db R = some db') :
    ∃ x ∈ db.States, x.rowid = R ∧
      db.States.find? (fun r => decide (r.rowid = R)) = some x ∧
      db' = ⟨(db.States.map (onRow ⟨x.Height, x.Hash⟩ R (x.RowPrev.getD 0) false
            (db.States.countP (isNextOf ⟨x.Height, x.Hash⟩)))).filter
            (fun r => decide (r.rowid ≠ R)),
        onTips ⟨x.Height, x.Hash⟩ R (x.RowPrev.getD 0) false
          (db.States.countP (isNextOf ⟨x.Height, x.Hash⟩)) db.Tips⟩ := by
  unfold DeleteIdleState get_State get_StateAux at h
  cases hf : db.States.find? (fun r => decide (r.rowid = R)) with
  | none => simp [hf] at h
  | some x =>
    simp only [hf] at h
    have hx := List.find?_some hf
    have hm := List.mem_of_find?_eq_some hf
    simp only [decide_eq_true_eq] at hx
    refine ⟨x, hm, hx, rfl, ?_⟩
    split at h
    · simp at h
    · rename_i db1 h1
      have e := OnStateAddRemove_eq_some h1
      subst e
      split at h
      · simpa [Full.toID] using h.symm
      · simp at h

theorem Consistent_delete {db db' : NodeDB} {R : Nat}
    (hc : Consistent db.States) (h : DeleteIdleState db R = some db') :
    Consistent db'.States := by
  obtain ⟨x, hx, hxR, -, rfl⟩ := DeleteIdleState_eq_some h
  generalize hn : db.States.countP (isNextOf ⟨x.Height, x.Hash⟩) = n
  have hkx : (⟨x.Height, x.Hash⟩ : ID).m_Height < Height.modulus := hc.hlt x hx
  -- the stored parent pointer of the deleted row
  have hPx : ∀ r ∈ db.States,
      (x.RowPrev.getD 0 ≠ 0 ∧ r.rowid = x.RowPrev.getD 0) ↔ x.RowPrev = some r.rowid := by
    intro r hr
    have h0 := hc.pos r hr
    cases hxp : x.RowPrev with
    | none => simp
    | some id =>
      simp only [Option.getD_some, Option.some.injEq]
      constructor
      · rintro ⟨-, e⟩; exact e.symm
      · intro e; exact ⟨e ▸ h0, e.symm⟩
  have hGprev : ∀ r : StateRow,
      (onRow ⟨x.Height, x.Hash⟩ R (x.RowPrev.getD 0) false n r).RowPrev =
        if isNextOf ⟨x.Height, x.Hash⟩ r = true then none else r.RowPrev := by
    intro r
    rw [onRow_RowPrev]
    simp
  have hGcnt : ∀ r ∈ db.States,
      (onRow ⟨x.Height, x.Hash⟩ R (x.RowPrev.getD 0) false n r).CountNext =
        r.CountNext + if x.RowPrev = some r.rowid then -1 else 0 := by
    intro r hr
    rw [onRow_CountNext]
    by_cases hp : x.RowPrev = some r.rowid
    · have := (hPx r hr).mpr hp
      rw [if_pos this, if_pos hp]
      simp
    · have := mt (hPx r hr).mp hp
      rw [if_neg this, if_neg hp]
      simp
  have hpar : ∀ a b : StateRow,
      isParentOf (onRow ⟨x.Height, x.Hash⟩ R (x.RowPrev.getD 0) false n a)
        (onRow ⟨x.Height, x.Hash⟩ R (x.RowPrev.getD 0) false n b) = isParentOf a b := by
    intro a b
    unfold isParentOf
    rw [onRow_Height, onRow_Height, onRow_Hash, onRow_HashPrev]
  have hmem : ∀ y : StateRow,
      y ∈ (db.States.map (onRow ⟨x.Height, x.Hash⟩ R (x.RowPrev.getD 0) false n)).filter
          (fun r => decide (r.rowid ≠ R)) ↔
        ∃ r ∈ db.States, r.rowid ≠ R ∧
          onRow ⟨x.Height, x.Hash⟩ R (x.RowPrev.getD 0) false n r = y := by
    intro y
    simp only [List.mem_filter, List.mem_map, decide_eq_true_eq]
    constructor
    · rintro ⟨⟨r, hr, rfl⟩, hne⟩
      rw [onRow_rowid] at hne
      exact ⟨r, hr, hne, rfl⟩
    · rintro ⟨r, hr, hne, rfl⟩
      exact ⟨⟨r, hr, rfl⟩, by rw [onRow_rowid]; exact hne⟩
  -- the rows that pointed to the deleted row are exactly the ones matched by the update
  have hnext : ∀ c ∈ db.States, isNextOf ⟨x.Height, x.Hash⟩ c = true ↔ c.RowPrev = some R := by
    intro c hcm
    rw [isNextOf_iff hkx (hc.hlt c hcm), hc.prev c hcm R]
    constructor
    · intro hk
      exact ⟨x, hx, hxR, isParentOf_iff.mpr hk⟩
    · rintro ⟨p, hp, hpR, hpp⟩
      have : p = x := eq_of_rowid_eq hc.nodup hp hx (hpR.trans hxR.symm)
      subst this
      exact isParentOf_iff.mp hpp
  constructor
  · -- rowids stay distinct
    have hsub : List.Sublist
        (((db.States.map (onRow ⟨x.Height, x.Hash⟩ R (x.RowPrev.getD 0) false n)).filter
          (fun r => decide (r.rowid ≠ R))).map (fun r => r.rowid))
        ((db.States.map (onRow ⟨x.Height, x.Hash⟩ R (x.RowPrev.getD 0) false n)).map
          (fun r => r.rowid)) := List.Sublist.map _ (List.filter_sublist _)
    refine List.Nodup.sublist hsub ?_
    simp only [List.map_map, Function.comp_def, onRow_rowid]
    exact hc.nodup
  · intro r hr
    obtain ⟨r0, hr0, -, rfl⟩ := (hmem r).mp hr
    rw [onRow_rowid]; exact hc.pos r0 hr0
  · intro r hr
    obtain ⟨r0, hr0, -, rfl⟩ := (hmem r).mp hr
    rw [onRow_Height]; exact hc.hlt r0 hr0
  · intro a ha b hb hh hhash
    obtain ⟨a0, ha0, -, rfl⟩ := (hmem a).mp ha
    obtain ⟨b0, hb0, -, rfl⟩ := (hmem b).mp hb
    simp only [onRow_rowid, onRow_Height, onRow_Hash] at hh hhash ⊢
    exact hc.key a0 ha0 b0 hb0 hh hhash
  · -- RowPrev is the parent, if present
    intro r hr id
    obtain ⟨r0, hr0, hne0, rfl⟩ := (hmem r).mp hr
    rw [hGprev]
    by_cases hnx : isNextOf ⟨x.Height, x.Hash⟩ r0 = true
    · simp only [hnx, if_true, reduceCtorEq, false_iff, not_exists, not_and]
      have hnx2 := (isNextOf_iff hkx (hc.hlt r0 hr0)).mp hnx
      intro p hp _ hpp
      obtain ⟨p0, hp0, hpne, rfl⟩ := (hmem p).mp hp
      rw [hpar, isParentOf_iff] at hpp
      have := hc.key p0 hp0 x hx (hpp.1.trans hnx2.1.symm) (hpp.2.trans hnx2.2.symm)
      exact hpne (this.trans hxR)
    · simp only [hnx, if_false, Bool.false_eq_true]
      rw [hc.prev r0 hr0 id]
      constructor
      · rintro ⟨p, hp, hpid, hpp⟩
        have hpne : p.rowid ≠ R := by
          intro e
          have : p = x := eq_of_rowid_eq hc.nodup hp hx (e.trans hxR.symm)
          subst this
          exact hnx ((isNextOf_iff hkx (hc.hlt r0 hr0)).mpr (isParentOf_iff.mp hpp))
        refine ⟨_, (hmem _).mpr ⟨p, hp, hpne, rfl⟩, ?_, ?_⟩
        · rw [onRow_rowid]; exact hpid
        · rw [hpar]; exact hpp
      · rintro ⟨p, hp, hpid, hpp⟩
        obtain ⟨p0, hp0, -, rfl⟩ := (hmem p).mp hp
        rw [onRow_rowid] at hpid
        rw [hpar] at hpp
        exact ⟨p0, hp0, hpid, hpp⟩
  · -- CountNext counts the rows pointing back
    intro r hr
    obtain ⟨r0, hr0, hne0, rfl⟩ := (hmem r).mp hr
    rw [List.countP_filter, List.countP_map, hGcnt r0 hr0, onRow_rowid, hc.cnt r0 hr0]
    have hcongr : db.States.countP
          ((fun c => decide (c.RowPrev = some r0.rowid) && decide (c.rowid ≠ R)) ∘
            onRow ⟨x.Height, x.Hash⟩ R (x.RowPrev.getD 0) false n) =
        db.States.countP
          (fun c => decide (c.RowPrev = some r0.rowid) && decide (c.rowid ≠ x.rowid)) := by
      apply List.countP_congr
      intro c hcm
      simp only [Function.comp_def, hGprev, onRow_rowid, hxR]
      by_cases hnx : isNextOf ⟨x.Height, x.Hash⟩ c = true
      · have hcR := (hnext c hcm).mp hnx
        have hne : ¬ (R = r0.rowid) := fun e => hne0 e.symm
        simp [hnx, hcR, hne]
      · simp [hnx]
    rw [hcongr]
    by_cases hp : x.RowPrev = some r0.rowid
    · have := countP_split_off hc.nodup hx (fun c => decide (c.RowPrev = some r0.rowid))
        (by simpa using hp)
      rw [this]
      simp [hp]
    · have hsame : db.States.countP
            (fun c => decide (c.RowPrev = some r0.rowid) && decide (c.rowid ≠ x.rowid)) =
          db.States.countP (fun c => decide (c.RowPrev = some r0.rowid)) := by
        apply List.countP_congr
        intro c hcm
        simp only [Bool.and_eq_true, decide_eq_true_eq, and_iff_left_iff_imp]
        intro hcp e
        have : c = x := eq_of_rowid_eq hc.nodup hcm hx e
        subst this
        exact hp hcp
      rw [hsame]
      simp [hp]

theorem Reachable.consistent {db : NodeDB} (h : Reachable db) : Consistent db.States := by
  induction h with
  | init => exact Consistent_empty
  | insert _ hs hi ih => exact Consistent_insert ih hs hi
  | delete _ hd ih => exact Consistent_delete ih hd

theorem onRow_onRow_eq_self {k1 k2 : ID} {R1 P1 R2 P2 : Nat} {b1 b2 : Bool} {n1 n2 : Nat}
    {r : StateRow}
    (hrp : (onRow k2 R2 P2 b2 n2 (onRow k1 R1 P1 b1 n1 r)).RowPrev = r.RowPrev)
    (hcn : (onRow k2 R2 P2 b2 n2 (onRow k1 R1 P1 b1 n1 r)).CountNext = r.CountNext) :
    onRow k2 R2 P2 b2 n2 (onRow k1 R1 P1 b1 n1 r) = r := by
  have e1 := onRow_eq k2 R2 P2 b2 n2 (onRow k1 R1 P1 b1 n1 r)
  have e2 := onRow_eq k1 R1 P1 b1 n1 r
  rw [hrp, hcn] at e1
  rw [e1]
  generalize onRow k1 R1 P1 b1 n1 r = y at e2 ⊢
  cases r
  cases y
  simp only [StateRow.mk.injEq] at e2 ⊢
  simp [e2]

theorem count_filter_ne_of_ne {T : List TipRow} {a b : TipRow} (hab : a ≠ b) :
    (T.filter (fun t => decide (t ≠ b))).count a = T.count a := by
  induction T with
  | nil => rfl
  | cons x t ih =>
    by_cases hx : x = b
    · subst hx
      have : ¬ (x = a) := fun e => hab e.symm
      simpa [List.filter_cons, List.count_cons, this] using ih
    · simpa [List.filter_cons, hx, List.count_cons] using ih

theorem filter_ne_eq_self {T : List TipRow} {a : TipRow} (ha : a ∉ T) :
    T.filter (fun t => decide (t ≠ a)) = T := by
  rw [List.filter_eq_self]
  intro x hx
  simp only [ne_eq, decide_not, Bool.not_eq_eq_eq_not, Bool.not_true, decide_eq_false_iff_not]
  intro e
  exact ha (e ▸ hx)

theorem perm_filter_ne_append {T : List TipRow} {b : TipRow} (hb : T.count b = 1) :
    (T.filter (fun t => decide (t ≠ b)) ++ [b]).Perm T := by
  rw [List.perm_iff_count]
  intro c
  by_cases hc : c = b
  · subst hc
    have : (T.filter (fun t => decide (t ≠ c))).count c = 0 := by
      rw [List.count_eq_zero]
      simp [List.mem_filter]
    rw [List.count_append, this, hb]
    simp
  · have h1 := @count_filter_ne_of_ne T c b hc
    have : ¬ (b = c) := fun e => hc e.symm
    rw [List.count_append, h1]
    simp [List.count_cons, this]

theorem onTips_remove_add_perm {k : ID} {R P n : Nat} {T : List TipRow}
    (hA : n = 0 → (⟨k.m_Height, R⟩ : TipRow) ∉ T)
    (hB : P ≠ 0 → (onTips k R 0 true n T).count (⟨Height.prev k.m_Height, P⟩ : TipRow) = 1) :
    (onTips k R P false n (onTips k R P true n T)).Perm T := by
  have hab : (⟨k.m_Height, R⟩ : TipRow) ≠ ⟨Height.prev k.m_Height, P⟩ := fun e =>
    Height.prev_ne _ (congrArg TipRow.Height e).symm
  by_cases hn : n = 0 <;> by_cases hP : P = 0
  · have := filter_ne_eq_self (hA hn)
    simp only [ne_eq, decide_not] at this
    simp [onTips, hn, hP, List.filter_append, this]
  · have hb := hB hP
    simp only [onTips, hn, ne_eq, not_true_eq_false, if_false, if_true, List.count_append] at hb
    have hb1 : T.count (⟨Height.prev k.m_Height, P⟩ : TipRow) = 1 := by
      have : ([(⟨k.m_Height, R⟩ : TipRow)]).count (⟨Height.prev k.m_Height, P⟩ : TipRow) = 0 := by
        rw [List.count_eq_zero]
        simpa using hab.symm
      omega
    have ha2 : (⟨k.m_Height, R⟩ : TipRow) ∉
        T.filter (fun t => decide (t ≠ (⟨Height.prev k.m_Height, P⟩ : TipRow))) := fun hm =>
      hA hn (List.mem_filter.mp hm).1
    have h1 := filter_ne_eq_self ha2
    have h2 := perm_filter_ne_append hb1
    simp only [ne_eq, decide_not] at h1 h2
    have hab' : ¬ (k.m_Height = Height.prev k.m_Height) := fun e => Height.prev_ne _ e.symm
    simpa [onTips, hn, hP, List.filter_append, h1, hab'] using h2
  · simp [onTips, hn, hP]
  · have hb := hB hP
    simp only [onTips, hn, ne_eq, not_false_eq_true, if_true, not_true_eq_false, if_false] at hb
    have h2 := perm_filter_ne_append hb
    simpa [onTips, hn, hP] using h2

theorem mem_of_mem_onTips_remove {k : ID} {R n : Nat} {T : List TipRow} {x : TipRow}
    (h : x ∈ onTips k R 0 false n T) : x ∈ T := by
  unfold onTips at h
  simp only [ne_eq, not_true_eq_false, if_false, Bool.false_eq_true] at h
  split at h
  · exact h
  · exact (List.mem_filter.mp h).1

theorem not_mem_onTips_add {k : ID} {R P n : Nat} {T : List TipRow} (hP : P ≠ 0) :
    (⟨Height.prev k.m_Height, P⟩ : TipRow) ∉ onTips k R P true n T := by
  intro h
  unfold onTips at h
  simp only [hP, ne_eq, not_false_eq_true, if_true] at h
  have := (List.mem_filter.mp h).2
  simp at this

theorem DeleteIdleState_InsertState {db db1 : NodeDB} {s : Full} {R : Nat}
    (hc : Consistent db.States) (hs : s.m_Height < Height.modulus)
    (h : InsertState db s = some (db1, R)) :
    ∃ db2, DeleteIdleState db1 R = some db2 ∧ db2.States = db.States ∧
      db2.Tips.Perm db.Tips := by
  have hc1 := Consistent_insert hc hs h
  obtain ⟨htA, htB⟩ := InsertState_tips h
  obtain ⟨hkey, hR, rfl⟩ := InsertState_eq_some h
  clear h
  have hfresh : ∀ r ∈ db.States, r.rowid ≠ R := fun r hr => by
    have := rowid_lt_get_LastInsertRowID hr
    omega
  have hP := StateFindSafe_spec db ⟨Height.prev s.m_Height, s.m_HashPrev⟩
  generalize StateFindSafe db ⟨Height.prev s.m_Height, s.m_HashPrev⟩ = P at hP htB hc1 ⊢
  simp only at hP hc1
  generalize hn : db.States.countP (isNextOf s.toID) = n at htA htB hc1 ⊢
  have hsk : s.toID.m_Height < Height.modulus := hs
  have hPR : P ≠ R := by
    rcases hP with ⟨h0, -⟩ | ⟨p, hp, hpid, -⟩
    · unfold get_LastInsertRowID at hR
      omega
    · exact hpid ▸ hfresh p hp
  have hNnext : isNextOf s.toID (newStateRow R s) = false := by
    have hne : ¬ (s.m_Height = Height.next s.m_Height) := fun e => Height.next_ne _ e.symm
    simp [isNextOf, newStateRow, Full.toID, hne]
  have hNprev : (onRow s.toID R P true n (newStateRow R s)).RowPrev.getD 0 = P := by
    rw [onRow_RowPrev, hNnext]
    by_cases hp : P = 0 <;> simp [hp, newStateRow]
  have hNid : (onRow s.toID R P true n (newStateRow R s)).rowid = R := by
    rw [onRow_rowid]; rfl
  have hNh : (onRow s.toID R P true n (newStateRow R s)).Height = s.m_Height := by
    rw [onRow_Height]; rfl
  have hNhash : (onRow s.toID R P true n (newStateRow R s)).Hash = s.m_Hash := by
    rw [onRow_Hash]; rfl
  have hmemN : onRow s.toID R P true n (newStateRow R s) ∈
      List.map (onRow s.toID R P true n) (db.States ++ [newStateRow R s]) :=
    List.mem_map.mpr ⟨_, by simp, rfl⟩
  -- the deleted row is the inserted one
  have hfind : (List.map (onRow s.toID R P true n) (db.States ++ [newStateRow R s])).find?
      (fun r => decide (r.rowid = R)) = some (onRow s.toID R P true n (newStateRow R s)) := by
    rw [List.map_append, List.find?_append]
    have : (List.map (onRow s.toID R P true n) db.States).find?
        (fun r => decide (r.rowid = R)) = none := by
      rw [List.find?_eq_none]
      intro x hx
      simp only [List.mem_map] at hx
      obtain ⟨r, hr, rfl⟩ := hx
      simp [onRow_rowid, hfresh r hr]
    rw [this]
    simp [hNid]
  have hcnt1 : (List.map (onRow s.toID R P true n) (db.States ++ [newStateRow R s])).countP
      (isNextOf s.toID) = n := by
    rw [List.countP_map]
    have : (isNextOf s.toID ∘ onRow s.toID R P true n) = isNextOf s.toID := by
      funext r
      simp [isNextOf, onRow_Height, onRow_HashPrev]
    rw [this, countP_isNextOf_append_new, hn]
  have hab : (⟨s.m_Height, R⟩ : TipRow) ≠ ⟨Height.prev s.m_Height, P⟩ := fun e =>
    Height.prev_ne _ (congrArg TipRow.Height e).symm
  -- the three conditions under which the removal goes through
  have c1 : n = 0 → (onTips s.toID R P true n db.Tips).count (⟨s.m_Height, R⟩ : TipRow) = 1 := by
    intro hn0
    have ha := htA hn0
    have hz : db.Tips.count (⟨s.m_Height, R⟩ : TipRow) = 0 := List.count_eq_zero.mpr ha
    by_cases hp : P = 0
    · simp [onTips, hn0, hp, Full.toID, List.count_append, hz]
    · have e : onTips s.toID R P true n db.Tips =
          (db.Tips ++ [(⟨s.m_Height, R⟩ : TipRow)]).filter
            (fun t => decide (t ≠ (⟨Height.prev s.m_Height, P⟩ : TipRow))) := by
        simp [onTips, hn0, hp, Full.toID]
      rw [e, count_filter_ne_of_ne hab, List.count_append, hz]
      simp
  have c2 : P ≠ 0 → (List.map (onRow s.toID R P true n)
      (db.States ++ [newStateRow R s])).countP (fun r => decide (r.rowid = P)) = 1 := by
    intro hp
    rcases hP with ⟨h0, -⟩ | ⟨p, hpm, hpid, -⟩
    · exact absurd h0 hp
    · have hm : onRow s.toID R P true n p ∈
          List.map (onRow s.toID R P true n) (db.States ++ [newStateRow R s]) :=
        List.mem_map.mpr ⟨p, by simp [hpm], rfl⟩
      have := countP_rowid_eq_one hc1.nodup hm
      rwa [onRow_rowid, hpid] at this
  have c3 : P ≠ 0 → (⟨Height.prev s.m_Height, P⟩ : TipRow) ∉
      onTips s.toID R 0 false n (onTips s.toID R P true n db.Tips) := by
    intro hp hm
    exact not_mem_onTips_add hp (mem_of_mem_onTips_remove hm)
  have hok := OnStateAddRemove_remove_ok
    ⟨List.map (onRow s.toID R P true n) (db.States ++ [newStateRow R s]),
      onTips s.toID R P true n db.Tips⟩ s.toID R P
    (by simp only [hcnt1]; exact c1) c2 (by simp only [hcnt1]; exact c3)
  simp only [hcnt1] at hok
  have hdel := DeleteIdleState_ok
    ⟨List.map (onRow s.toID R P true n) (db.States ++ [newStateRow R s]),
      onTips s.toID R P true n db.Tips⟩ R hfind
    (by rw [hNh, hNhash, hNprev]; exact hok)
    (by
      simp only [List.countP_map, Function.comp_def, onRow_rowid]
      have := countP_rowid_eq_one hc1.nodup hmemN
      simpa only [List.countP_map, Function.comp_def, onRow_rowid] using this)
  refine ⟨_, hdel, ?_, ?_⟩
  · -- table States is back to what it was
    show List.filter (fun r => decide (r.rowid ≠ R))
      (List.map (onRow s.toID R P false n)
        (List.map (onRow s.toID R P true n) (db.States ++ [newStateRow R s]))) = db.States
    have hnoparent : ∀ c ∈ db.States, isNextOf s.toID c = true → c.RowPrev = none := by
      intro c hcm hnx
      cases hrp : c.RowPrev with
      | none => rfl
      | some id =>
        obtain ⟨p, hp, -, hpar⟩ := (hc.prev c hcm id).mp hrp
        rw [isParentOf_iff] at hpar
        rw [isNextOf_iff hsk (hc.hlt c hcm)] at hnx
        exact absurd ⟨hpar.1.trans hnx.1.symm, hpar.2.trans hnx.2.symm⟩ (hkey p hp)
    have hnextF : ∀ r, isNextOf s.toID (onRow s.toID R P true n r) = isNextOf s.toID r := by
      intro r
      simp [isNextOf, onRow_Height, onRow_HashPrev]
    have hid : ∀ r ∈ db.States,
        onRow s.toID R P false n (onRow s.toID R P true n r) = r := by
      intro r hr
      apply onRow_onRow_eq_self
      · rw [onRow_RowPrev, hnextF, onRow_RowPrev]
        by_cases hnx : isNextOf s.toID r = true
        · simp [hnx, hnoparent r hr hnx]
        · simp [hnx, hfresh r hr]
      · rw [onRow_CountNext, onRow_CountNext, onRow_rowid]
        by_cases hrp : P ≠ 0 ∧ r.rowid = P
        · simp [hfresh r hr, hrp, hPR]
        · simp only [hrp, if_false]
          simp [hfresh r hr]
    rw [List.map_append, List.map_append, List.filter_append, List.map_map]
    have h1 : List.map (onRow s.toID R P false n ∘ onRow s.toID R P true n) db.States =
        db.States := by
      conv_rhs => rw [← List.map_id db.States]
      apply List.map_congr_left
      intro r hr
      exact hid r hr
    rw [h1]
    have h2 : db.States.filter (fun r => decide (r.rowid ≠ R)) = db.States := by
      rw [List.filter_eq_self]
      intro r hr
      simpa using hfresh r hr
    rw [h2]
    simp [onRow_rowid, newStateRow]
  · exact onTips_remove_add_perm htA htB

theorem isAtPrevHeight_eq {p r : StateRow} (h0 : r.Height ≠ 0)
    (hlt : r.Height < Height.modulus) : isAtPrevHeight p r = isParentOf p r := by
  unfold isAtPrevHeight isParentOf Height.prev
  have hiff : p.Height + 1 = r.Height ↔
      p.Height = (r.Height + (Height.modulus - 1)) % Height.modulus := by
    unfold Height.modulus at *
    omega
  rw [decide_eq_decide.mpr hiff]

theorem find?_congr_of_mem {α : Type} {p q : α → Bool} :
    ∀ {l : List α}, (∀ x ∈ l, p x = q x) → l.find? p = l.find? q
  | [], _ => rfl
  | a :: l, h => by
    have ha := h a (List.mem_cons_self _ _)
    have hl := find?_congr_of_mem (fun x hx => h x (List.mem_cons_of_mem _ hx))
    simp only [List.find?_cons, ha, hl]

theorem isAtPrevHeight_eq_of_mem {rows : List StateRow} (hc : Consistent rows)
    (h0 : ∀ x ∈ rows, x.Height = 0 →
      ∀ p ∈ rows, p.Height + 1 = Height.modulus → p.Hash ≠ x.HashPrev)
    {p r : StateRow} (hp : p ∈ rows) (hr : r ∈ rows) :
    isAtPrevHeight p r = isParentOf p r := by
  by_cases hz : r.Height = 0
  · have h1 : isAtPrevHeight p r = false := by
      unfold isAtPrevHeight
      have : ¬ p.Height + 1 = r.Height := by omega
      simp [this]
    have h2 : isParentOf p r = false := by
      unfold isParentOf Height.prev
      by_cases hh : p.Height = (r.Height + (Height.modulus - 1)) % Height.modulus
      · have hmax : p.Height + 1 = Height.modulus := by
          rw [hh, hz]
          unfold Height.modulus
          decide
        have := h0 r hr hz p hp hmax
        simp [this]
      · simp [hh]
    rw [h1, h2]
  · exact isAtPrevHeight_eq hz (hc.hlt r hr)

theorem Consistent.rebuildLinks_eq {rows : List StateRow} (hc : Consistent rows)
    (h0 : ∀ x ∈ rows, x.Height = 0 →
      ∀ p ∈ rows, p.Height + 1 = Height.modulus → p.Hash ≠ x.HashPrev) :
    rebuildLinks rows = rows := by
  unfold rebuildLinks
  conv_rhs => rw [← List.map_id rows]
  apply List.map_congr_left
  intro r hr
  have hfind : rows.find? (fun p => isAtPrevHeight p r) =
      rows.find? (fun p => isParentOf p r) :=
    find?_congr_of_mem (fun p hp => isAtPrevHeight_eq_of_mem hc h0 hp hr)
  have hprev : (rows.find? (fun p => isAtPrevHeight p r)).map (fun p => p.rowid) =
      r.RowPrev := by
    rw [hfind]
    cases hf : rows.find? (fun p => isParentOf p r) with
    | none =>
      have hnone := List.find?_eq_none.mp hf
      cases hrp : r.RowPrev with
      | none => rfl
      | some id =>
        obtain ⟨p, hp, -, hpp⟩ := (hc.prev r hr id).mp hrp
        exact absurd hpp (hnone p hp)
    | some p =>
      have hp := List.find?_some hf
      have hm := List.mem_of_find?_eq_some hf
      exact ((hc.prev r hr p.rowid).mpr ⟨p, hm, rfl, hp⟩).symm
  have hcnt : ((rows.countP (fun c => isAtPrevHeight r c) : Nat) : Int) = r.CountNext := by
    rw [hc.cnt r hr]
    congr 1
    apply List.countP_congr
    intro c hcm
    rw [isAtPrevHeight_eq_of_mem hc h0 hr hcm]
    simp only [decide_eq_true_eq]
    constructor
    · intro hpar
      exact (hc.prev c hcm r.rowid).mpr ⟨r, hr, rfl, hpar⟩
    · intro hrp
      obtain ⟨p, hp, hpid, hpp⟩ := (hc.prev c hcm r.rowid).mp hrp
      have : p = r := eq_of_rowid_eq hc.nodup hp hr hpid
      exact this ▸ hpp
  unfold rebuildRow
  rw [hprev, hcnt]
  rfl

theorem reachable_dbA : Reachable dbA :=
  @Reachable.insert NodeDB.empty dbA sampleA 1 Reachable.init (by decide) (by decide)

theorem reachable_dbAB : Reachable dbAB :=
  @Reachable.insert dbA dbAB sampleB 2 reachable_dbA (by decide) (by decide)

theorem reachable_dbABP : Reachable dbABP :=
  @Reachable.insert dbAB dbABP sampleP 3 reachable_dbAB (by decide) (by decide)

theorem reachable_dbBP : Reachable dbBP :=
  @Reachable.delete dbABP dbBP 1 reachable_dbABP (by decide)

theorem reachable_dbP : Reachable dbP :=
  @Reachable.insert NodeDB.empty dbP sampleP 1 Reachable.init (by decide) (by decide)

theorem reachable_dbPA : Reachable dbPA :=
  @Reachable.insert dbP dbPA sampleA 2 reachable_dbP (by decide) (by decide)

theorem reachable_dbAP : Reachable dbAP :=
  @Reachable.insert dbA dbAP sampleP 2 reachable_dbA (by decide) (by decide)

/-- C1: in every store reachable from the empty database by successful `InsertState` and
`DeleteIdleState` calls, the `CountNext` of each row of `States` is the number of rows whose
`RowPrev` is that row's rowid. -/
theorem count_next_counts_back_pointers (db : NodeDB) (h : Reachable db) :
    ∀ r ∈ db.States,
      r.CountNext = ((db.States.countP (fun c => decide (c.RowPrev = some r.rowid)) : Nat) : Int) :=
  h.consistent.cnt

/-- C1 (witness): the statement at the store `dbBP`, which is reached by three insertions and
one deletion. -/
theorem count_next_counts_back_pointers_witness :
    Reachable dbBP ∧ ∀ r ∈ dbBP.States,
      r.CountNext =
        ((dbBP.States.countP (fun c => decide (c.RowPrev = some r.rowid)) : Nat) : Int) :=
  ⟨reachable_dbBP, count_next_counts_back_pointers dbBP reachable_dbBP⟩

/-- C2 (the code at the failing input): after the children `sampleA`, `sampleB` and then their
parent `sampleP` are inserted and the child with rowid 1 is deleted, the store is reachable,
the parent (rowid 3, height 1) is in table `Tips` and its `CountNext` is still 1. -/
theorem tip_with_child_after_delete :
    DeleteIdleState dbABP 1 = some dbBP ∧ Reachable dbBP ∧
      (⟨1, 3⟩ : TipRow) ∈ dbBP.Tips ∧
      ∃ r ∈ dbBP.States, r.rowid = 3 ∧ r.Height = 1 ∧ r.CountNext = 1 :=
  ⟨by decide, reachable_dbBP, by decide, by decide⟩

/-- C3 (the code at the failing input): in the reachable store holding `sampleP` and its child
`sampleA`, the parent row of the new state `sampleB` is present, yet `InsertState sampleB`
fails. -/
theorem insert_second_child_fails :
    Reachable dbPA ∧ StateFindSafe dbPA ⟨Height.prev sampleB.m_Height, sampleB.m_HashPrev⟩ = 1 ∧
      InsertState dbPA sampleB = none :=
  ⟨reachable_dbPA, by decide, by decide⟩

/-- C4 (counterexample): `dbA` holds the childless state `sampleA` as a tip; inserting its
parent `sampleP` links the child to the new row 2 but leaves the child in table `Tips`. -/
theorem child_stays_in_tips :
    Reachable dbA ∧ InsertState dbA sampleP = some (dbAP, 2) ∧
      newStateRow 1 sampleA ∈ dbA.States ∧
      isNextOf sampleP.toID (newStateRow 1 sampleA) = true ∧
      (⟨(newStateRow 1 sampleA).Height, (newStateRow 1 sampleA).rowid⟩ : TipRow) ∈ dbAP.Tips :=
  ⟨reachable_dbA, by decide, by decide, by decide, by decide⟩

/-- C4 (amended): when `InsertState s` succeeds on a reachable store, every already-present child
(a row at height `s.m_Height + 1` whose `HashPrev` is `s.m_Hash`) gets the new rowid as its
`RowPrev` and is otherwise unchanged, its membership in table `Tips` is left as it was, and the
new row's `CountNext` ends equal to the number of such children. -/
theorem insert_links_present_children (db db' : NodeDB) (s : Full) (R : Nat)
    (hreach : Reachable db) (h : InsertState db s = some (db', R)) :
    (∀ c ∈ db.States, isNextOf s.toID c = true →
        { c with RowPrev := some R } ∈ db'.States ∧
        ((⟨c.Height, c.rowid⟩ : TipRow) ∈ db'.Tips ↔
          (⟨c.Height, c.rowid⟩ : TipRow) ∈ db.Tips)) ∧
      (∀ x ∈ db'.States, x.rowid = R →
        x.CountNext = ((db.States.countP (isNextOf s.toID) : Nat) : Int)) := by
  have hc := hreach.consistent
  obtain ⟨hkey, hR, rfl⟩ := InsertState_eq_some h
  clear h
  have hfresh : ∀ r ∈ db.States, r.rowid ≠ R := fun r hr => by
    have := rowid_lt_get_LastInsertRowID hr
    omega
  have hP := StateFindSafe_spec db ⟨Height.prev s.m_Height, s.m_HashPrev⟩
  generalize StateFindSafe db ⟨Height.prev s.m_Height, s.m_HashPrev⟩ = P at hP ⊢
  simp only at hP
  generalize db.States.countP (isNextOf s.toID) = n
  have hPR : P ≠ R := by
    rcases hP with ⟨h0, -⟩ | ⟨p, hp, hpid, -⟩
    · unfold get_LastInsertRowID at hR
      omega
    · exact hpid ▸ hfresh p hp
  constructor
  · intro c hcm hnx
    have hch : c.Height = Height.next s.m_Height := by
      unfold isNextOf at hnx
      simp only [Bool.and_eq_true, decide_eq_true_eq] at hnx
      exact hnx.1
    constructor
    · have hcP : ¬ (P ≠ 0 ∧ c.rowid = P) := by
        rintro ⟨hp0, hcp⟩
        rcases hP with ⟨h0, -⟩ | ⟨p, hp, hpid, hph, -⟩
        · exact hp0 h0
        · have : c = p := eq_of_rowid_eq hc.nodup hcm hp (hcp.trans hpid.symm)
          subst this
          exact Height.prev_ne_next _ (hph.symm.trans hch)
      have e : onRow s.toID R P true n c = { c with RowPrev := some R } := by
        rw [onRow_eq, onRow_RowPrev, onRow_CountNext, if_neg hcP]
        simp [hfresh c hcm, hnx]
      rw [← e]
      exact List.mem_map.mpr ⟨c, by simp [hcm], rfl⟩
    · have h1 : (⟨c.Height, c.rowid⟩ : TipRow) ≠ ⟨s.m_Height, R⟩ := fun e =>
        Height.next_ne _ (hch.symm.trans (congrArg TipRow.Height e))
      have h2 : (⟨c.Height, c.rowid⟩ : TipRow) ≠ ⟨Height.prev s.m_Height, P⟩ := fun e =>
        Height.prev_ne_next _ ((congrArg TipRow.Height e).symm.trans hch)
      unfold onTips
      simp only [Full.toID]
      by_cases hn : n = 0 <;> by_cases hp : P = 0 <;>
        simp [hn, hp, List.mem_filter, List.mem_append, h1, h2]
  · intro x hx hxR
    simp only [List.mem_map, List.mem_append, List.mem_singleton] at hx
    obtain ⟨r, hr, rfl⟩ := hx
    rw [onRow_rowid] at hxR
    rcases hr with hr | rfl
    · exact absurd hxR (hfresh r hr)
    · rw [onRow_CountNext]
      simp [newStateRow, hPR.symm]

/-- C4 (witness): the amended statement for the insertion of `sampleP` into `dbA`. -/
theorem insert_links_present_children_witness :
    Reachable dbA ∧ InsertState dbA sampleP = some (dbAP, 2) ∧
      ((∀ c ∈ dbA.States, isNextOf sampleP.toID c = true →
          { c with RowPrev := some 2 } ∈ dbAP.States ∧
          ((⟨c.Height, c.rowid⟩ : TipRow) ∈ dbAP.Tips ↔
            (⟨c.Height, c.rowid⟩ : TipRow) ∈ dbA.Tips)) ∧
        (∀ x ∈ dbAP.States, x.rowid = 2 →
          x.CountNext = ((dbA.States.countP (isNextOf sampleP.toID) : Nat) : Int))) :=
  ⟨reachable_dbA, by decide,
    insert_links_present_children dbA dbAP sampleP 2 reachable_dbA (by decide)⟩

/-- C5: on a reachable store, when `InsertState s` succeeds and returns rowid `r`,
`DeleteIdleState r` succeeds on the result, table `States` is again exactly what it was before
the insertion (so every other row has its old `RowPrev` and `CountNext`) and table `Tips` holds
the same rows as before. -/
theorem delete_undoes_insert (db db1 : NodeDB) (s : Full) (r : Nat)
    (hreach : Reachable db) (hs : s.m_Height < Height.modulus)
    (h : InsertState db s = some (db1, r)) :
    ∃ db2, DeleteIdleState db1 r = some db2 ∧ db2.States = db.States ∧
      db2.Tips.Perm db.Tips :=
  DeleteIdleState_InsertState hreach.consistent hs h

/-- C5 (witness): the statement for the insertion of `sampleA` into `dbP`. -/
theorem delete_undoes_insert_witness :
    Reachable dbP ∧ sampleA.m_Height < Height.modulus ∧
      InsertState dbP sampleA = some (dbPA, 2) ∧
      ∃ db2, DeleteIdleState dbPA 2 = some db2 ∧ db2.States = dbP.States ∧
        db2.Tips.Perm dbP.Tips :=
  ⟨reachable_dbP, by decide, by decide,
    delete_undoes_insert dbP dbPA sampleA 2 reachable_dbP (by decide) (by decide)⟩

/-- C6 (counterexample): `sampleTop` (height `2 ^ 64 - 1`), `sampleZero` (height 0, predecessor
hash that of `sampleTop`) and `sampleA` are inserted into the empty database and row 3
(`sampleA`) is deleted again; every call succeeds. In the store that is left the row at height
0 has `RowPrev = 1`, the row at height `2 ^ 64 - 1`, and that row has `CountNext = 1`, because
the code computes `0 - 1` in `uint64_t`. No row is at height `0 - 1`, so the rebuild from
scratch gives NULL and 0: it differs from the table. -/
theorem links_differ_from_rebuild_at_height_zero :
    Reachable dbTopZeroA ∧ DeleteIdleState dbTopZeroA 3 = some dbTopZero ∧
      rebuildLinks dbTopZero.States ≠ dbTopZero.States ∧
      rebuildLinks dbTopZero.States = [newStateRow 1 sampleTop, newStateRow 2 sampleZero] ∧
      dbTopZero.States =
        [{ newStateRow 1 sampleTop with CountNext := 1 },
          { newStateRow 2 sampleZero with RowPrev := some 1 }] :=
  ⟨@Reachable.insert dbTopZero dbTopZeroA sampleA 3
      (@Reachable.insert dbTop dbTopZero sampleZero 2
        (@Reachable.insert NodeDB.empty dbTop sampleTop 1 Reachable.init (by decide)
          (by decide))
        (by decide) (by decide))
      (by decide) (by decide),
    by decide, by decide, by decide, rfl⟩

/-- C6 (amended): after a successful `DeleteIdleState r` on a reachable store, if no remaining
row at height 0 names as its predecessor the hash of a remaining row at height `2 ^ 64 - 1`,
then no row with rowid `r` remains and rebuilding the links of the remaining rows from scratch
changes nothing: every `RowPrev` is the rowid of the remaining row at `(Height - 1, HashPrev)`
if there is one and NULL otherwise, and every `CountNext` is the number of remaining rows that
have the row at their `(Height - 1, HashPrev)`. -/
theorem links_after_delete_match_rebuild (db db' : NodeDB) (r : Nat)
    (hreach : Reachable db) (h : DeleteIdleState db r = some db')
    (hpos : ∀ x ∈ db'.States, x.Height = 0 →
      ∀ p ∈ db'.States, p.Height + 1 = Height.modulus → p.Hash ≠ x.HashPrev) :
    rebuildLinks db'.States = db'.States ∧ ∀ x ∈ db'.States, x.rowid ≠ r := by
  refine ⟨(Consistent_delete hreach.consistent h).rebuildLinks_eq hpos, ?_⟩
  obtain ⟨x, -, -, -, rfl⟩ := DeleteIdleState_eq_some h
  intro y hy
  have := (List.mem_filter.mp hy).2
  simpa using this

/-- C6 (witness): the statement for the deletion of rowid 1 from `dbABP`. -/
theorem links_after_delete_match_rebuild_witness :
    Reachable dbABP ∧ DeleteIdleState dbABP 1 = some dbBP ∧
      (∀ x ∈ dbBP.States, x.Height = 0 →
        ∀ p ∈ dbBP.States, p.Height + 1 = Height.modulus → p.Hash ≠ x.HashPrev) ∧
      rebuildLinks dbBP.States = dbBP.States ∧ ∀ x ∈ dbBP.States, x.rowid ≠ 1 :=
  ⟨reachable_dbABP, by decide, by decide,
    links_after_delete_match_rebuild dbABP dbBP 1 reachable_dbABP (by decide) (by decide)⟩

end NodeDB

end beam

/-! ## Part 2 (continued). Theorems: `NodeDB::Open` and `NodeDB::Transaction` -/

namespace beam

namespace NodeDB

theorem Transaction.Start_fresh (db : sqlite3) (h : db.journal = none) :
    Transaction.Start ⟨false⟩ db =
      (none, ⟨true⟩, ⟨db.tables, some db.tables, db.log ++ [Query.Begin]⟩) := by
  simp [Transaction.Start, ExecStep, h]

theorem Transaction.Commit_active (t : Transaction) (db : sqlite3) (saved : Option Tables)
    (ht : t.m_pDB = true) (h : db.journal = some saved) :
    t.Commit db = (none, ⟨false⟩, ⟨db.tables, none, db.log ++ [Query.Commit]⟩) := by
  simp [Transaction.Commit, ExecStep, h, ht]

theorem Transaction.Rollback_active (t : Transaction) (db : sqlite3) (saved : Option Tables)
    (ht : t.m_pDB = true) (h : db.journal = some saved) :
    t.Rollback db = (⟨false⟩, ⟨saved, none, db.log ++ [Query.Rollback]⟩) := by
  simp [Transaction.Rollback, ExecStep, h, ht]

theorem Transaction.Rollback_log (t : Transaction) (db : sqlite3) (ht : t.m_pDB = true) :
    (t.Rollback db).1 = ⟨false⟩ ∧ (t.Rollback db).2.log = db.log ++ [Query.Rollback] := by
  unfold Transaction.Rollback ExecStep
  cases h : db.journal <;> simp [ht, h]

theorem Transaction.Rollback_idle (t : Transaction) (db : sqlite3) (ht : t.m_pDB = false) :
    t.Rollback db = (t, db) := by
  simp [Transaction.Rollback, ht]

/-- `Open` without `bCreate` in a process where SQLite is not initialised yet and on a
database that opens, case by case. -/
theorem Open_existing (file : Option Tables) (DbVer : Nat) :
    Open false SQLITE_OK file DbVer false =
      match storedParamInt file DbVer with
      | some ver =>
        if ver % ParamInt.modulus = DB_VER then
          (none, some ⟨file, none, [Query.Begin, Query.Commit]⟩)
        else (some Failure.wrong_version, some ⟨file, none, [Query.Begin, Query.Rollback]⟩)
      | none =>
        (some (if file = none then Failure.sqlite else Failure.wrong_version),
          some ⟨file, none, [Query.Begin, Query.Rollback]⟩) := by
  have hcfg : TestRet (sqlite3_config false) = none := by decide
  have hopen : TestRet SQLITE_OK = none := by decide
  cases file with
  | none =>
    simp [Open, hcfg, hopen, Transaction.Start, ExecStep, sqlite3_open, Open.body,
      ParamIntGetDef, ParamIntGet, storedParamInt, Transaction.destructor,
      Transaction.Rollback]
  | some t =>
    cases hf : t.Params.find? (fun r => decide (r.ID = DbVer)) with
    | none =>
      simp [Open, hcfg, hopen, Transaction.Start, ExecStep, sqlite3_open, Open.body,
        ParamIntGetDef, ParamIntGet, storedParamInt, Transaction.destructor,
        Transaction.Rollback, hf, DB_VER]
    | some r =>
      by_cases hv : r.ParamInt.getD 0 % ParamInt.modulus = DB_VER
      · have hv2 : ¬ DB_VER ≠ r.ParamInt.getD 0 % ParamInt.modulus := fun h => h hv.symm
        simp [Open, hcfg, hopen, Transaction.Start, ExecStep, sqlite3_open, Open.body,
          ParamIntGetDef, ParamIntGet, storedParamInt, Transaction.destructor,
          Transaction.Rollback, hf, hv, Transaction.Commit]
      · have hv2 : DB_VER ≠ r.ParamInt.getD 0 % ParamInt.modulus := fun h => hv h.symm
        simp [Open, hcfg, hopen, Transaction.Start, ExecStep, sqlite3_open, Open.body,
          ParamIntGetDef, ParamIntGet, storedParamInt, Transaction.destructor,
          Transaction.Rollback, hf, hv, hv2]

/-- `Open` with `bCreate` in a process where SQLite is not initialised yet and on a database
that opens, case by case. -/
theorem Open_create (file : Option Tables) (DbVer : Nat) :
    Open false SQLITE_OK file DbVer true =
      match file with
      | none =>
        (none, some ⟨some ⟨[⟨DbVer, some DB_VER⟩]⟩, none, [Query.Begin, Query.Commit]⟩)
      | some t => (some Failure.sqlite, some ⟨some t, none, [Query.Begin, Query.Rollback]⟩) := by
  have hcfg : TestRet (sqlite3_config false) = none := by decide
  have hopen : TestRet SQLITE_OK = none := by decide
  cases file with
  | none =>
    simp [Open, hcfg, hopen, Transaction.Start, ExecStep, sqlite3_open, Open.body, Create,
      ParamIntSet, Transaction.destructor, Transaction.Rollback, Transaction.Commit, DB_VER,
      ParamInt.modulus]
  | some t =>
    simp [Open, hcfg, hopen, Transaction.Start, ExecStep, sqlite3_open, Open.body, Create,
      Transaction.destructor, Transaction.Rollback]

/-- Once SQLite is initialised in the process, `Open` fails at `sqlite3_config`, whatever the
database holds. -/
theorem Open_initialized (openRet : Nat) (file : Option Tables) (DbVer : Nat)
    (bCreate : Bool) : Open true openRet file DbVer bCreate = (some Failure.sqlite, none) := by
  have hcfg : TestRet (sqlite3_config true) = some Failure.sqlite := by decide
  simp [Open, hcfg]

/-- C24 (counterexample): a database whose stored `DbVer` is `2 ^ 32 + 8`, which differs from
8, opens without `bCreate`: `sqlite3_column_int` reads it as 8. And on a database whose stored
`DbVer` is 8, `Open` without `bCreate` fails when it is not the first `Open` of its process:
`sqlite3_config` answers `SQLITE_MISUSE` and `TestRet` throws. -/
theorem open_accepts_wide_version :
    storedParamInt (sampleFile 4294967304) 0 = some 4294967304 ∧ 4294967304 ≠ DB_VER ∧
      Open false SQLITE_OK (sampleFile 4294967304) 0 false =
        (none, some ⟨sampleFile 4294967304, none, [Query.Begin, Query.Commit]⟩) ∧
      storedParamInt (sampleFile 8) 0 = some DB_VER ∧
      Open true SQLITE_OK (sampleFile 8) 0 false = (some Failure.sqlite, none) := by
  decide

/-- C24 (amended): the schema version guard of `Open`, for the first `Open` of a process
(SQLite not initialised yet) on a database that `sqlite3_open` opens. Without `bCreate`, `Open`
returns normally exactly when table `Params` holds a `DbVer` whose low 32 bits, as
`sqlite3_column_int` reads them, are `DB_VER = 8`; so for every stored `uint32_t` value it
fails if and only if the value differs from 8, it fails for 7 and for 9, and it fails when
`DbVer` is missing (read as 0) or NULL. Whenever it fails the transaction is rolled back and
never committed and the tables are as before; when it passes the transaction is committed.
With `bCreate`, on a database without tables, `Open` returns normally; and whenever `Open`
with `bCreate` returns, `DbVer = 8` is stored and committed, and an `Open` without `bCreate` on
these tables, in a process of its own, returns normally. -/
theorem open_checks_schema_version (file : Option Tables) (DbVer : Nat) :
    ((Open false SQLITE_OK file DbVer false).1 = none ↔
        ∃ ver, storedParamInt file DbVer = some ver ∧ ver % ParamInt.modulus = DB_VER) ∧
      (∀ ver, storedParamInt file DbVer = some ver → ver < ParamInt.modulus →
        ((Open false SQLITE_OK file DbVer false).1 ≠ none ↔ ver ≠ DB_VER)) ∧
      (storedParamInt file DbVer = some 7 ∨ storedParamInt file DbVer = some 9 ∨
          storedParamInt file DbVer = some 0 ∨ storedParamInt file DbVer = none →
        (Open false SQLITE_OK file DbVer false).1 ≠ none) ∧
      (∀ t, file = some t → storedParamInt file DbVer = none →
        (Open false SQLITE_OK file DbVer false).1 = some Failure.wrong_version) ∧
      ((Open false SQLITE_OK file DbVer false).1 ≠ none →
        (Open false SQLITE_OK file DbVer false).2 =
          some ⟨file, none, [Query.Begin, Query.Rollback]⟩) ∧
      ((Open false SQLITE_OK file DbVer false).1 = none →
        (Open false SQLITE_OK file DbVer false).2 =
          some ⟨file, none, [Query.Begin, Query.Commit]⟩) ∧
      (Open false SQLITE_OK none DbVer true).1 = none ∧
      (∀ db, Open false SQLITE_OK file DbVer true = (none, some db) →
        storedParamInt db.tables DbVer = some DB_VER ∧ db.journal = none ∧
          db.log = [Query.Begin, Query.Commit] ∧
          (Open false SQLITE_OK db.tables DbVer false).1 = none) := by
  have hE := Open_existing file DbVer
  refine ⟨?_, ?_, ?_, ?_, ?_, ?_, ?_, ?_⟩
  · rw [hE]
    cases hs : storedParamInt file DbVer with
    | none => simp
    | some ver =>
      by_cases hv : ver % ParamInt.modulus = DB_VER
      · simp [hv]
      · simp [hv]
  · intro ver hs hlt
    rw [hE, hs]
    have hmod : ver % ParamInt.modulus = ver := Nat.mod_eq_of_lt hlt
    simp only [hmod]
    by_cases hv : ver = DB_VER
    · simp [hv]
    · simp [hv]
  · intro h
    rw [hE]
    rcases h with h | h | h | h <;> rw [h] <;> simp [ParamInt.modulus, DB_VER]
  · intro t ht hs
    rw [hE, hs]
    simp [ht]
  · intro h
    rw [hE] at h ⊢
    cases hs : storedParamInt file DbVer with
    | none => simp
    | some ver =>
      rw [hs] at h
      by_cases hv : ver % ParamInt.modulus = DB_VER
      · simp [hv] at h
      · simp [hv]
  · intro h
    rw [hE] at h ⊢
    cases hs : storedParamInt file DbVer with
    | none => rw [hs] at h; simp at h
    | some ver =>
      rw [hs] at h
      by_cases hv : ver % ParamInt.modulus = DB_VER
      · simp [hv]
      · simp [hv] at h
  · rw [Open_create]
  · intro db h
    rw [Open_create] at h
    cases file with
    | some t => simp at h
    | none =>
      simp only [Prod.mk.injEq, true_and, Option.some.injEq] at h
      subst h
      refine ⟨?_, rfl, rfl, ?_⟩
      · simp [storedParamInt]
      · rw [Open_existing]
        simp [storedParamInt, DB_VER, ParamInt.modulus]

/-- C25: a started `Transaction` (`m_pDB` set) rolls back on every exit except an explicit
commit. The destructor, which runs when the scope ends, issues exactly one `ROLLBACK` and
clears `m_pDB`; inside the transaction that `ROLLBACK` puts back the tables of `BEGIN`.
`Commit` issues a `COMMIT`; inside the transaction it returns normally and keeps the tables; and
once `Commit` has returned, neither the destructor nor a later `Rollback` issues anything.
`Rollback` called twice issues `ROLLBACK` once: the second call changes nothing. `Start` on a
connection outside a transaction gives such a started `Transaction`. -/
theorem transaction_rolls_back_unless_committed (t : Transaction) (db : sqlite3)
    (hstarted : t.m_pDB = true) :
    ((t.destructor db).1.m_pDB = false ∧
        (t.destructor db).2.log = db.log ++ [Query.Rollback]) ∧
      (∀ saved, db.journal = some saved →
        t.destructor db = (⟨false⟩, ⟨saved, none, db.log ++ [Query.Rollback]⟩)) ∧
      (t.Commit db).2.2.log = db.log ++ [Query.Commit] ∧
      (∀ saved, db.journal = some saved →
        t.Commit db = (none, ⟨false⟩, ⟨db.tables, none, db.log ++ [Query.Commit]⟩)) ∧
      (∀ t1 db1, t.Commit db = (none, t1, db1) →
        t1.destructor db1 = (t1, db1) ∧ t1.Rollback db1 = (t1, db1)) ∧
      ((t.Rollback db).1.Rollback (t.Rollback db).2 = t.Rollback db ∧
        (t.Rollback db).2.log = db.log ++ [Query.Rollback]) ∧
      (∀ db0 : sqlite3, db0.journal = none →
        ∃ db1, Transaction.Start ⟨false⟩ db0 = (none, ⟨true⟩, db1) ∧
          db1.journal = some db0.tables ∧ db1.log = db0.log ++ [Query.Begin]) := by
  refine ⟨?_, ?_, ?_, ?_, ?_, ?_, ?_⟩
  · have h := Transaction.Rollback_log t db hstarted
    unfold Transaction.destructor
    rw [h.1]
    exact ⟨rfl, h.2⟩
  · intro saved hj
    exact Transaction.Rollback_active t db saved hstarted hj
  · unfold Transaction.Commit ExecStep
    cases h : db.journal <;> simp [hstarted, h]
  · intro saved hj
    exact Transaction.Commit_active t db saved hstarted hj
  · intro t1 db1 h
    have ht1 : t1.m_pDB = false := by
      unfold Transaction.Commit ExecStep at h
      cases hj : db.journal with
      | none => simp [hstarted, hj] at h
      | some saved =>
        simp [hstarted, hj] at h
        rw [← h.1]
    exact ⟨Transaction.Rollback_idle t1 db1 ht1, Transaction.Rollback_idle t1 db1 ht1⟩
  · have h := Transaction.Rollback_log t db hstarted
    refine ⟨?_, h.2⟩
    apply Transaction.Rollback_idle
    rw [h.1]
  · intro db0 hj
    exact ⟨_, Transaction.Start_fresh db0 hj, rfl, rfl⟩

/-- C25 (witness): the transaction of `sampleConnection`, which has inserted a parameter since
`BEGIN`. -/
theorem transaction_rolls_back_unless_committed_witness :
    (Transaction.destructor ⟨true⟩ sampleConnection =
        (⟨false⟩, ⟨some ⟨[⟨0, some 8⟩]⟩, none, [Query.Begin, Query.Rollback]⟩)) ∧
      (Transaction.Commit ⟨true⟩ sampleConnection =
        (none, ⟨false⟩,
          ⟨some ⟨[⟨0, some 8⟩, ⟨5, some 1⟩]⟩, none, [Query.Begin, Query.Commit]⟩)) :=
  ⟨(transaction_rolls_back_unless_committed ⟨true⟩ sampleConnection rfl).2.1 _ rfl,
    (transaction_rolls_back_unless_committed ⟨true⟩ sampleConnection rfl).2.2.2.1 _ rfl⟩

end NodeDB

end beam

/-! ## Part 2 (continued). Theorems: `BaseTransaction` -/

namespace beam

open Block.SystemState

namespace wallet

namespace BaseTransaction

theorem SendTxParameters_params (tx : BaseTransaction) (msg : SetTxParameter) :
    (tx.SendTxParameters msg).2.params = tx.params ∧
      (tx.SendTxParameters msg).2.m_ID = tx.m_ID := by
  unfold SendTxParameters
  split <;> simp

theorem NotifyFailure_params (tx : BaseTransaction) (reason : TxFailureReason) :
    (tx.NotifyFailure reason).params = tx.params ∧ (tx.NotifyFailure reason).m_ID = tx.m_ID := by
  unfold NotifyFailure
  split
  · exact SendTxParameters_params _ _
  · exact SendTxParameters_params _ _
  · exact ⟨rfl, rfl⟩

theorem OnFailed_params (tx : BaseTransaction) (reason : TxFailureReason) (notify : Bool) :
    (tx.OnFailed reason notify).params =
      { tx.params with
        FailureReason := some reason
        Status := some
          (if reason = TxFailureReason.Canceled then TxStatus.Canceled else TxStatus.Failed) } := by
  unfold OnFailed on_tx_completed RollbackTx UpdateTxDescription SetParameter
  cases notify <;> simp [TxParameters.set, NotifyFailure_params]

/-- C7: for a transaction whose status is `InProgress` and which has `MyID` and `PeerID` stored,
`Cancel` first sends one message to `PeerID` carrying `FailureReason = Canceled` (the stored
parameters, hence the status `InProgress`, are untouched by the sending), then sets the status
to `Canceled`, then rolls the transaction back and then calls `on_tx_completed`, each once and
in this order. -/
theorem cancel_in_progress (tx : BaseTransaction) (myID peerID : Nat)
    (hS : tx.params.Status = some TxStatus.InProgress)
    (hMy : tx.params.MyID = some myID) (hPeer : tx.params.PeerID = some peerID) :
    (tx.NotifyFailure TxFailureReason.Canceled).params = tx.params ∧
      tx.Cancel =
        { tx with
          params := { tx.params with Status := some TxStatus.Canceled }
          calls := tx.calls ++
            [Call.send_tx_params peerID
                ⟨myID, tx.m_ID, tx.m_Type,
                  (TxParameterID.FailureReason, ParamValue.reason TxFailureReason.Canceled) ::
                    (match tx.params.MySecureWalletID, tx.params.PeerSecureWalletID with
                      | some secureWalletID, some _ =>
                        [(TxParameterID.PeerSecureWalletID, ParamValue.num secureWalletID)]
                      | _, _ => [])⟩,
              Call.setTxParameter tx.m_ID TxParameterID.Status
                (ParamValue.status TxStatus.Canceled) true,
              Call.rollbackTx tx.m_ID,
              Call.on_tx_completed tx.m_ID] } := by
  refine ⟨(NotifyFailure_params tx _).1, ?_⟩
  unfold Cancel on_tx_completed RollbackTx UpdateTxDescription SetParameter NotifyFailure
    SendTxParameters
  simp only [hS, hMy, hPeer, Option.getD_some]
  cases h1 : tx.params.MySecureWalletID <;> cases h2 : tx.params.PeerSecureWalletID <;>
    simp [TxParameters.set, SetTxParameter.AddParameter, SetTxParameter.default, hMy, hPeer,
      h1, h2]

/-- C7 (witness): the statement for `sampleInProgress`. -/
theorem cancel_in_progress_witness :
    sampleInProgress.params.Status = some TxStatus.InProgress ∧
      (sampleInProgress.NotifyFailure TxFailureReason.Canceled).params =
        sampleInProgress.params ∧
      sampleInProgress.Cancel =
        { sampleInProgress with
          params := { sampleInProgress.params with Status := some TxStatus.Canceled }
          calls := sampleInProgress.calls ++
            [Call.send_tx_params 200
                ⟨100, sampleInProgress.m_ID, sampleInProgress.m_Type,
                  (TxParameterID.FailureReason, ParamValue.reason TxFailureReason.Canceled) ::
                    (match sampleInProgress.params.MySecureWalletID,
                        sampleInProgress.params.PeerSecureWalletID with
                      | some secureWalletID, some _ =>
                        [(TxParameterID.PeerSecureWalletID, ParamValue.num secureWalletID)]
                      | _, _ => [])⟩,
              Call.setTxParameter sampleInProgress.m_ID TxParameterID.Status
                (ParamValue.status TxStatus.Canceled) true,
              Call.rollbackTx sampleInProgress.m_ID,
              Call.on_tx_completed sampleInProgress.m_ID] } :=
  ⟨rfl, cancel_in_progress sampleInProgress 100 200 rfl rfl rfl⟩

/-- C8: `Cancel` takes effect only from `Pending` or `InProgress`. With any other stored status,
or with none, it leaves the transaction as it is: no parameter changes and no call is made (no
peer message, no rollback, no `on_tx_completed`). `CanCancel` is true exactly when `Cancel`
changes something. From `Pending`, `Cancel` sets the status, rolls back and reports completion
without sending a peer message. -/
theorem cancel_only_from_pending_or_in_progress (tx : BaseTransaction) :
    ((tx.params.Status ≠ some TxStatus.Pending ∧ tx.params.Status ≠ some TxStatus.InProgress) →
        tx.Cancel = tx) ∧
      (tx.CanCancel = true ↔ tx.Cancel ≠ tx) ∧
      (tx.params.Status = some TxStatus.Pending →
        tx.Cancel =
          { tx with
            params := { tx.params with Status := some TxStatus.Canceled }
            calls := tx.calls ++
              [Call.setTxParameter tx.m_ID TxParameterID.Status
                  (ParamValue.status TxStatus.Canceled) true,
                Call.rollbackTx tx.m_ID,
                Call.on_tx_completed tx.m_ID] }) := by
  have hlen : ∀ t : BaseTransaction,
      (t.params.Status = some TxStatus.Pending ∨ t.params.Status = some TxStatus.InProgress) →
        t.calls.length < t.Cancel.calls.length := by
    intro t ht
    unfold Cancel on_tx_completed RollbackTx UpdateTxDescription SetParameter NotifyFailure
      SendTxParameters
    rcases ht with ht | ht <;> simp only [ht, Option.getD_some]
    · simp
    · simp only [or_true, if_true]
      (repeat' split) <;> simp
  refine ⟨?_, ?_, ?_⟩
  · rintro ⟨h1, h2⟩
    unfold Cancel
    cases hs : tx.params.Status with
    | none => simp
    | some s => cases s <;> simp_all
  · constructor
    · intro hc hEq
      have hst : tx.params.Status = some TxStatus.Pending ∨
          tx.params.Status = some TxStatus.InProgress := by
        unfold CanCancel at hc
        cases hs : tx.params.Status with
        | none => simp [hs] at hc
        | some s => cases s <;> simp_all
      have := hlen tx hst
      rw [hEq] at this
      exact Nat.lt_irrefl _ this
    · intro hne
      unfold CanCancel
      unfold Cancel at hne
      cases hs : tx.params.Status with
      | none => simp [hs] at hne
      | some s => cases s <;> simp_all
  · intro hs
    unfold Cancel on_tx_completed RollbackTx UpdateTxDescription SetParameter
    simp [hs, TxParameters.set]

/-- C9: for a transaction that is not terminal, has the max height `maxHeight` (`MaxHeight`, or
`PeerResponseHeight` when `MaxHeight` is absent) and lacks `TransactionRegistered` or
`KernelID`, `CheckExpired` returns true exactly when the gateway supplies a tip whose height is
greater than `maxHeight`; it then fails the transaction with `TransactionExpired` (status
`Failed`). Otherwise, in particular at tip height `maxHeight` and without a tip, it returns
false, changes no parameter and makes no call besides the `get_tip` query. -/
theorem check_expired_before_registration (tx : BaseTransaction) (tip : Option Full)
    (notifyDefault : Bool) (maxHeight : Nat)
    (hnt : tx.params.Status ≠ some TxStatus.Failed ∧ tx.params.Status ≠ some TxStatus.Canceled ∧
      tx.params.Status ≠ some TxStatus.Completed)
    (hmax : tx.params.MaxHeight = some maxHeight ∨
      (tx.params.MaxHeight = none ∧ tx.params.PeerResponseHeight = some maxHeight))
    (hunreg : tx.params.TransactionRegistered = none ∨ tx.params.KernelID = none) :
    ((tx.CheckExpired tip notifyDefault).1 = true ↔
        ∃ state, tip = some state ∧ state.m_Height > maxHeight) ∧
      ((tx.CheckExpired tip notifyDefault).1 = true →
        (tx.CheckExpired tip notifyDefault).2 =
            (tx.GetTip tip).2.OnFailed TxFailureReason.TransactionExpired notifyDefault ∧
          (tx.CheckExpired tip notifyDefault).2.params =
            { tx.params with
              FailureReason := some TxFailureReason.TransactionExpired
              Status := some TxStatus.Failed }) ∧
      ((tx.CheckExpired tip notifyDefault).1 = false →
        (tx.CheckExpired tip notifyDefault).2.params = tx.params ∧
          (tx.CheckExpired tip notifyDefault).2.calls = tx.calls ++ [Call.get_tip]) := by
  have hterm : ¬ (tx.params.Status = some TxStatus.Failed ∨
      tx.params.Status = some TxStatus.Canceled ∨ tx.params.Status = some TxStatus.Completed) := by
    rintro (h | h | h)
    · exact hnt.1 h
    · exact hnt.2.1 h
    · exact hnt.2.2 h
  have hm : (match tx.params.MaxHeight with
      | some h => some h
      | none => tx.params.PeerResponseHeight) = some maxHeight := by
    rcases hmax with h | ⟨h1, h2⟩
    · rw [h]
    · rw [h1]; exact h2
  unfold CheckExpired
  rw [if_neg hterm, hm]
  simp only [if_pos hunreg, GetTip]
  cases tip with
  | none => simp
  | some state =>
    by_cases hgt : state.m_Height > maxHeight
    · simp [hgt, OnFailed_params]
    · simp [hgt]

/-- C9 (witness): `samplePending` has max height 100; it expires at tip height 101, not at tip
height 100 and not without a tip. -/
theorem check_expired_before_registration_witness :
    (samplePending.CheckExpired (some ⟨101, 0, 0, 0, 0, 0, 0⟩) false).1 = true ∧
      (samplePending.CheckExpired (some ⟨100, 0, 0, 0, 0, 0, 0⟩) false).1 = false ∧
      (samplePending.CheckExpired none false).1 = false := by
  have h1 := check_expired_before_registration samplePending (some ⟨101, 0, 0, 0, 0, 0, 0⟩)
    false 100 (by decide) (by decide) (by decide)
  have h2 := check_expired_before_registration samplePending (some ⟨100, 0, 0, 0, 0, 0, 0⟩)
    false 100 (by decide) (by decide) (by decide)
  have h3 := check_expired_before_registration samplePending none
    false 100 (by decide) (by decide) (by decide)
  refine ⟨h1.1.mpr ⟨_, rfl, by decide⟩, ?_, ?_⟩
  · cases hb : (samplePending.CheckExpired (some ⟨100, 0, 0, 0, 0, 0, 0⟩) false).1 with
    | false => rfl
    | true =>
      obtain ⟨state, hst, hgt⟩ := h2.1.mp hb
      cases hst
      exact absurd hgt (by decide)
  · cases hb : (samplePending.CheckExpired none false).1 with
    | false => rfl
    | true =>
      obtain ⟨state, hst, -⟩ := h3.1.mp hb
      cases hst

/-- C10 (counterexample): a registered transaction in progress with `MaxHeight = 0` and
`KernelUnconfirmedHeight = 0` has `KernelUnconfirmedHeight ≥ MaxHeight`, yet `CheckExpired`
returns false and leaves it alone. -/
theorem check_expired_skips_zero_unconfirmed_height :
    sampleRegisteredAtZero.params.Status = some TxStatus.InProgress ∧
      sampleRegisteredAtZero.params.TransactionRegistered = some 1 ∧
      sampleRegisteredAtZero.params.KernelID = some 5 ∧
      sampleRegisteredAtZero.params.MaxHeight = some 0 ∧
      sampleRegisteredAtZero.params.KernelUnconfirmedHeight = some 0 ∧
      sampleRegisteredAtZero.CheckExpired none false = (false, sampleRegisteredAtZero) ∧
      sampleRegisteredAtZero.CheckExpired none true = (false, sampleRegisteredAtZero) :=
  ⟨rfl, rfl, rfl, rfl, rfl, by decide, by decide⟩

/-- C10 (amended): for a transaction that is not terminal, has both `TransactionRegistered` and
`KernelID` and has the max height `maxHeight`, `CheckExpired` fires (returns true and fails the
transaction with `TransactionExpired`) whenever the stored `KernelUnconfirmedHeight` is
non-zero and at least `maxHeight`, whatever the tip is and without asking for it; when
`KernelUnconfirmedHeight` is absent, zero or below `maxHeight` it returns false and changes
nothing. -/
theorem check_expired_after_registration (tx : BaseTransaction) (tip : Option Full)
    (notifyDefault : Bool) (maxHeight : Nat)
    (hnt : tx.params.Status ≠ some TxStatus.Failed ∧ tx.params.Status ≠ some TxStatus.Canceled ∧
      tx.params.Status ≠ some TxStatus.Completed)
    (hmax : tx.params.MaxHeight = some maxHeight ∨
      (tx.params.MaxHeight = none ∧ tx.params.PeerResponseHeight = some maxHeight))
    (hreg : tx.params.TransactionRegistered ≠ none ∧ tx.params.KernelID ≠ none) :
    ((∃ h, tx.params.KernelUnconfirmedHeight = some h ∧ 0 < h ∧ maxHeight ≤ h) →
        tx.CheckExpired tip notifyDefault =
          (true, tx.OnFailed TxFailureReason.TransactionExpired notifyDefault)) ∧
      ((¬ ∃ h, tx.params.KernelUnconfirmedHeight = some h ∧ 0 < h ∧ maxHeight ≤ h) →
        tx.CheckExpired tip notifyDefault = (false, tx)) := by
  have hterm : ¬ (tx.params.Status = some TxStatus.Failed ∨
      tx.params.Status = some TxStatus.Canceled ∨ tx.params.Status = some TxStatus.Completed) := by
    rintro (h | h | h)
    · exact hnt.1 h
    · exact hnt.2.1 h
    · exact hnt.2.2 h
  have hm : (match tx.params.MaxHeight with
      | some h => some h
      | none => tx.params.PeerResponseHeight) = some maxHeight := by
    rcases hmax with h | ⟨h1, h2⟩
    · rw [h]
    · rw [h1]; exact h2
  have hr : ¬ (tx.params.TransactionRegistered = none ∨ tx.params.KernelID = none) := by
    rintro (h | h)
    · exact hreg.1 h
    · exact hreg.2 h
  unfold CheckExpired
  rw [if_neg hterm, hm]
  simp only [if_neg hr]
  cases hk : tx.params.KernelUnconfirmedHeight with
  | none => simp
  | some h =>
    by_cases h0 : 0 < h <;> by_cases hge : maxHeight ≤ h <;> simp [h0, hge]

/-- C10 (witness): `sampleRegistered` has `KernelUnconfirmedHeight = 100` and max height 100;
it expires without a tip. -/
theorem check_expired_after_registration_witness :
    sampleRegistered.params.KernelUnconfirmedHeight = some 100 ∧
      sampleRegistered.CheckExpired none false =
        (true, sampleRegistered.OnFailed TxFailureReason.TransactionExpired false) :=
  ⟨rfl, (check_expired_after_registration sampleRegistered none false 100 (by decide)
    (by decide) (by decide)).1 ⟨100, rfl, by decide, by decide⟩⟩

theorem CheckExpired_of_terminal (tx : BaseTransaction) (tip : Option Full)
    (notifyDefault : Bool)
    (hterm : tx.params.Status = some TxStatus.Completed ∨
      tx.params.Status = some TxStatus.Canceled ∨ tx.params.Status = some TxStatus.Failed) :
    tx.CheckExpired tip notifyDefault = (false, tx) := by
  unfold CheckExpired
  rcases hterm with h | h | h <;> simp [h]

/-- C11: terminal statuses never expire. For a transaction whose stored status is `Completed`,
`Canceled` or `Failed`, `CheckExpired` returns false and leaves the transaction as it is (no
parameter changes, no call is made, in particular no `get_tip`), whatever the tip, the default
of `OnFailed` and the stored heights are. -/
theorem check_expired_terminal (tx : BaseTransaction) (tip : Option Full) (notifyDefault : Bool)
    (hterm : tx.params.Status = some TxStatus.Completed ∨
      tx.params.Status = some TxStatus.Canceled ∨ tx.params.Status = some TxStatus.Failed) :
    tx.CheckExpired tip notifyDefault = (false, tx) :=
  CheckExpired_of_terminal tx tip notifyDefault hterm

/-- C11 (witness): the failed transaction `sampleFailed` has max height 100 and does not expire
at tip height 1000. -/
theorem check_expired_terminal_witness :
    sampleFailed.params.Status = some TxStatus.Failed ∧
      sampleFailed.CheckExpired (some ⟨1000, 0, 0, 0, 0, 0, 0⟩) true = (false, sampleFailed) :=
  ⟨rfl, check_expired_terminal sampleFailed (some ⟨1000, 0, 0, 0, 0, 0, 0⟩) true
    (Or.inr (Or.inr rfl))⟩

/-- C12 (counterexample): `sampleNoStatus` has `FailureReason` stored and no status at all, so
its status is not `InProgress`; the mandatory read of `Status` throws, `Update` fails the
transaction, and `UpdateImpl` is not invoked: the result is the same whatever `UpdateImpl` is,
also for `sampleImpl`, which would store the status `InProgress`. -/
theorem update_fails_without_status :
    sampleNoStatus.params.FailureReason = some TxFailureReason.Unknown ∧
      sampleNoStatus.params.Status = none ∧
      sampleNoStatus.CheckExternalFailures sampleEnv = Except.error TxException.other ∧
      (sampleNoStatus.Update sampleEnv).params.Status = some TxStatus.Failed ∧
      sampleNoStatus.Update { sampleEnv with UpdateImpl := sampleImpl } =
        sampleNoStatus.Update sampleEnv :=
  ⟨rfl, rfl, rfl, by decide, by decide⟩

/-- C12 (amended): let `FailureReason` be stored. When the stored status is `InProgress`,
`Update` is `OnFailed(reason, notify)` with the stored reason, between `OnAsyncStarted` and
`OnAsyncFinished`, where `notify` is the default argument of `OnFailed` (true, as the spec has
it); the result does not depend on `UpdateImpl`, no tip is asked for and `ModifyTime` is left as
it was. When another status is stored, `CheckExternalFailures` returns false without any effect
and `Update` goes on with `UpdateImpl`. When no status is stored, the mandatory read of `Status`
throws and `Update` handles the exception without invoking `UpdateImpl`. -/
theorem update_external_failure (tx : BaseTransaction) (env : UpdateEnv)
    (reason : TxFailureReason)
    (hdef : env.notifyDefault = OnFailed.defaultNotify)
    (hr : tx.params.FailureReason = some reason) :
    (tx.params.Status = some TxStatus.InProgress →
        tx.Update env =
            { ({ tx with calls := tx.calls ++ [Call.OnAsyncStarted],
                         m_EventToUpdate := false } : BaseTransaction).OnFailed reason true with
              calls := (({ tx with calls := tx.calls ++ [Call.OnAsyncStarted],
                                   m_EventToUpdate := false } : BaseTransaction).OnFailed
                reason true).calls ++ [Call.OnAsyncFinished] } ∧
          (tx.Update env).params.ModifyTime = tx.params.ModifyTime ∧
          Call.get_tip ∉ (tx.Update env).calls.drop tx.calls.length) ∧
      (∀ s, tx.params.Status = some s → s ≠ TxStatus.InProgress →
        tx.CheckExternalFailures env = Except.ok (false, tx) ∧
          tx.Update env =
            { Update.afterImpl env (env.UpdateImpl
                { tx with calls := tx.calls ++ [Call.OnAsyncStarted],
                          m_EventToUpdate := false }) with
              calls := (Update.afterImpl env (env.UpdateImpl
                { tx with calls := tx.calls ++ [Call.OnAsyncStarted],
                          m_EventToUpdate := false })).calls ++ [Call.OnAsyncFinished] }) ∧
      (tx.params.Status = none →
        tx.CheckExternalFailures env = Except.error env.missingParameter ∧
          tx.Update env =
            { Update.onException env
                { tx with calls := tx.calls ++ [Call.OnAsyncStarted],
                          m_EventToUpdate := false } env.missingParameter with
              calls := (Update.onException env
                { tx with calls := tx.calls ++ [Call.OnAsyncStarted],
                          m_EventToUpdate := false } env.missingParameter).calls ++
                [Call.OnAsyncFinished] }) := by
  have hd : env.notifyDefault = true := hdef
  refine ⟨?_, ?_, ?_⟩
  · intro hs
    have hU : tx.Update env =
        { ({ tx with calls := tx.calls ++ [Call.OnAsyncStarted],
                     m_EventToUpdate := false } : BaseTransaction).OnFailed reason true with
          calls := (({ tx with calls := tx.calls ++ [Call.OnAsyncStarted],
                               m_EventToUpdate := false } : BaseTransaction).OnFailed
            reason true).calls ++ [Call.OnAsyncFinished] } := by
      unfold Update CheckExternalFailures
      simp [hr, hs, hd]
    refine ⟨hU, ?_, ?_⟩
    · rw [hU]
      simp [OnFailed_params]
    · rw [hU]
      unfold OnFailed on_tx_completed RollbackTx UpdateTxDescription SetParameter NotifyFailure
        SendTxParameters
      simp only [hs, Option.getD_some, if_true]
      (repeat' split) <;> simp
  · intro s hs hne
    have hC : tx.CheckExternalFailures env = Except.ok (false, tx) := by
      unfold CheckExternalFailures
      simp [hr, hs, hne]
    refine ⟨hC, ?_⟩
    unfold Update CheckExternalFailures
    simp [hr, hs, hne]
  · intro hs
    have hC : tx.CheckExternalFailures env = Except.error env.missingParameter := by
      unfold CheckExternalFailures
      simp [hr, hs]
    refine ⟨hC, ?_⟩
    unfold Update CheckExternalFailures
    simp [hr, hs]

/-- C12 (witness): `sampleExternallyFailed` is in progress and has a failure reason stored. -/
theorem update_external_failure_witness :
    sampleEnv.notifyDefault = OnFailed.defaultNotify ∧
      sampleExternallyFailed.params.FailureReason = some TxFailureReason.Unknown ∧
      sampleExternallyFailed.params.Status = some TxStatus.InProgress ∧
      (sampleExternallyFailed.Update sampleEnv).params.ModifyTime =
        sampleExternallyFailed.params.ModifyTime :=
  ⟨rfl, rfl, rfl,
    ((update_external_failure sampleExternallyFailed sampleEnv TxFailureReason.Unknown
      rfl rfl).1 rfl).2.1⟩

/-- C13 (counterexample): `sampleCompleted` is terminal and has no `ModifyTime`; with an
`UpdateImpl` that does nothing, `Update` at time 5 stores `ModifyTime = 5`. -/
theorem update_stamps_terminal :
    sampleCompleted.params.Status = some TxStatus.Completed ∧
      sampleCompleted.params.ModifyTime = none ∧
      (sampleCompleted.Update sampleEnv).params.ModifyTime = some 5 ∧
      (sampleCompleted.Update sampleEnv).calls =
        [Call.OnAsyncStarted,
          Call.setTxParameter 7 TxParameterID.ModifyTime (ParamValue.num 5) true,
          Call.OnAsyncFinished] :=
  ⟨rfl, rfl, by decide, by decide⟩

/-- C13 (amended): for a transaction whose status is terminal (`Completed`, `Canceled` or
`Failed`) the external-failure check of `Update` does not fire, and `Update` goes on to invoke
`UpdateImpl`, between `OnAsyncStarted` and `OnAsyncFinished`. When `UpdateImpl` returns
normally and leaves the status terminal, the expiry check does not fire either and all that
`Update` adds is the stamping of `ModifyTime` with the current time: no peer message, no
rollback and no completion notification. When `UpdateImpl` throws, `Update` runs its `catch`
clause as for any transaction: `OnFailed` with the reason and the notify flag of a
`TransactionFailedException`, and `OnFailed(Unknown)` for any other exception. -/
theorem update_terminal (tx : BaseTransaction) (env : UpdateEnv)
    (hterm : tx.params.Status = some TxStatus.Completed ∨
      tx.params.Status = some TxStatus.Canceled ∨ tx.params.Status = some TxStatus.Failed) :
    ({ tx with calls := tx.calls ++ [Call.OnAsyncStarted],
               m_EventToUpdate := false } : BaseTransaction).CheckExternalFailures env =
        Except.ok (false, { tx with calls := tx.calls ++ [Call.OnAsyncStarted],
                                    m_EventToUpdate := false }) ∧
      (∀ t : BaseTransaction,
        env.UpdateImpl { tx with calls := tx.calls ++ [Call.OnAsyncStarted],
                                 m_EventToUpdate := false } = (t, none) →
        (t.params.Status = some TxStatus.Completed ∨ t.params.Status = some TxStatus.Canceled ∨
          t.params.Status = some TxStatus.Failed) →
        t.CheckExpired env.tip env.notifyDefault = (false, t) ∧
          tx.Update env =
            { t with
              params := { t.params with ModifyTime := some env.now }
              calls := t.calls ++
                [Call.setTxParameter t.m_ID TxParameterID.ModifyTime (ParamValue.num env.now)
                    true,
                  Call.OnAsyncFinished] }) ∧
      (∀ (t : BaseTransaction) (notify : Bool) (reason : TxFailureReason),
        env.UpdateImpl { tx with calls := tx.calls ++ [Call.OnAsyncStarted],
                                 m_EventToUpdate := false } =
          (t, some (TxException.failed notify reason)) →
        tx.Update env =
          { t.OnFailed reason notify with
            calls := (t.OnFailed reason notify).calls ++ [Call.OnAsyncFinished] }) ∧
      (∀ t : BaseTransaction,
        env.UpdateImpl { tx with calls := tx.calls ++ [Call.OnAsyncStarted],
                                 m_EventToUpdate := false } = (t, some TxException.other) →
        tx.Update env =
          { t.OnFailed TxFailureReason.Unknown env.notifyDefault with
            calls := (t.OnFailed TxFailureReason.Unknown env.notifyDefault).calls ++
              [Call.OnAsyncFinished] }) := by
  have hC : ({ tx with calls := tx.calls ++ [Call.OnAsyncStarted],
                       m_EventToUpdate := false } : BaseTransaction).CheckExternalFailures env =
      Except.ok (false, { tx with calls := tx.calls ++ [Call.OnAsyncStarted],
                                  m_EventToUpdate := false }) := by
    unfold CheckExternalFailures
    cases hr : tx.params.FailureReason with
    | none => simp [hr]
    | some r => rcases hterm with h | h | h <;> simp [hr, h]
  refine ⟨hC, ?_, ?_, ?_⟩
  · intro t himpl hterm2
    refine ⟨CheckExpired_of_terminal t env.tip env.notifyDefault hterm2, ?_⟩
    unfold Update
    simp only [hC, himpl, Update.afterImpl,
      CheckExpired_of_terminal t env.tip env.notifyDefault hterm2]
    simp [SetParameter, TxParameters.set]
  · intro t notify reason himpl
    unfold Update
    simp only [hC, himpl, Update.afterImpl, Update.onException]
  · intro t himpl
    unfold Update
    simp only [hC, himpl, Update.afterImpl, Update.onException]

/-- C13 (witness): `sampleCompleted` with the `UpdateImpl` of `sampleEnv`, which does nothing. -/
theorem update_terminal_witness :
    sampleCompleted.Update sampleEnv =
      { sampleCompleted with
        params := { sampleCompleted.params with ModifyTime := some 5 }
        calls := [Call.OnAsyncStarted,
          Call.setTxParameter 7 TxParameterID.ModifyTime (ParamValue.num 5) true,
          Call.OnAsyncFinished] } :=
  ((update_terminal sampleCompleted sampleEnv (Or.inl rfl)).2.1
    { sampleCompleted with calls := [Call.OnAsyncStarted], m_EventToUpdate := false }
    rfl (Or.inl rfl)).2

/-- C14: `OnFailed(reason, notify)` stores `FailureReason = reason` with the flag false, sets the
status to `Canceled` when the reason is `Canceled` and to `Failed` otherwise, calls `rollbackTx`
and then `on_tx_completed`, each once. Before that it sends one message carrying
`FailureReason = reason` to `PeerID` exactly when `notify` is true, the status before the call
is `Pending` or `InProgress` and both `MyID` and `PeerID` are stored; otherwise it sends
nothing. -/
theorem on_failed_effects (tx : BaseTransaction) (reason : TxFailureReason) (notify : Bool) :
    tx.OnFailed reason notify =
      { tx with
        params := { tx.params with
          FailureReason := some reason
          Status := some
            (if reason = TxFailureReason.Canceled then TxStatus.Canceled else TxStatus.Failed) }
        calls := tx.calls ++
          (if notify = true ∧ (tx.params.Status = some TxStatus.Pending ∨
              tx.params.Status = some TxStatus.InProgress) then
            (match tx.params.MyID, tx.params.PeerID with
              | some myID, some peerID =>
                [Call.send_tx_params peerID
                  ⟨myID, tx.m_ID, tx.m_Type,
                    (TxParameterID.FailureReason, ParamValue.reason reason) ::
                      (match tx.params.MySecureWalletID, tx.params.PeerSecureWalletID with
                        | some secureWalletID, some _ =>
                          [(TxParameterID.PeerSecureWalletID, ParamValue.num secureWalletID)]
                        | _, _ => [])⟩]
              | _, _ => [])
          else []) ++
          [Call.setTxParameter tx.m_ID TxParameterID.FailureReason (ParamValue.reason reason)
              false,
            Call.setTxParameter tx.m_ID TxParameterID.Status
              (ParamValue.status
                (if reason = TxFailureReason.Canceled then TxStatus.Canceled
                  else TxStatus.Failed)) true,
            Call.rollbackTx tx.m_ID,
            Call.on_tx_completed tx.m_ID] } := by
  unfold OnFailed on_tx_completed RollbackTx UpdateTxDescription SetParameter NotifyFailure
    SendTxParameters
  cases notify
  · simp [TxParameters.set]
  · cases hs : tx.params.Status with
    | none => simp [TxParameters.set]
    | some s =>
      cases s <;> cases hm : tx.params.MyID <;> cases hp : tx.params.PeerID <;>
        cases h1 : tx.params.MySecureWalletID <;> cases h2 : tx.params.PeerSecureWalletID <;>
        simp [TxParameters.set, SetTxParameter.AddParameter, SetTxParameter.default, hm, hp,
          h1, h2, hs]

/-- C15: `Rollback(h)` returns true exactly when `KernelProofHeight` is stored and greater than
`h`; it then sets `Status = Registering`, `KernelProofHeight = 0` and
`KernelUnconfirmedHeight = 0` (three `SetParameter` calls, nothing else). Otherwise it returns
false and leaves the transaction as it is. -/
theorem rollback_above_height (tx : BaseTransaction) (height : Nat) :
    ((tx.Rollback height).1 = true ↔
        ∃ proofHeight, tx.params.KernelProofHeight = some proofHeight ∧ height < proofHeight) ∧
      ((tx.Rollback height).1 = true →
        (tx.Rollback height).2 =
          { tx with
            params := { tx.params with
              Status := some TxStatus.Registering
              KernelProofHeight := some 0
              KernelUnconfirmedHeight := some 0 }
            calls := tx.calls ++
              [Call.setTxParameter tx.m_ID TxParameterID.Status
                  (ParamValue.status TxStatus.Registering) SetParameter.defaultFlag,
                Call.setTxParameter tx.m_ID TxParameterID.KernelProofHeight (ParamValue.num 0)
                  SetParameter.defaultFlag,
                Call.setTxParameter tx.m_ID TxParameterID.KernelUnconfirmedHeight
                  (ParamValue.num 0) SetParameter.defaultFlag] }) ∧
      ((tx.Rollback height).1 = false → (tx.Rollback height).2 = tx) := by
  unfold Rollback
  cases hk : tx.params.KernelProofHeight with
  | none => simp
  | some ph =>
    by_cases hgt : ph > height
    · simp [hgt, SetParameter, TxParameters.set]
    · simp [hgt]

/-- C16 (counterexample): `UpdateTxDescription` stores `Status` with the flag true, which marks it
public; the message that `SendTxParameters` then sends for an empty `SetTxParameter` carries no
parameter at all. -/
theorem send_tx_parameters_skips_public_parameters :
    ((sampleInProgress.UpdateTxDescription TxStatus.InProgress).SendTxParameters
        SetTxParameter.default).2.calls =
      [Call.setTxParameter 7 TxParameterID.Status (ParamValue.status TxStatus.InProgress) true,
        Call.send_tx_params 200 ⟨100, 7, TxType.Simple, []⟩] := by
  decide

/-- C16 (amended): `SendTxParameters` puts into the message it was given this transaction's id
and type and `MyID` as the sender, keeps the parameters its caller had put there (it reads no
other parameter into the message, whatever its flag), hands the message to the gateway addressed
to `PeerID` and returns true if and only if both `MyID` and `PeerID` are stored; otherwise it
sends nothing and returns false. It appends the entry `PeerSecureWalletID` holding
`MySecureWalletID` if and only if both `MySecureWalletID` and `PeerSecureWalletID` are stored. -/
theorem send_tx_parameters (tx : BaseTransaction) (msg : SetTxParameter) :
    ((tx.SendTxParameters msg).1 = true ↔
        (∃ myID, tx.params.MyID = some myID) ∧ (∃ peerID, tx.params.PeerID = some peerID)) ∧
      (∀ myID peerID, tx.params.MyID = some myID → tx.params.PeerID = some peerID →
        (tx.SendTxParameters msg).2 =
          { tx with calls := tx.calls ++
            [Call.send_tx_params peerID
              ⟨myID, tx.m_ID, tx.m_Type,
                msg.m_Parameters ++
                  (match tx.params.MySecureWalletID, tx.params.PeerSecureWalletID with
                    | some secureWalletID, some _ =>
                      [(TxParameterID.PeerSecureWalletID, ParamValue.num secureWalletID)]
                    | _, _ => [])⟩] }) ∧
      ((tx.SendTxParameters msg).1 = false → (tx.SendTxParameters msg).2 = tx) := by
  unfold SendTxParameters
  cases hm : tx.params.MyID <;> cases hp : tx.params.PeerID <;>
    cases h1 : tx.params.MySecureWalletID <;> cases h2 : tx.params.PeerSecureWalletID <;>
    simp [SetTxParameter.AddParameter]

/-- C17: `SetCompletedTxCoinStatuses(h)` saves, in one `saveCoins` call, one coin for each coin
returned by `getCoinsByTx`, in the same order, and never raises a height: the saved
`m_confirmHeight` and `m_spentHeight` are at most the old ones, `m_confirmHeight` is
`min(old, h)` for a coin created by the transaction and `m_spentHeight` is `min(old, h)` for a
coin spent by it. -/
theorem set_completed_never_raises_heights (tx : BaseTransaction) (coins : List Coin)
    (MaturityStd proofHeight : Nat) :
    ∃ saved : List Coin,
      tx.SetCompletedTxCoinStatuses coins MaturityStd proofHeight =
          { tx with calls := tx.calls ++ [Call.saveCoins saved] } ∧
        List.Forall₂
          (fun old new =>
            new.m_confirmHeight ≤ old.m_confirmHeight ∧
              new.m_spentHeight ≤ old.m_spentHeight ∧
              (old.m_createTxId = some tx.m_ID →
                new.m_confirmHeight = min old.m_confirmHeight proofHeight) ∧
              (old.m_spentTxId = some tx.m_ID →
                new.m_spentHeight = min old.m_spentHeight proofHeight))
          coins saved := by
  refine ⟨coins.map (setCompletedCoin tx.m_ID MaturityStd proofHeight), rfl, ?_⟩
  rw [List.forall₂_map_right_iff]
  apply List.forall₂_same.mpr
  intro c _
  unfold setCompletedCoin
  by_cases h1 : c.m_createTxId = some tx.m_ID <;> by_cases h2 : c.m_spentTxId = some tx.m_ID <;>
    simp [h1, h2]

/-- C18 (counterexample): transaction 7 spends `sampleSpentCoin` without having created it; with
proof height 100 and standard maturity 5 the saved coin has its `m_spentHeight` lowered to 100
but keeps `m_maturity = 30` (not 105) and `m_confirmHeight = 20`. -/
theorem set_completed_keeps_maturity_of_spent_coin :
    sampleSpentCoin.m_spentTxId = some sampleInProgress.m_ID ∧
      sampleSpentCoin.m_createTxId = none ∧
      (sampleInProgress.SetCompletedTxCoinStatuses [sampleSpentCoin] 5 100).calls =
        [Call.saveCoins [⟨1, none, some 7, 20, 100, 30⟩]] := by
  decide

/-- C18 (amended): in the coins saved by `SetCompletedTxCoinStatuses(h)`, a coin created by the
transaction has `m_confirmHeight = min(old, h)` and `m_maturity = h + Maturity.Std` (modulo
`2 ^ 64`), a coin spent by it has `m_spentHeight = min(old, h)`; a coin not created by it, also
one that it spends, keeps its `m_maturity` and `m_confirmHeight`, and a coin not spent by it
keeps its `m_spentHeight`. -/
theorem set_completed_coin_statuses (tx : BaseTransaction) (coins : List Coin)
    (MaturityStd proofHeight : Nat) :
    ∃ saved : List Coin,
      tx.SetCompletedTxCoinStatuses coins MaturityStd proofHeight =
          { tx with calls := tx.calls ++ [Call.saveCoins saved] } ∧
        List.Forall₂
          (fun old new =>
            new.m_ID = old.m_ID ∧ new.m_createTxId = old.m_createTxId ∧
              new.m_spentTxId = old.m_spentTxId ∧
              (old.m_createTxId = some tx.m_ID →
                new.m_confirmHeight = min old.m_confirmHeight proofHeight ∧
                  new.m_maturity = (proofHeight + MaturityStd) % Height.modulus) ∧
              (old.m_createTxId ≠ some tx.m_ID →
                new.m_confirmHeight = old.m_confirmHeight ∧ new.m_maturity = old.m_maturity) ∧
              (old.m_spentTxId = some tx.m_ID →
                new.m_spentHeight = min old.m_spentHeight proofHeight) ∧
              (old.m_spentTxId ≠ some tx.m_ID → new.m_spentHeight = old.m_spentHeight))
          coins saved := by
  refine ⟨coins.map (setCompletedCoin tx.m_ID MaturityStd proofHeight), rfl, ?_⟩
  rw [List.forall₂_map_right_iff]
  apply List.forall₂_same.mpr
  intro c _
  unfold setCompletedCoin
  by_cases h1 : c.m_createTxId = some tx.m_ID <;> by_cases h2 : c.m_spentTxId = some tx.m_ID <;>
    simp [h1, h2]

end BaseTransaction

end wallet

end beam

/-! ## Part 2 (continued). Theorems: nonce slot, `UpdateAsync`, maturity -/

namespace beam

open Block.SystemState

namespace wallet

namespace BaseTransaction

theorem FreeResources_of_invalid (tx : BaseTransaction) (Invalid : Nat)
    (h : tx.params.NonceSlot.getD Invalid = Invalid) : tx.FreeResources Invalid = tx := by
  simp [FreeResources, FreeSlotSafe, GetSlotSafe, h]

theorem FreeResources_of_slot (tx : BaseTransaction) (Invalid slot : Nat)
    (h : tx.params.NonceSlot = some slot) (hne : slot ≠ Invalid) :
    tx.FreeResources Invalid =
      { tx with
        params := { tx.params with NonceSlot := some Invalid }
        calls := tx.calls ++ [Call.SlotFree slot,
          Call.setTxParameter tx.m_ID TxParameterID.NonceSlot (ParamValue.num Invalid)
            SetParameter.defaultFlag] } := by
  have hne2 : ¬ Invalid = slot := fun e => hne e.symm
  simp [FreeResources, FreeSlotSafe, GetSlotSafe, h, hne2, SetParameter, TxParameters.set]

theorem FreeResources_slot (tx : BaseTransaction) (Invalid : Nat) :
    (tx.FreeResources Invalid).params.NonceSlot.getD Invalid = Invalid := by
  cases h : tx.params.NonceSlot with
  | none =>
    rw [FreeResources_of_invalid tx Invalid (by simp [h])]
    simp [h]
  | some slot =>
    by_cases hs : slot = Invalid
    · rw [FreeResources_of_invalid tx Invalid (by simp [h, hs])]
      simp [h, hs]
    · rw [FreeResources_of_slot tx Invalid slot h hs]
      simp

theorem FreeResources_idem (tx : BaseTransaction) (Invalid : Nat) :
    (tx.FreeResources Invalid).FreeResources Invalid = tx.FreeResources Invalid :=
  FreeResources_of_invalid _ _ (FreeResources_slot tx Invalid)

theorem FreeResources_iterate (tx : BaseTransaction) (Invalid : Nat) (n : Nat) :
    (fun t : BaseTransaction => t.FreeResources Invalid)^[n + 1] tx =
      tx.FreeResources Invalid := by
  induction n with
  | zero => rfl
  | succ k ih =>
    rw [Function.iterate_succ_apply', ih]
    exact FreeResources_idem tx Invalid

/-- C26: freeing the nonce slot twice is safe. After `FreeResources` the parameter `NonceSlot`
reads as `Invalid` (it is stored as `Invalid`, or not stored at all when no slot was ever
stored); a second `FreeResources`, and any number of further ones, leaves the transaction as the
first one left it, parameters and calls alike, so it makes no `SlotFree` call. A transaction that
holds a valid slot makes exactly one `SlotFree` call, for that slot, and then stores `Invalid`;
a transaction without a valid slot makes no call at all. The same holds for a slot that
`GetSlotSafe(true)` has just allocated. -/
theorem free_resources_idempotent (tx : BaseTransaction) (Invalid : Nat) :
    (tx.FreeResources Invalid).params.NonceSlot.getD Invalid = Invalid ∧
      ((tx.FreeResources Invalid).GetSlotSafe Invalid false Invalid).1 = Invalid ∧
      (tx.FreeResources Invalid).FreeResources Invalid = tx.FreeResources Invalid ∧
      (∀ n, (fun t : BaseTransaction => t.FreeResources Invalid)^[n + 1] tx =
        tx.FreeResources Invalid) ∧
      (∀ slot, tx.params.NonceSlot = some slot → slot ≠ Invalid →
        (tx.FreeResources Invalid).calls = tx.calls ++ [Call.SlotFree slot,
            Call.setTxParameter tx.m_ID TxParameterID.NonceSlot (ParamValue.num Invalid)
              SetParameter.defaultFlag] ∧
          (tx.FreeResources Invalid).params = { tx.params with NonceSlot := some Invalid }) ∧
      (tx.params.NonceSlot.getD Invalid = Invalid → tx.FreeResources Invalid = tx) ∧
      (∀ allocated, tx.params.NonceSlot.getD Invalid = Invalid → allocated ≠ Invalid →
        (tx.GetSlotSafe Invalid true allocated).1 = allocated ∧
          (tx.GetSlotSafe Invalid true allocated).2.calls = tx.calls ++ [Call.SlotAllocate,
            Call.setTxParameter tx.m_ID TxParameterID.NonceSlot (ParamValue.num allocated)
              SetParameter.defaultFlag] ∧
          ∀ n, ((fun t : BaseTransaction => t.FreeResources Invalid)^[n + 1]
              (tx.GetSlotSafe Invalid true allocated).2).calls =
            (tx.GetSlotSafe Invalid true allocated).2.calls ++ [Call.SlotFree allocated,
              Call.setTxParameter tx.m_ID TxParameterID.NonceSlot (ParamValue.num Invalid)
                SetParameter.defaultFlag]) := by
  refine ⟨FreeResources_slot tx Invalid, ?_, FreeResources_idem tx Invalid,
    FreeResources_iterate tx Invalid, ?_, FreeResources_of_invalid tx Invalid, ?_⟩
  · simp [GetSlotSafe, FreeResources_slot tx Invalid]
  · intro slot h hne
    rw [FreeResources_of_slot tx Invalid slot h hne]
    exact ⟨rfl, rfl⟩
  · intro allocated h hne
    have hg : tx.GetSlotSafe Invalid true allocated =
        (allocated,
          { tx with
            params := { tx.params with NonceSlot := some allocated }
            calls := tx.calls ++ [Call.SlotAllocate,
              Call.setTxParameter tx.m_ID TxParameterID.NonceSlot (ParamValue.num allocated)
                SetParameter.defaultFlag] }) := by
      simp [GetSlotSafe, h, SetParameter, TxParameters.set]
    rw [hg]
    refine ⟨rfl, rfl, ?_⟩
    intro n
    rw [FreeResources_iterate, FreeResources_of_slot _ Invalid allocated rfl hne]

/-- C28 (counterexample): with `Rules::get().Maturity.Std = 1` and the proof height
`2 ^ 64 - 1`, the sum wraps around: the coin that transaction 7 created is saved with maturity
`0`, which is below the proof height and below its confirm height `200`. -/
theorem set_completed_maturity_wraps :
    (sampleProved.SetCompletedTxCoinStatuses [sampleCreatedCoin] 1 18446744073709551615).calls =
        [Call.saveCoins [{ sampleCreatedCoin with m_confirmHeight := 200, m_maturity := 0 }]] ∧
      sampleCreatedCoin.m_createTxId = some sampleProved.m_ID ∧
      ¬ (18446744073709551615 ≤
        (setCompletedCoin sampleProved.m_ID 1 18446744073709551615
          sampleCreatedCoin).m_maturity) ∧
      (setCompletedCoin sampleProved.m_ID 1 18446744073709551615 sampleCreatedCoin).m_maturity <
        (setCompletedCoin sampleProved.m_ID 1 18446744073709551615
          sampleCreatedCoin).m_confirmHeight := by
  decide

/-- C28 (amended): whenever `proofHeight + Rules::get().Maturity.Std` does not wrap around
(it is below `2 ^ 64`), `SetCompletedTxCoinStatuses` saves every coin that the transaction
created with `m_confirmHeight ≤ proofHeight ≤ m_maturity`, where the maturity is
`proofHeight + Maturity.Std`; so the maturity is at least the confirm height. -/
theorem set_completed_maturity_bound (tx : BaseTransaction) (coins : List Coin)
    (MaturityStd proofHeight : Nat) (hfit : proofHeight + MaturityStd < Height.modulus) :
    (tx.SetCompletedTxCoinStatuses coins MaturityStd proofHeight).calls =
        tx.calls ++ [Call.saveCoins (coins.map (setCompletedCoin tx.m_ID MaturityStd
          proofHeight))] ∧
      ∀ coin ∈ coins, coin.m_createTxId = some tx.m_ID →
        (setCompletedCoin tx.m_ID MaturityStd proofHeight coin).m_confirmHeight ≤ proofHeight ∧
          proofHeight ≤ (setCompletedCoin tx.m_ID MaturityStd proofHeight coin).m_maturity ∧
          (setCompletedCoin tx.m_ID MaturityStd proofHeight coin).m_maturity =
            proofHeight + MaturityStd ∧
          (setCompletedCoin tx.m_ID MaturityStd proofHeight coin).m_confirmHeight ≤
            (setCompletedCoin tx.m_ID MaturityStd proofHeight coin).m_maturity := by
  refine ⟨rfl, ?_⟩
  intro coin _ hin
  have hmod : (proofHeight + MaturityStd) % Height.modulus = proofHeight + MaturityStd :=
    Nat.mod_eq_of_lt hfit
  have hc : (setCompletedCoin tx.m_ID MaturityStd proofHeight coin).m_confirmHeight =
      min coin.m_confirmHeight proofHeight := by
    unfold setCompletedCoin
    by_cases hout : coin.m_spentTxId = some tx.m_ID <;> simp [hin, hout]
  have hm : (setCompletedCoin tx.m_ID MaturityStd proofHeight coin).m_maturity =
      proofHeight + MaturityStd := by
    unfold setCompletedCoin
    by_cases hout : coin.m_spentTxId = some tx.m_ID <;> simp [hin, hout, hmod]
  rw [hc, hm]
  refine ⟨Nat.min_le_right _ _, Nat.le_add_right _ _, rfl, ?_⟩
  exact le_trans (Nat.min_le_right _ _) (Nat.le_add_right _ _)

/-- C28 (witness): proof height 150 and `Maturity.Std = 240` for the coin that transaction 7
created. -/
theorem set_completed_maturity_bound_witness :
    150 + 240 < Height.modulus ∧
      (setCompletedCoin sampleProved.m_ID 240 150 sampleCreatedCoin).m_confirmHeight ≤ 150 ∧
      150 ≤ (setCompletedCoin sampleProved.m_ID 240 150 sampleCreatedCoin).m_maturity :=
  ⟨by decide,
    ((set_completed_maturity_bound sampleProved [sampleCreatedCoin] 240 150 (by decide)).2
      sampleCreatedCoin (by simp) rfl).1,
    ((set_completed_maturity_bound sampleProved [sampleCreatedCoin] 240 150 (by decide)).2
      sampleCreatedCoin (by simp) rfl).2.1⟩

end BaseTransaction

end wallet

end beam

/-! ## Part 2 (continued). Theorems: the offer protocol handler -/

namespace beam

namespace wallet

theorem SwapOfferStatus.status_ofCode_code (s : SwapOfferStatus) :
    SwapOfferStatus.ofCode s.code = some s := by
  cases s <;> rfl

theorem AtomicSwapCoin.coin_ofCode_code (c : AtomicSwapCoin) :
    AtomicSwapCoin.ofCode c.code = some c := by
  cases c <;> rfl

theorem TxType.type_ofCode_code (t : TxType) : TxType.ofCode t.code = some t := by
  cases t <;> rfl

/-- Reading back what `writeParameters` wrote gives the pairs and what follows them. -/
theorem SwapOfferToken.readParameters_writeParameters (ps : PackedParameters)
    (tail : List Nat) :
    SwapOfferToken.readParameters ps.length (SwapOfferToken.writeParameters ps ++ tail) =
      some (ps, tail) := by
  induction ps with
  | nil => rfl
  | cons p rest ih =>
    obtain ⟨id, blob⟩ := p
    have e : SwapOfferToken.writeParameters ((id, blob) :: rest) ++ tail =
        id :: blob.length :: (blob ++ (SwapOfferToken.writeParameters rest ++ tail)) := by
      simp [SwapOfferToken.writeParameters]
    have hlt : ¬ (blob ++ (SwapOfferToken.writeParameters rest ++ tail)).length <
        blob.length := by
      rw [List.length_append]
      omega
    rw [List.length_cons, e, SwapOfferToken.readParameters, if_neg hlt, List.drop_left, ih,
      List.take_left]

/-- Unpacking the packed parameters of an offer onto the offer without parameters gives the
offer back. -/
theorem SwapOffer.Unpack_Pack (offer : SwapOffer) :
    SwapOffer.Unpack
        ⟨offer.m_txId, offer.m_status, offer.m_publisherId, offer.m_coin, none, none, none,
          none, none, none, none⟩ offer.Pack = some offer := by
  obtain ⟨txId, status, publisherId, coin, p0, p1, p2, p3, p4, p5, p6⟩ := offer
  rcases p0 with _ | p0 <;> rcases p1 with _ | p1 <;> rcases p2 with _ | p2 <;>
    rcases p3 with _ | p3 <;> rcases p4 with _ | p4 <;> rcases p5 with _ | p5 <;>
    rcases p6 with _ | p6 <;>
    simp [SwapOffer.Pack, SwapOffer.Unpack, SwapOffer.SetParameter, AtomicSwapCoin.coin_ofCode_code,
      TxType.type_ofCode_code] <;>
    cases p1 <;> simp

/-- The body of an offer decodes back to the offer. -/
theorem SwapOfferToken.fromByteBuffer_toByteBuffer (offer : SwapOffer) :
    SwapOfferToken.fromByteBuffer (SwapOfferToken.toByteBuffer offer) = some offer := by
  have h := SwapOfferToken.readParameters_writeParameters offer.Pack []
  rw [List.append_nil] at h
  unfold SwapOfferToken.toByteBuffer SwapOfferToken.fromByteBuffer
  simp only [ne_eq, not_true_eq_false, if_false, SwapOfferStatus.status_ofCode_code,
    AtomicSwapCoin.coin_ofCode_code, h]
  exact SwapOffer.Unpack_Pack offer

/-- A signature has the fixed length. -/
theorem SwapOfferConfirmation.length_Sign (ctx : ECC.Context) (sk : Nat) (data : List Nat) :
    (SwapOfferConfirmation.Sign ctx sk data).length = SwapOfferConfirmation.SIGNATURE_SIZE :=
  rfl

/-- A signature under a private key is valid under the public key of that private key. -/
theorem SwapOfferConfirmation.IsValid_Sign (ctx : ECC.Context) (sk : Nat) (data : List Nat) :
    SwapOfferConfirmation.IsValid ctx (PeerID.FromSk ctx sk) data
      (SwapOfferConfirmation.Sign ctx sk data) = true := by
  unfold SwapOfferConfirmation.Sign SwapOfferConfirmation.IsValid PeerID.FromSk
  simp only [decide_eq_true_eq]
  generalize ctx.nonce sk data = r
  generalize ctx.Oracle (r * ctx.G % ctx.order :: data) = e
  have h1 : Nat.ModEq ctx.order ((r + e * sk) % ctx.order * ctx.G) ((r + e * sk) * ctx.G) :=
    (Nat.mod_modEq _ _).mul_right _
  have h2 : Nat.ModEq ctx.order (r * ctx.G % ctx.order + e * (sk * ctx.G % ctx.order))
      (r * ctx.G + e * (sk * ctx.G)) :=
    (Nat.mod_modEq _ _).add ((Nat.mod_modEq _ _).mul_left _)
  have h3 : (r + e * sk) * ctx.G = r * ctx.G + e * (sk * ctx.G) := by ring
  rw [h3] at h1
  exact h1.trans h2.symm

/-- What `parseMessage` accepts: a message that is at least as long as a signature, whose part
before the signature decodes and whose signature is valid under the public key of the decoded
publisher. -/
theorem OfferBoardProtocolHandler.parseMessage_eq_some_iff (h : OfferBoardProtocolHandler)
    (bytes : List Nat) (offer : SwapOffer) :
    h.parseMessage bytes = some offer ↔
      h.signatureSize ≤ bytes.length ∧
        h.decode (bytes.take (bytes.length - h.signatureSize)) = some offer ∧
        h.verify (h.publicKey offer.m_publisherId) (bytes.take (bytes.length - h.signatureSize))
          (bytes.drop (bytes.length - h.signatureSize)) = true := by
  unfold OfferBoardProtocolHandler.parseMessage
  by_cases hlt : bytes.length < h.signatureSize
  · rw [if_pos hlt]
    constructor
    · intro hc
      cases hc
    · rintro ⟨hle, _⟩
      omega
  · rw [if_neg hlt]
    simp only []
    cases hd : h.decode (bytes.take (bytes.length - h.signatureSize)) with
    | none =>
      constructor
      · intro hc
        cases hc
      · rintro ⟨_, hc, _⟩
        cases hc
    | some o =>
      simp only []
      by_cases hv : h.verify (h.publicKey o.m_publisherId)
          (bytes.take (bytes.length - h.signatureSize))
          (bytes.drop (bytes.length - h.signatureSize)) = true
      · rw [if_pos hv]
        constructor
        · intro he
          cases he
          exact ⟨by omega, rfl, hv⟩
        · rintro ⟨_, he, _⟩
          exact he
      · rw [if_neg hv]
        constructor
        · intro hc
          cases hc
        · rintro ⟨_, he, hv1⟩
          cases he
          exact absurd hv1 hv

/-- A body followed by a signature of the fixed length that is valid under the public key of
the publisher whom the body names parses to the offer that the body decodes to. -/
theorem OfferBoardProtocolHandler.parseMessage_append (h : OfferBoardProtocolHandler)
    (body signature : List Nat) (offer : SwapOffer)
    (hdec : h.decode body = some offer) (hlen : signature.length = h.signatureSize)
    (hver : h.verify (h.publicKey offer.m_publisherId) body signature = true) :
    h.parseMessage (body ++ signature) = some offer := by
  rw [OfferBoardProtocolHandler.parseMessage_eq_some_iff]
  have hl : (body ++ signature).length - h.signatureSize = body.length := by
    rw [List.length_append, hlen]
    omega
  rw [hl, List.take_left, List.drop_left]
  refine ⟨?_, hdec, hver⟩
  rw [List.length_append, hlen]
  omega

/-- The private key that the constructed handler has for a publisher: the key derived from the
`own_id` of an address of the wallet with that `wallet_id` and a non-zero `own_id`, if there is
one. -/
theorem OfferBoardProtocolHandler.construct_privateKey (ctx : ECC.Context)
    (sbbsKdf : Nat → Nat) (walletDB : List WalletAddress) (publisherId : Nat) :
    ((∃ a ∈ walletDB, a.m_OwnID ≠ 0 ∧ a.m_walletID = publisherId) →
      ∃ a ∈ walletDB, a.m_OwnID ≠ 0 ∧ a.m_walletID = publisherId ∧
        (OfferBoardProtocolHandler.construct ctx sbbsKdf walletDB).privateKey publisherId =
          some (deriveKeypair ctx sbbsKdf a.m_OwnID).2) ∧
      ((∀ a ∈ walletDB, a.m_OwnID ≠ 0 → a.m_walletID ≠ publisherId) →
        (OfferBoardProtocolHandler.construct ctx sbbsKdf walletDB).privateKey publisherId =
          none) := by
  unfold OfferBoardProtocolHandler.construct
  simp only []
  constructor
  · rintro ⟨a, ha, hown, hid⟩
    cases hf : walletDB.find?
        (fun a => decide (a.m_walletID = publisherId) && decide (a.m_OwnID ≠ 0)) with
    | none =>
      rw [List.find?_eq_none] at hf
      have := hf a ha
      simp [hown, hid] at this
    | some b =>
      have hb := List.find?_some hf
      simp only [Bool.and_eq_true, decide_eq_true_eq] at hb
      exact ⟨b, List.mem_of_find?_eq_some hf, hb.2, hb.1, rfl⟩
  · intro hnone
    have hf : walletDB.find?
        (fun a => decide (a.m_walletID = publisherId) && decide (a.m_OwnID ≠ 0)) = none := by
      rw [List.find?_eq_none]
      intro a ha
      simp only [Bool.and_eq_true, decide_eq_true_eq, not_and]
      intro hid hown
      exact hnone a ha hown hid
    rw [hf]
    rfl

/-- C19: signed-offer round trip. Take the handler constructed over a wallet database and an
offer whose publisher is a local address: the wallet holds an address with the publisher's
`wallet_id` and a non-zero `own_id`, and the public key derived from the `own_id` of such an
address is that `wallet_id`. Then `createMessage(offer, offer.m_publisherId)` gives a message
and `parseMessage` of that message returns the offer. The same holds for the message that the
unit test puts together by hand, `makeMsg` of the body and of `signData` of the body under the
`own_id` of the publisher's address. Parsing never throws: `parseMessage` of any bytes is
either nothing or an offer, and it is an offer only when the bytes are at least as long as a
signature, the part before the signature decodes to that offer and the signature is valid
under the `wallet_id` of its publisher. -/
theorem OfferBoardProtocolHandler.parse_create_round_trip (ctx : ECC.Context)
    (sbbsKdf : Nat → Nat) (walletDB : List WalletAddress) (offer : SwapOffer)
    (hlocal : ∃ a ∈ walletDB, a.m_OwnID ≠ 0 ∧ a.m_walletID = offer.m_publisherId)
    (hown : ∀ a ∈ walletDB, a.m_OwnID ≠ 0 → a.m_walletID = offer.m_publisherId →
      (deriveKeypair ctx sbbsKdf a.m_OwnID).1 = offer.m_publisherId) :
    (∃ msg,
      (OfferBoardProtocolHandler.construct ctx sbbsKdf walletDB).createMessage offer
          offer.m_publisherId = some msg ∧
        (OfferBoardProtocolHandler.construct ctx sbbsKdf walletDB).parseMessage msg =
          some offer) ∧
      (∀ a ∈ walletDB, a.m_OwnID ≠ 0 → a.m_walletID = offer.m_publisherId →
        (OfferBoardProtocolHandler.construct ctx sbbsKdf walletDB).parseMessage
            (makeMsg (SwapOfferToken.toByteBuffer offer)
              (signData ctx sbbsKdf (SwapOfferToken.toByteBuffer offer) a.m_OwnID)) =
          some offer) ∧
      (∀ bytes : List Nat,
        (OfferBoardProtocolHandler.construct ctx sbbsKdf walletDB).parseMessage bytes = none ∨
          ∃ o, (OfferBoardProtocolHandler.construct ctx sbbsKdf walletDB).parseMessage bytes =
                some o ∧
              SwapOfferConfirmation.SIGNATURE_SIZE ≤ bytes.length ∧
              SwapOfferToken.fromByteBuffer
                  (bytes.take (bytes.length - SwapOfferConfirmation.SIGNATURE_SIZE)) = some o ∧
              SwapOfferConfirmation.IsValid ctx o.m_publisherId
                  (bytes.take (bytes.length - SwapOfferConfirmation.SIGNATURE_SIZE))
                  (bytes.drop (bytes.length - SwapOfferConfirmation.SIGNATURE_SIZE)) = true) := by
  have hsigned : ∀ a ∈ walletDB, a.m_OwnID ≠ 0 → a.m_walletID = offer.m_publisherId →
      (OfferBoardProtocolHandler.construct ctx sbbsKdf walletDB).parseMessage
          (SwapOfferToken.toByteBuffer offer ++
            SwapOfferConfirmation.Sign ctx (deriveKeypair ctx sbbsKdf a.m_OwnID).2
              (SwapOfferToken.toByteBuffer offer)) = some offer := by
    intro a ha hnz hid
    apply OfferBoardProtocolHandler.parseMessage_append
    · exact SwapOfferToken.fromByteBuffer_toByteBuffer offer
    · rfl
    · have hv := SwapOfferConfirmation.IsValid_Sign ctx (deriveKeypair ctx sbbsKdf a.m_OwnID).2
        (SwapOfferToken.toByteBuffer offer)
      have hpk : PeerID.FromSk ctx (deriveKeypair ctx sbbsKdf a.m_OwnID).2 =
          offer.m_publisherId := hown a ha hnz hid
      rw [hpk] at hv
      exact hv
  refine ⟨?_, ?_, ?_⟩
  · obtain ⟨a, ha, hnz, hid, hsk⟩ :=
      (OfferBoardProtocolHandler.construct_privateKey ctx sbbsKdf walletDB
        offer.m_publisherId).1 hlocal
    refine ⟨SwapOfferToken.toByteBuffer offer ++
      SwapOfferConfirmation.Sign ctx (deriveKeypair ctx sbbsKdf a.m_OwnID).2
        (SwapOfferToken.toByteBuffer offer), ?_, hsigned a ha hnz hid⟩
    unfold OfferBoardProtocolHandler.createMessage
    rw [hsk]
    rfl
  · intro a ha hnz hid
    exact hsigned a ha hnz hid
  · intro bytes
    cases hp : (OfferBoardProtocolHandler.construct ctx sbbsKdf walletDB).parseMessage bytes with
    | none => exact Or.inl rfl
    | some o =>
      exact Or.inr ⟨o, rfl,
        (OfferBoardProtocolHandler.parseMessage_eq_some_iff _ bytes o).mp hp⟩

/-- C19 (witness): address 100 of `sampleWalletDB` is local and `sampleOffer`, which it
publishes, comes back from `sampleProtocolHandler`; so do the same offer under another `tx_id`
and an offer without its optional parameters. No message is created for the remote contact
55, and a message with another signature or another amount under the same signature parses to
nothing. -/
theorem OfferBoardProtocolHandler.parse_create_round_trip_witness :
    (∃ a ∈ sampleWalletDB, a.m_OwnID ≠ 0 ∧ a.m_walletID = sampleOffer.m_publisherId) ∧
      (∃ msg, sampleProtocolHandler.createMessage sampleOffer sampleOffer.m_publisherId =
          some msg ∧ sampleProtocolHandler.parseMessage msg = some sampleOffer) ∧
      sampleProtocolHandler.createMessage sampleOffer 100 =
        some [1, 1, 0, 100, 0, 7, 0, 1, 0, 1, 1, 1, 2, 1, 852, 3, 1, 741, 4, 1, 100, 5, 1, 50,
          6, 1, 1, 80, 46] ∧
      sampleProtocolHandler.parseMessage
          [1, 1, 0, 100, 0, 7, 0, 1, 0, 1, 1, 1, 2, 1, 852, 3, 1, 741, 4, 1, 100, 5, 1, 50,
            6, 1, 1, 80, 46] = some sampleOffer ∧
      (sampleProtocolHandler.createMessage (sampleOfferWithId 2) 100).bind
          sampleProtocolHandler.parseMessage = some (sampleOfferWithId 2) ∧
      sampleProtocolHandler.createMessage sampleBareOffer 100 =
        some [1, 9, 1, 100, 2, 1, 2, 1, 5, 26, 94] ∧
      sampleProtocolHandler.parseMessage [1, 9, 1, 100, 2, 1, 2, 1, 5, 26, 94] =
        some sampleBareOffer ∧
      sampleProtocolHandler.parseMessage [1, 9, 1, 100, 2, 1, 2, 1, 5, 26, 95] = none ∧
      sampleProtocolHandler.parseMessage [1, 9, 1, 100, 2, 1, 2, 1, 6, 26, 94] = none ∧
      sampleProtocolHandler.parseMessage [1, 9] = none ∧
      sampleProtocolHandler.createMessage sampleOffer 55 = none :=
  ⟨by decide,
    (OfferBoardProtocolHandler.parse_create_round_trip sampleContext sampleKdf sampleWalletDB
      sampleOffer (by decide) (by decide)).1,
    by decide, by decide, by decide, by decide, by decide, by decide, by decide, by decide,
    by decide⟩

end wallet

end beam

/-! ## Part 2 (continued). Theorems: swap offers -/

namespace beam

open Block.SystemState

namespace wallet

theorem SwapOffersBoard.expireOffers_fst (height : Nat) (offers : List SwapOffer) :
    (SwapOffersBoard.expireOffers height offers).1 =
      offers.filter (fun o => !SwapOffersBoard.isExpired height o) := by
  induction offers with
  | nil => rfl
  | cons o rest ih =>
    unfold SwapOffersBoard.expireOffers
    by_cases he : SwapOffersBoard.isExpired height o = true
    · simp [he, ih]
    · simp [he, ih]

theorem SwapOffersBoard.expireOffers_snd (height : Nat) (offers : List SwapOffer) :
    (SwapOffersBoard.expireOffers height offers).2 =
      (offers.filter (fun o => SwapOffersBoard.isExpired height o)).map
        (fun o => (ChangeAction.Removed, [{ o with m_status := SwapOfferStatus.Expired }])) := by
  induction offers with
  | nil => rfl
  | cons o rest ih =>
    unfold SwapOffersBoard.expireOffers
    by_cases he : SwapOffersBoard.isExpired height o = true
    · simp [he, ih]
    · simp [he, ih]

/-- C20: `onSystemStateChanged(id)` keeps, in their order, exactly the offers that are not
expired at `id.m_Height` and removes exactly those with
`MinHeight + PeerResponseTime ≤ id.m_Height`; for each removed offer, in board order, the
observers get one more notification `Removed` carrying that offer with status `Expired`. An
offer with `MinHeight = 100` and `PeerResponseTime = 50` is not expired at height 149 and is
expired at height 150. -/
theorem SwapOffersBoard.on_system_state_changed_expires (board : SwapOffersBoard) (id : ID) :
    (board.onSystemStateChanged id).m_offers =
        board.m_offers.filter (fun o => !SwapOffersBoard.isExpired id.m_Height o) ∧
      (board.onSystemStateChanged id).m_notifications =
        board.m_notifications ++
          (board.m_offers.filter (fun o => SwapOffersBoard.isExpired id.m_Height o)).map
            (fun o => (ChangeAction.Removed, [{ o with m_status := SwapOfferStatus.Expired }])) ∧
      (∀ o : SwapOffer, SwapOffersBoard.isExpired id.m_Height o = true ↔
        ∃ minHeight peerResponseTime, o.MinHeight = some minHeight ∧
          o.PeerResponseTime = some peerResponseTime ∧
          minHeight + peerResponseTime ≤ id.m_Height) ∧
      (∀ o : SwapOffer, o.MinHeight = some 100 → o.PeerResponseTime = some 50 →
        SwapOffersBoard.isExpired 149 o = false ∧ SwapOffersBoard.isExpired 150 o = true) := by
  refine ⟨?_, ?_, ?_, ?_⟩
  · unfold SwapOffersBoard.onSystemStateChanged
    exact SwapOffersBoard.expireOffers_fst _ _
  · unfold SwapOffersBoard.onSystemStateChanged
    simp only [SwapOffersBoard.expireOffers_snd]
  · intro o
    unfold SwapOffersBoard.isExpired
    cases h1 : o.MinHeight <;> cases h2 : o.PeerResponseTime <;> simp
  · intro o h1 h2
    unfold SwapOffersBoard.isExpired
    simp [h1, h2]

theorem SwapOffersBoard.contains_iff (board : SwapOffersBoard) (txId : Nat) :
    board.contains txId = true ↔ ∃ o ∈ board.m_offers, o.m_txId = txId := by
  simp [SwapOffersBoard.contains]

theorem SwapOffersBoard.publishOffer_known (board : SwapOffersBoard)
    (handler : OfferBoardProtocolHandler) (store : List TxDescription) (currentHeight : Nat)
    (offer : SwapOffer) (hknown : board.contains offer.m_txId = true) :
    ∃ e, board.publishOffer handler store currentHeight offer = Except.error e := by
  unfold SwapOffersBoard.publishOffer
  by_cases h1 : SwapOffersBoard.isOfferValid offer = true
  · by_cases h2 : (handler.privateKey offer.m_publisherId).isNone = true
    · exact ⟨SwapOffersBoard.Exception.ForeignOfferException, by simp [h1, h2]⟩
    · exact ⟨SwapOffersBoard.Exception.OfferAlreadyPublishedException, by
        simp only [h1, h2, hknown, Bool.not_true, Bool.false_eq_true, if_false, if_true]⟩
  · exact ⟨SwapOffersBoard.Exception.InvalidOfferException, by simp [h1]⟩

theorem SwapOffersBoard.PublishOfferNoThrow_of_error (board : SwapOffersBoard)
    (handler : OfferBoardProtocolHandler) (store : List TxDescription) (currentHeight : Nat)
    (offer : SwapOffer) (e : SwapOffersBoard.Exception)
    (h : board.publishOffer handler store currentHeight offer = Except.error e) :
    board.PublishOfferNoThrow handler store currentHeight offer = board := by
  unfold SwapOffersBoard.PublishOfferNoThrow
  rw [h]

theorem SwapOffersBoard.nodup_append_fresh (offers : List SwapOffer) (offer : SwapOffer)
    (hn : (offers.map (fun o => o.m_txId)).Nodup)
    (hfresh : ∀ o ∈ offers, o.m_txId ≠ offer.m_txId) :
    ((offers ++ [offer]).map (fun o => o.m_txId)).Nodup := by
  rw [List.map_append, List.nodup_append]
  refine ⟨hn, by simp, ?_⟩
  intro a ha hb
  rcases List.mem_map.mp ha with ⟨o, ho, rfl⟩
  simp only [List.map_cons, List.map_nil, List.mem_singleton] at hb
  exact hfresh o ho hb

theorem SwapOffersBoard.not_contains (board : SwapOffersBoard) (txId : Nat)
    (h : ¬ board.contains txId = true) : ∀ o ∈ board.m_offers, o.m_txId ≠ txId := by
  intro o ho he
  exact h ((SwapOffersBoard.contains_iff board txId).mpr ⟨o, ho, he⟩)

theorem SwapOffersBoard.publishOffer_ok (board board1 : SwapOffersBoard)
    (handler : OfferBoardProtocolHandler) (store : List TxDescription) (currentHeight : Nat)
    (offer : SwapOffer) (msg : Option (List Nat))
    (h : board.publishOffer handler store currentHeight offer = Except.ok (board1, msg)) :
    board1 = board ∨
      (¬ board.contains offer.m_txId = true ∧
        board1 = ⟨board.m_offers ++ [offer],
          board.m_notifications ++ [(ChangeAction.Added, [offer])]⟩) := by
  unfold SwapOffersBoard.publishOffer at h
  by_cases h1 : SwapOffersBoard.isOfferValid offer = true
  · by_cases h2 : (handler.privateKey offer.m_publisherId).isNone = true
    · simp [h1, h2] at h
    · by_cases h3 : board.contains offer.m_txId = true
      · simp [h1, h2, h3] at h
      · by_cases h4 : SwapOffersBoard.isExpired currentHeight offer = true
        · simp [h1, h2, h3, h4] at h
        · by_cases h5 : store.any (fun tx =>
              decide (tx.m_txId = offer.m_txId) && SwapOffersBoard.deactivates tx) = true
          · simp only [h1, h2, h3, h4, h5, Bool.not_true, Bool.false_eq_true, if_false,
              if_true, Except.ok.injEq, Prod.mk.injEq] at h
            exact Or.inl h.1.symm
          · refine Or.inr ⟨h3, ?_⟩
            simp only [h1, h2, h3, h4, h5, Bool.not_true, Bool.false_eq_true, if_false] at h
            cases hc : handler.createMessage offer offer.m_publisherId with
            | none => rw [hc] at h; cases h
            | some m =>
              rw [hc] at h
              simp only [Except.ok.injEq, Prod.mk.injEq] at h
              exact h.1.symm
  · simp [h1] at h

theorem SwapOffersBoard.removeOffer_some (txId : Nat) :
    ∀ (offers rest : List SwapOffer) (x : SwapOffer),
      SwapOffersBoard.removeOffer txId offers = some (x, rest) →
        x.m_txId = txId ∧ rest.Sublist offers ∧
          ((offers.map (fun o => o.m_txId)).Nodup →
            rest = offers.filter (fun o => !decide (o.m_txId = txId)) ∧
              offers.filter (fun o => decide (o.m_txId = txId)) = [x]) := by
  intro offers
  induction offers with
  | nil => intro rest x h; cases h
  | cons o os ih =>
    intro rest x h
    unfold SwapOffersBoard.removeOffer at h
    by_cases ho : o.m_txId = txId
    · simp only [ho, if_true, Option.some.injEq, Prod.mk.injEq] at h
      rcases h with ⟨rfl, rfl⟩
      refine ⟨ho, List.sublist_cons_self _ _, ?_⟩
      intro hn
      rw [List.map_cons, List.nodup_cons] at hn
      have hnot : ∀ u ∈ os, ¬ u.m_txId = txId := by
        intro u hu he
        exact hn.1 (List.mem_map.mpr ⟨u, hu, by rw [he, ho]⟩)
      have hf1 : os.filter (fun u => !decide (u.m_txId = txId)) = os := by
        rw [List.filter_eq_self]
        intro u hu
        simp [hnot u hu]
      have hf2 : os.filter (fun u => decide (u.m_txId = txId)) = [] := by
        rw [List.filter_eq_nil_iff]
        intro u hu
        simp [hnot u hu]
      simp [List.filter_cons, ho, hf1, hf2]
    · simp only [ho, if_false] at h
      cases hr : SwapOffersBoard.removeOffer txId os with
      | none => rw [hr] at h; cases h
      | some p =>
        rcases p with ⟨y, rest1⟩
        rw [hr] at h
        simp only [Option.some.injEq, Prod.mk.injEq] at h
        rcases h with ⟨rfl, rfl⟩
        rcases ih rest1 y hr with ⟨hy, hsub, hnd⟩
        refine ⟨hy, hsub.cons₂ o, ?_⟩
        intro hn
        rw [List.map_cons, List.nodup_cons] at hn
        rcases hnd hn.2 with ⟨e1, e2⟩
        simp [List.filter_cons, ho, ← e1, e2]

theorem SwapOffersBoard.removeOffer_none (txId : Nat) :
    ∀ offers : List SwapOffer, SwapOffersBoard.removeOffer txId offers = none →
      ∀ o ∈ offers, ¬ o.m_txId = txId := by
  intro offers
  induction offers with
  | nil => intro _ o ho; cases ho
  | cons o os ih =>
    intro h u hu
    unfold SwapOffersBoard.removeOffer at h
    by_cases ho : o.m_txId = txId
    · simp [ho] at h
    · simp only [ho, if_false] at h
      cases hr : SwapOffersBoard.removeOffer txId os with
      | some p => rw [hr] at h; cases h
      | none =>
        rcases List.mem_cons.mp hu with rfl | hu1
        · exact ho
        · exact ih hr u hu1

theorem SwapOffersBoard.onMessage_spec (board : SwapOffersBoard)
    (handler : OfferBoardProtocolHandler) (store : List TxDescription) (msg : List Nat) :
    (board.onMessage handler store msg).2 = board ∨
      ∃ offer, ¬ board.contains offer.m_txId = true ∧
        (board.onMessage handler store msg).2 =
          ⟨board.m_offers ++ [offer],
            board.m_notifications ++ [(ChangeAction.Added, [offer])]⟩ := by
  unfold SwapOffersBoard.onMessage
  cases handler.parseMessage msg with
  | none => exact Or.inl rfl
  | some offer =>
    simp only
    split
    · exact Or.inl rfl
    · split
      · exact Or.inl rfl
      · rename_i hc
        split
        · exact Or.inl rfl
        · exact Or.inr ⟨offer, hc, rfl⟩

theorem SwapOffersBoard.step_sublist (board : SwapOffersBoard) (tx : TxDescription) :
    (SwapOffersBoard.onTransactionChanged.step board tx).m_offers.Sublist board.m_offers := by
  unfold SwapOffersBoard.onTransactionChanged.step
  split
  · cases hr : SwapOffersBoard.removeOffer tx.m_txId board.m_offers with
    | none => exact List.Sublist.refl _
    | some p =>
      rcases p with ⟨x, rest⟩
      exact (SwapOffersBoard.removeOffer_some _ _ _ _ hr).2.1
  · exact List.Sublist.refl _

theorem SwapOffersBoard.onTransactionChanged_sublist (txs : List TxDescription) :
    ∀ board : SwapOffersBoard,
      (board.onTransactionChanged txs).m_offers.Sublist board.m_offers := by
  induction txs with
  | nil => intro board; exact List.Sublist.refl _
  | cons tx rest ih =>
    intro board
    unfold SwapOffersBoard.onTransactionChanged
    rw [List.foldl_cons]
    exact (ih (SwapOffersBoard.onTransactionChanged.step board tx)).trans
      (SwapOffersBoard.step_sublist board tx)

/-- No board built by the operations of §4.8 holds two offers with the same `tx_id`. -/
theorem SwapOffersBoard.Reachable.nodup (handler : OfferBoardProtocolHandler)
    (board : SwapOffersBoard) (h : SwapOffersBoard.Reachable handler board) :
    (board.m_offers.map (fun o => o.m_txId)).Nodup := by
  induction h with
  | empty => simp
  | publish b b1 store currentHeight offer msg _ hp ih =>
    rcases SwapOffersBoard.publishOffer_ok b b1 handler store currentHeight offer msg hp with
      rfl | ⟨hc, rfl⟩
    · exact ih
    · exact SwapOffersBoard.nodup_append_fresh _ _ ih (SwapOffersBoard.not_contains b _ hc)
  | receive b store msg _ ih =>
    rcases SwapOffersBoard.onMessage_spec b handler store msg with he | ⟨offer, hc, he⟩
    · rw [he]
      exact ih
    · rw [he]
      exact SwapOffersBoard.nodup_append_fresh _ _ ih (SwapOffersBoard.not_contains b _ hc)
  | transactionChanged b txs _ ih =>
    exact ih.sublist ((SwapOffersBoard.onTransactionChanged_sublist txs b).map _)
  | systemStateChanged b id _ ih =>
    have hs : (b.onSystemStateChanged id).m_offers.Sublist b.m_offers := by
      unfold SwapOffersBoard.onSystemStateChanged
      simp only [SwapOffersBoard.expireOffers_fst]
      exact List.filter_sublist _
    exact ih.sublist (hs.map _)

/-- C21: dedup by `tx_id`. On a board that already holds an offer with the `tx_id` of `offer`,
`publishOffer` of `offer` throws, so that the board is left as it was: same offers (the stored
one is kept, whatever the contents of `offer`) and no notification; and the receipt of a message
that parses to `offer` is accepted but leaves the board as it was, too. No board built from the
empty one by publishing, receiving, transaction updates and chain-height changes ever holds two
offers with the same `tx_id`. -/
theorem SwapOffersBoard.dedup_by_tx_id (board : SwapOffersBoard)
    (handler : OfferBoardProtocolHandler) (currentHeight : Nat) (store : List TxDescription)
    (offer : SwapOffer) (msg : List Nat)
    (hknown : ∃ o ∈ board.m_offers, o.m_txId = offer.m_txId) :
    (∃ e, board.publishOffer handler store currentHeight offer = Except.error e) ∧
      board.PublishOfferNoThrow handler store currentHeight offer = board ∧
      (handler.parseMessage msg = some offer →
        board.onMessage handler store msg = (true, board)) ∧
      (∀ b, SwapOffersBoard.Reachable handler b →
        (b.m_offers.map (fun o => o.m_txId)).Nodup) := by
  have hc : board.contains offer.m_txId = true :=
    (SwapOffersBoard.contains_iff board offer.m_txId).mpr hknown
  rcases SwapOffersBoard.publishOffer_known board handler store currentHeight offer hc with
    ⟨e, he⟩
  refine ⟨⟨e, he⟩,
    SwapOffersBoard.PublishOfferNoThrow_of_error board handler store currentHeight offer e he,
    ?_, SwapOffersBoard.Reachable.nodup handler⟩
  intro hp
  unfold SwapOffersBoard.onMessage
  rw [hp]
  by_cases hv : SwapOffersBoard.isOfferValid offer = true
  · simp [hv, hc]
  · simp [hv]

/-- C21 (witness): the board holds the Bitcoin offer `sampleOffer`; a Qtum offer with the same
`tx_id` is published, and the message `[1, 2, 3, 12]`, which parses to `sampleOffer`, is
received. -/
theorem SwapOffersBoard.dedup_by_tx_id_witness :
    (SwapOffersBoard.mk [sampleOffer] []).PublishOfferNoThrow sampleHandler [] 134
        { sampleOffer with m_coin := AtomicSwapCoin.Qtum } = ⟨[sampleOffer], []⟩ ∧
      (sampleHandler.parseMessage [1, 2, 3, 12] = some sampleOffer →
        (SwapOffersBoard.mk [sampleOffer] []).onMessage sampleHandler [] [1, 2, 3, 12] =
          (true, ⟨[sampleOffer], []⟩)) :=
  ⟨(SwapOffersBoard.dedup_by_tx_id ⟨[sampleOffer], []⟩ sampleHandler 134 []
      { sampleOffer with m_coin := AtomicSwapCoin.Qtum } []
      ⟨sampleOffer, by simp, rfl⟩).2.1,
    (SwapOffersBoard.dedup_by_tx_id ⟨[sampleOffer], []⟩ sampleHandler 134 [] sampleOffer
      [1, 2, 3, 12] ⟨sampleOffer, by simp, rfl⟩).2.2.1⟩

theorem SwapOffersBoard.filter_or_perm (p q : SwapOffer → Bool) (l : List SwapOffer) :
    (l.filter (fun a => p a || q a)).Perm
      (l.filter p ++ (l.filter (fun a => !p a)).filter q) := by
  induction l with
  | nil => simp
  | cons a as ih =>
    by_cases hp : p a = true
    · simp only [List.filter_cons, hp, Bool.true_or, if_true, Bool.not_true, Bool.false_eq_true,
        if_false, List.cons_append]
      exact ih.cons a
    · have hp2 : p a = false := by simpa using hp
      by_cases hq : q a = true
      · simp only [List.filter_cons, hp2, hq, Bool.false_or, if_true, Bool.not_false,
          Bool.false_eq_true, if_false]
        exact (ih.cons a).trans List.perm_middle.symm
      · have hq2 : q a = false := by simpa using hq
        simp only [List.filter_cons, hp2, hq2, Bool.false_or, Bool.not_false,
          Bool.false_eq_true, if_false, if_true]
        exact ih

/-- One step of `onTransactionChanged` on a board without two offers of the same `tx_id`. -/
theorem SwapOffersBoard.step_spec (board : SwapOffersBoard) (tx : TxDescription)
    (hn : (board.m_offers.map (fun o => o.m_txId)).Nodup) :
    (SwapOffersBoard.onTransactionChanged.step board tx).m_offers =
        board.m_offers.filter
          (fun o => !(SwapOffersBoard.deactivates tx && decide (o.m_txId = tx.m_txId))) ∧
      (SwapOffersBoard.onTransactionChanged.step board tx).m_notifications =
        board.m_notifications ++
          (board.m_offers.filter
            (fun o => SwapOffersBoard.deactivates tx && decide (o.m_txId = tx.m_txId))).map
              (fun o => (ChangeAction.Removed, [o])) := by
  unfold SwapOffersBoard.onTransactionChanged.step
  by_cases hd : SwapOffersBoard.deactivates tx = true
  · simp only [hd, if_true, Bool.true_and]
    cases hr : SwapOffersBoard.removeOffer tx.m_txId board.m_offers with
    | none =>
      have hnone := SwapOffersBoard.removeOffer_none _ _ hr
      have hf1 : board.m_offers.filter (fun o => !decide (o.m_txId = tx.m_txId)) =
          board.m_offers := by
        rw [List.filter_eq_self]
        intro u hu
        simp [hnone u hu]
      have hf2 : board.m_offers.filter (fun o => decide (o.m_txId = tx.m_txId)) = [] := by
        rw [List.filter_eq_nil_iff]
        intro u hu
        simp [hnone u hu]
      simp only [hf1, hf2, List.map_nil, List.append_nil, and_self]
    | some p =>
      rcases p with ⟨x, rest⟩
      rcases (SwapOffersBoard.removeOffer_some _ _ _ _ hr).2.2 hn with ⟨e1, e2⟩
      simp only [← e1, e2, List.map_cons, List.map_nil, and_self]
  · have hd2 : SwapOffersBoard.deactivates tx = false := by simpa using hd
    simp [hd2]

theorem SwapOffersBoard.onTransactionChanged_spec (txs : List TxDescription) :
    ∀ board : SwapOffersBoard, (board.m_offers.map (fun o => o.m_txId)).Nodup →
      (board.onTransactionChanged txs).m_offers =
          board.m_offers.filter (fun o =>
            !(txs.any (fun tx =>
              SwapOffersBoard.deactivates tx && decide (o.m_txId = tx.m_txId)))) ∧
        ∃ removed : List SwapOffer,
          (board.onTransactionChanged txs).m_notifications =
              board.m_notifications ++ removed.map (fun o => (ChangeAction.Removed, [o])) ∧
            removed.Perm (board.m_offers.filter (fun o =>
              txs.any (fun tx =>
                SwapOffersBoard.deactivates tx && decide (o.m_txId = tx.m_txId)))) := by
  induction txs with
  | nil =>
    intro board _
    refine ⟨by simp [SwapOffersBoard.onTransactionChanged], [], ?_, ?_⟩
    · simp [SwapOffersBoard.onTransactionChanged]
    · simp
  | cons tx rest ih =>
    intro board hn
    rcases SwapOffersBoard.step_spec board tx hn with ⟨ho, hnot⟩
    have hn1 : ((SwapOffersBoard.onTransactionChanged.step board tx).m_offers.map
        (fun o => o.m_txId)).Nodup :=
      hn.sublist ((SwapOffersBoard.step_sublist board tx).map _)
    rcases ih (SwapOffersBoard.onTransactionChanged.step board tx) hn1 with
      ⟨ho1, removed1, hnot1, hperm1⟩
    have hfold : board.onTransactionChanged (tx :: rest) =
        (SwapOffersBoard.onTransactionChanged.step board tx).onTransactionChanged rest := rfl
    rw [hfold]
    refine ⟨?_, board.m_offers.filter
      (fun o => SwapOffersBoard.deactivates tx && decide (o.m_txId = tx.m_txId)) ++ removed1,
      ?_, ?_⟩
    · rw [ho1, ho, List.filter_filter]
      apply List.filter_congr
      intro o _
      simp only [List.any_cons, Bool.not_or]
      rw [Bool.and_comm]
    · rw [hnot1, hnot, List.map_append, List.append_assoc]
    · rw [ho] at hperm1
      have h2 := SwapOffersBoard.filter_or_perm
        (fun o => SwapOffersBoard.deactivates tx && decide (o.m_txId = tx.m_txId))
        (fun o => rest.any (fun tx =>
          SwapOffersBoard.deactivates tx && decide (o.m_txId = tx.m_txId))) board.m_offers
      simp only [List.any_cons]
      exact ((List.Perm.refl _).append hperm1).trans h2.symm

theorem SwapOffersBoard.deactivates_iff (tx : TxDescription) :
    SwapOffersBoard.deactivates tx = true ↔
      tx.m_txType = TxType.AtomicSwap ∧
        (tx.m_status = TxStatus.InProgress ∨ tx.m_status = TxStatus.Canceled ∨
          tx.m_status = TxStatus.Failed) := by
  simp [SwapOffersBoard.deactivates, or_assoc]

/-- C22: on a board without two offers of the same `tx_id` (every board built by the board's
operations is one), `onTransactionChanged(Updated, txs)` removes exactly the offers whose
`tx_id` is that of some `tx` in `txs` of type `AtomicSwap` with status `InProgress`, `Canceled`
or `Failed`, and keeps the others in their order; the new notifications are one `Removed` per
removed offer, each carrying that offer. Transactions of another type or with another status
(`Pending`, `Registering`, `Completed`) do not count: if `txs` holds only such transactions, or
none that matches an offer, the board is left as it was. -/
theorem SwapOffersBoard.on_transaction_changed_removes (board : SwapOffersBoard)
    (txs : List TxDescription) (hnodup : (board.m_offers.map (fun o => o.m_txId)).Nodup) :
    (board.onTransactionChanged txs).m_offers =
        board.m_offers.filter (fun o =>
          !(txs.any (fun tx =>
            SwapOffersBoard.deactivates tx && decide (o.m_txId = tx.m_txId)))) ∧
      (∃ removed : List SwapOffer,
        (board.onTransactionChanged txs).m_notifications =
            board.m_notifications ++ removed.map (fun o => (ChangeAction.Removed, [o])) ∧
          removed.Perm (board.m_offers.filter (fun o =>
            txs.any (fun tx =>
              SwapOffersBoard.deactivates tx && decide (o.m_txId = tx.m_txId))))) ∧
      (∀ tx : TxDescription, SwapOffersBoard.deactivates tx = true ↔
        tx.m_txType = TxType.AtomicSwap ∧
          (tx.m_status = TxStatus.InProgress ∨ tx.m_status = TxStatus.Canceled ∨
            tx.m_status = TxStatus.Failed)) ∧
      ((∀ tx ∈ txs, SwapOffersBoard.deactivates tx = false ∨
          ∀ o ∈ board.m_offers, o.m_txId ≠ tx.m_txId) →
        board.onTransactionChanged txs = board) := by
  rcases SwapOffersBoard.onTransactionChanged_spec txs board hnodup with
    ⟨ho, removed, hnot, hperm⟩
  refine ⟨ho, ⟨removed, hnot, hperm⟩, SwapOffersBoard.deactivates_iff, ?_⟩
  intro hnone
  have hfalse : ∀ o ∈ board.m_offers, (txs.any (fun tx =>
      SwapOffersBoard.deactivates tx && decide (o.m_txId = tx.m_txId))) = false := by
    intro o ho1
    rw [List.any_eq_false]
    intro tx htx
    rcases hnone tx htx with hd | hid
    · simp [hd]
    · simp [hid o ho1]
  have hf1 : board.m_offers.filter (fun o =>
      !(txs.any (fun tx =>
        SwapOffersBoard.deactivates tx && decide (o.m_txId = tx.m_txId)))) =
        board.m_offers := by
    rw [List.filter_eq_self]
    intro o ho1
    rw [hfalse o ho1]
    rfl
  have hf2 : board.m_offers.filter (fun o =>
      txs.any (fun tx =>
        SwapOffersBoard.deactivates tx && decide (o.m_txId = tx.m_txId))) = [] := by
    rw [List.filter_eq_nil_iff]
    intro o ho1
    rw [hfalse o ho1]
    simp
  rw [hf1] at ho
  rw [hf2] at hperm
  rw [List.Perm.eq_nil hperm] at hnot
  cases hb : board.onTransactionChanged txs with
  | mk offers notifications =>
    rw [hb] at ho hnot
    simp only [List.map_nil, List.append_nil] at ho hnot
    cases board
    simp only at ho hnot
    rw [ho, hnot]

/-- C22 (witness): the five offers of `sampleBoard` and the status updates `sampleUpdates`:
offers 1, 2 and 3 are removed, offers 4 and 5 stay, and the three notifications are
`Removed`. -/
theorem SwapOffersBoard.on_transaction_changed_removes_witness :
    (sampleBoard.m_offers.map (fun o => o.m_txId)).Nodup ∧
      (sampleBoard.onTransactionChanged sampleUpdates).m_offers =
        sampleBoard.m_offers.filter (fun o =>
          !(sampleUpdates.any (fun tx =>
            SwapOffersBoard.deactivates tx && decide (o.m_txId = tx.m_txId)))) ∧
      (sampleBoard.onTransactionChanged sampleUpdates).m_offers =
        [sampleOfferWithId 4, sampleOfferWithId 5] ∧
      (sampleBoard.onTransactionChanged sampleUpdates).m_notifications =
        [(ChangeAction.Removed, [sampleOfferWithId 1]),
          (ChangeAction.Removed, [sampleOfferWithId 3]),
          (ChangeAction.Removed, [sampleOfferWithId 2])] :=
  ⟨by decide,
    (SwapOffersBoard.on_transaction_changed_removes sampleBoard sampleUpdates (by decide)).1,
    by decide, by decide⟩

end wallet

end beam

/-! ## Part 2 (continued). Theorems: `UTXO` -/

namespace storage

namespace UTXO

theorem store_length (info info1 : List Nat) (w : Nat × Nat) (h : store info w = some info1) :
    info1.length = info.length := by
  unfold store at h
  split at h
  · cases h
    simp
  · cases h

theorem storeAll_none (ws : List (Nat × Nat)) :
    ∀ info : List Nat, (∃ w ∈ ws, info.length ≤ w.1) → storeAll ws info = none := by
  induction ws with
  | nil =>
    intro info h
    rcases h with ⟨w, hw, _⟩
    cases hw
  | cons v vs ih =>
    intro info h
    unfold storeAll
    cases hs : store info v with
    | none => rfl
    | some info1 =>
      simp only
      apply ih
      rcases h with ⟨w, hw, hle⟩
      rcases List.mem_cons.mp hw with hwv | hwvs
      · subst hwv
        unfold store at hs
        rw [if_neg (by omega)] at hs
        cases hs
      · exact ⟨w, hwvs, by rw [store_length info info1 v hs]; exact hle⟩

/-- For a string of `BUFSIZE` chars or more, the last store of the constructor is
`info[BUFSIZE + 1] = 0`, one past the last element of `info`. -/
theorem stores_of_long (data : List Nat) (h : BUFSIZE ≤ strlen data) :
    (BUFSIZE + 1, 0) ∈ stores data ∧
      ∀ info0 : List Nat, info0.length = BUFSIZE + 1 → ∀ num,
        construct info0 num data = none := by
  have hn : min (strlen data + 1) (BUFSIZE + 1) = BUFSIZE + 1 := by
    apply Nat.min_eq_right
    omega
  have hmem : (BUFSIZE + 1, 0) ∈ stores data := by
    unfold stores
    simp only [hn]
    exact List.mem_append_right _ (List.mem_singleton.mpr rfl)
  refine ⟨hmem, ?_⟩
  intro info0 hlen num
  unfold construct
  rw [storeAll_none (stores data) info0 ⟨_, hmem, by rw [hlen]⟩]
  rfl

theorem storeAll_some (ws : List (Nat × Nat)) :
    ∀ info : List Nat, (∀ w ∈ ws, w.1 < info.length) →
      storeAll ws info = some (ws.foldl (fun acc w => acc.set w.1 w.2) info) := by
  induction ws with
  | nil => intro info _; rfl
  | cons v vs ih =>
    intro info h
    unfold storeAll
    have hv : v.1 < info.length := h v (List.mem_cons_self _ _)
    simp only [store, if_pos hv, List.foldl_cons]
    apply ih
    intro w hw
    rw [List.length_set]
    exact h w (List.mem_cons_of_mem _ hw)

theorem fill_spec (f : Nat → Nat) (info : List Nat) :
    ∀ n, n ≤ info.length →
      (((List.range n).map (fun i => (i, f i))).foldl
          (fun acc w => acc.set w.1 w.2) info).length = info.length ∧
        ∀ j, (((List.range n).map (fun i => (i, f i))).foldl
          (fun acc w => acc.set w.1 w.2) info)[j]? =
            if j < n then some (f j) else info[j]? := by
  intro n
  induction n with
  | zero =>
    intro _
    simp
  | succ k ih =>
    intro hk
    have ih1 := ih (by omega)
    rw [List.range_succ, List.map_append, List.foldl_append]
    simp only [List.map_cons, List.map_nil, List.foldl_cons, List.foldl_nil, List.length_set]
    refine ⟨ih1.1, ?_⟩
    intro j
    rw [List.getElem?_set, ih1.1, ih1.2 j]
    by_cases hjk : k = j
    · subst hjk
      simp
      omega
    · by_cases hj : j < k
      · have : j < k + 1 := by omega
        simp [hjk, hj, this]
      · have : ¬ j < k + 1 := by omega
        simp [hjk, hj, this]

theorem getD_strlen (data : List Nat) : data.getD (strlen data) 0 = 0 := by
  induction data with
  | nil => rfl
  | cons c cs ih =>
    unfold strlen
    by_cases hc : c = 0
    · simp [hc, List.takeWhile]
    · have hne : (c != 0) = true := by simpa using hc
      simp only [List.takeWhile_cons, hne, if_true, List.length_cons, List.getD_cons_succ]
      exact ih

/-- For a string of fewer than `BUFSIZE` chars every store of the constructor stays within
`info[0 .. BUFSIZE]`, and `info` ends up holding the chars of the string followed by NUL. -/
theorem construct_of_short (data info0 : List Nat) (num : Nat) (h : strlen data < BUFSIZE)
    (hlen : info0.length = BUFSIZE + 1) :
    (∀ w ∈ stores data, w.1 ≤ BUFSIZE) ∧
      ∃ u, construct info0 num data = some u ∧ u.id = num ∧
        u.info.length = BUFSIZE + 1 ∧
        (∀ i, i < strlen data → u.info[i]? = some (data.getD i 0)) ∧
        u.info[strlen data]? = some 0 := by
  have hn : min (strlen data + 1) (BUFSIZE + 1) = strlen data + 1 := by
    apply Nat.min_eq_left
    omega
  have hst : stores data =
      (List.range (strlen data + 1)).map (fun i => (i, data.getD i 0)) ++
        [(strlen data + 1, 0)] := by
    unfold stores
    simp only [hn]
  have hb : ∀ w ∈ stores data, w.1 ≤ BUFSIZE := by
    intro w hw
    rw [hst] at hw
    rcases List.mem_append.mp hw with hw1 | hw1
    · rcases List.mem_map.mp hw1 with ⟨i, hi, rfl⟩
      have := List.mem_range.mp hi
      simp only
      omega
    · rw [List.mem_singleton.mp hw1]
      simp only
      omega
  refine ⟨hb, ?_⟩
  have hall : storeAll (stores data) info0 =
      some ((stores data).foldl (fun acc w => acc.set w.1 w.2) info0) := by
    apply storeAll_some
    intro w hw
    have := hb w hw
    omega
  have hfill := fill_spec (fun i => data.getD i 0) info0 (strlen data + 1) (by omega)
  refine ⟨⟨num, (stores data).foldl (fun acc w => acc.set w.1 w.2) info0⟩, ?_, rfl, ?_, ?_, ?_⟩
  · unfold construct
    rw [hall]
    rfl
  · simp only [hst, List.foldl_append, List.foldl_cons, List.foldl_nil, List.length_set]
    rw [hfill.1, hlen]
  · intro i hi
    simp only [hst, List.foldl_append, List.foldl_cons, List.foldl_nil]
    rw [List.getElem?_set_ne (by omega), hfill.2 i, if_pos (by omega)]
  · simp only [hst, List.foldl_append, List.foldl_cons, List.foldl_nil]
    rw [List.getElem?_set_ne (by omega), hfill.2 (strlen data), if_pos (by omega)]
    exact congrArg some (getD_strlen data)

theorem strlen_sampleLongData : strlen sampleLongData = 256 := by
  unfold strlen sampleLongData
  rw [List.takeWhile_replicate, if_pos (by decide)]
  exact List.length_replicate _ _

/-- C29: the constructor `UTXO(num, data)` on the string of 256 chars `a`
(`strlen(data) = BUFSIZE`). `n` is `BUFSIZE + 1 = 257`, the loop fills `info[0 .. 256]`, and
the last store is `info[257] = 0`: index `257` is beyond `BUFSIZE`, the last index of `info`, so
the constructor writes outside the array, whatever `info` held before. -/
theorem constructor_stores_past_info :
    strlen sampleLongData = BUFSIZE ∧
      (BUFSIZE + 1, 0) ∈ stores sampleLongData ∧
      (stores sampleLongData).length = BUFSIZE + 2 ∧
      ∀ info0 : List Nat, info0.length = BUFSIZE + 1 → ∀ num,
        construct info0 num sampleLongData = none := by
  have hl := strlen_sampleLongData
  have h := stores_of_long sampleLongData (by rw [hl]; decide)
  refine ⟨hl, h.1, ?_, h.2⟩
  unfold stores
  rw [hl, List.length_append, List.length_map, List.length_range]
  decide

end UTXO

end storage

/-! ## Part 2 (continued). Theorems: `AssetMeta` -/

namespace beam

namespace wallet

namespace AssetMeta

theorem strncmp_eq_mark (s : List Char) :
    strncmp_eq s STD_META_MARK STD_LEN = true ↔ s.take STD_LEN = STD_META_MARK := by
  unfold STD_LEN STD_META_MARK
  rcases s with _ | ⟨a, _ | ⟨b, _ | ⟨c, _ | ⟨d, rest⟩⟩⟩⟩
  · decide
  · by_cases ha : a = 'S'
    · subst ha; decide
    · simp [strncmp_eq, ha]
  · by_cases ha : a = 'S'
    · subst ha
      by_cases hb : b = 'T'
      · subst hb; decide
      · simp [strncmp_eq, hb]
    · simp [strncmp_eq, ha]
  · by_cases ha : a = 'S'
    · subst ha
      by_cases hb : b = 'T'
      · subst hb
        by_cases hc : c = 'D'
        · subst hc; decide
        · simp [strncmp_eq, hc]
      · simp [strncmp_eq, hb]
    · simp [strncmp_eq, ha]
  · by_cases ha : a = 'S'
    · subst ha
      by_cases hb : b = 'T'
      · subst hb
        by_cases hc : c = 'D'
        · subst hc
          by_cases hd : d = ':'
          · subst hd
            simp [strncmp_eq]
          · simp [strncmp_eq, hd]
        · simp [strncmp_eq, hc]
      · simp [strncmp_eq, hb]
    · simp [strncmp_eq, ha]

theorem mem_set_insert (x t : List Char) (s : List (List Char)) :
    t ∈ set_insert x s ↔ t = x ∨ t ∈ s := by
  induction s with
  | nil => simp [set_insert]
  | cons y ys ih =>
    unfold set_insert
    by_cases h1 : x < y
    · simp [h1]
    · by_cases h2 : x = y
      · subst h2
        simp [h1]
      · simp only [h1, h2, if_false, List.mem_cons, ih]
        tauto

theorem mem_foldl_set_insert (l : List (List Char)) :
    ∀ (s : List (List Char)) (t : List Char),
      t ∈ l.foldl (fun s x => set_insert x s) s ↔ t ∈ s ∨ t ∈ l := by
  induction l with
  | nil => intro s t; simp
  | cons x xs ih =>
    intro s t
    rw [List.foldl_cons, ih, mem_set_insert, List.mem_cons]
    tauto

theorem mem_set_of (l : List (List Char)) (t : List Char) : t ∈ set_of l ↔ t ∈ l := by
  unfold set_of
  rw [mem_foldl_set_insert]
  simp

theorem find_first_of_spec (c : Char) :
    ∀ t : List Char, c ∈ t →
      ∃ k, find_first_of t c = some k ∧ t.take k = t.takeWhile (fun x => x != c) := by
  intro t
  induction t with
  | nil => intro h; cases h
  | cons x xs ih =>
    intro h
    unfold find_first_of
    by_cases hx : x = c
    · subst hx
      exact ⟨0, by simp, by simp⟩
    · have hmem : c ∈ xs := by
        rcases List.mem_cons.mp h with h1 | h1
        · exact absurd h1.symm hx
        · exact h1
      rcases ih hmem with ⟨k, hk, htake⟩
      refine ⟨k + 1, by simp [hx, hk], ?_⟩
      have hne : (x != c) = true := by simpa using hx
      simp [List.takeWhile_cons, hne, htake]

theorem map_contains_assign (values : List (List Char × List Char)) (key val key1 : List Char) :
    map_contains (map_assign values key val) key1 = true ↔
      key = key1 ∨ map_contains values key1 = true := by
  unfold map_contains map_assign
  by_cases hk : key = key1
  · simp [hk]
  · rw [List.any_cons]
    simp only [Bool.or_eq_true, beq_iff_eq, hk, false_or, List.any_eq_true, List.mem_filter,
      bne_iff_ne, ne_eq]
    constructor
    · rintro ⟨kv, ⟨hmem, _⟩, he⟩
      exact ⟨kv, hmem, he⟩
    · rintro ⟨kv, hmem, he⟩
      exact ⟨kv, ⟨hmem, by rw [he]; exact fun e => hk e.symm⟩, he⟩

theorem Parse_step_spec (values : List (List Char × List Char)) (t : List Char)
    (h : '=' ∈ t) :
    ∃ values1, Parse.step values t = some values1 ∧
      ∀ key : List Char, key ≠ [] →
        (map_contains values1 key = true ↔
          map_contains values key = true ∨ t.takeWhile (fun c => c != '=') = key) := by
  rcases find_first_of_spec '=' t h with ⟨k, hk, htake⟩
  cases k with
  | zero =>
    refine ⟨values, by simp [Parse.step, hk], ?_⟩
    intro key hkey
    rw [← htake]
    simp only [List.take_zero]
    constructor
    · exact fun hc => Or.inl hc
    · rintro (hc | hc)
      · exact hc
      · exact absurd hc.symm hkey
  | succ e =>
    refine ⟨map_assign values (t.take (e + 1)) (t.drop (e + 1 + 1)), ?_, ?_⟩
    · simp only [Parse.step, hk]
    intro key _
    rw [map_contains_assign, htake]
    tauto

theorem Parse_loop_spec (tokens : List (List Char)) :
    ∀ values : List (List Char × List Char), (∀ t ∈ tokens, '=' ∈ t) →
      ∃ values1, Parse.loop tokens values = some values1 ∧
        ∀ key : List Char, key ≠ [] →
          (map_contains values1 key = true ↔
            map_contains values key = true ∨
              ∃ t ∈ tokens, t.takeWhile (fun c => c != '=') = key) := by
  induction tokens with
  | nil =>
    intro values _
    exact ⟨values, rfl, by simp⟩
  | cons t rest ih =>
    intro values h
    rcases Parse_step_spec values t (h t (List.mem_cons_self _ _)) with ⟨v1, hv1, hs1⟩
    rcases ih v1 (fun u hu => h u (List.mem_cons_of_mem _ hu)) with ⟨v2, hv2, hs2⟩
    refine ⟨v2, by simp only [Parse.loop, hv1, hv2], ?_⟩
    intro key hkey
    rw [hs2 key hkey, hs1 key hkey]
    simp only [List.mem_cons, exists_eq_or_imp]
    tauto

/-- What the constructor gives for a metadata string all of whose tokens hold a `=`. -/
theorem construct_spec (meta : List Char)
    (htok : ∀ t ∈ tokenize (meta.drop STD_LEN), '=' ∈ t) :
    ∃ m, construct meta = some m ∧ m._meta = meta ∧
      (m.isStd = true ↔
        meta.take STD_LEN = STD_META_MARK ∧
          ∀ key ∈ [NAME_KEY, SHORT_NAME_KEY, UNIT_NAME_KEY, NTH_UNIT_NAME_KEY],
            ∃ t ∈ tokenize (meta.drop STD_LEN), t.takeWhile (fun c => c != '=') = key) := by
  unfold construct Parse
  by_cases hmark : strncmp_eq meta STD_META_MARK STD_LEN = true
  · have hm := (strncmp_eq_mark meta).mp hmark
    rcases Parse_loop_spec (set_of (tokenize (meta.drop STD_LEN))) []
      (fun t ht => htok t ((mem_set_of _ t).mp ht)) with ⟨v, hv, hs⟩
    simp only [hmark, Bool.not_true, Bool.false_eq_true, if_false, hv]
    refine ⟨_, rfl, rfl, ?_⟩
    have hc : ∀ key : List Char, key ≠ [] →
        (map_contains v key = true ↔
          ∃ t ∈ tokenize (meta.drop STD_LEN), t.takeWhile (fun c => c != '=') = key) := by
      intro key hkey
      rw [hs key hkey]
      simp only [map_contains, List.any_nil, Bool.false_eq_true, false_or, mem_set_of]
    simp only [isStd, Bool.and_eq_true, hm, true_and, List.mem_cons, List.mem_singleton,
      List.not_mem_nil, or_false, forall_eq_or_imp, forall_eq]
    rw [hc NAME_KEY (by decide), hc SHORT_NAME_KEY (by decide), hc UNIT_NAME_KEY (by decide),
      hc NTH_UNIT_NAME_KEY (by decide)]
    tauto
  · have hm : ¬ meta.take STD_LEN = STD_META_MARK := fun e => hmark ((strncmp_eq_mark meta).mpr e)
    simp only [hmark, Bool.not_false, if_true]
    refine ⟨_, rfl, rfl, ?_⟩
    simp [isStd, hm]

theorem construct_of_no_mark (meta : List Char) (h : meta.take STD_LEN ≠ STD_META_MARK) :
    ∃ m, construct meta = some m ∧ m.isStd = false := by
  have hmark : ¬ strncmp_eq meta STD_META_MARK STD_LEN = true :=
    fun e => h ((strncmp_eq_mark meta).mp e)
  unfold construct Parse
  simp only [hmark, Bool.not_false, if_true]
  exact ⟨_, rfl, rfl⟩

theorem tokenize_go_append (t : List Char) :
    ∀ (rest cur : List Char), ';' ∉ t →
      tokenize.go (t ++ rest) cur = tokenize.go rest (t.reverse ++ cur) := by
  induction t with
  | nil => intro rest cur _; rfl
  | cons c cs ih =>
    intro rest cur h
    have hc : ¬ c = ';' := fun e => h (by rw [e]; exact List.mem_cons_self _ _)
    have hcs : ';' ∉ cs := fun e => h (List.mem_cons_of_mem _ e)
    rw [List.cons_append, tokenize.go]
    simp only [hc, if_false]
    rw [ih rest (c :: cur) hcs]
    simp

/-- The tokenizer gives back the non-empty segments of a string written by `joinTokens`. -/
theorem tokenize_joinTokens (ts : List (List Char)) :
    (∀ t ∈ ts, ';' ∉ t) →
      tokenize (joinTokens ts) = ts.filter (fun t => decide (t ≠ [])) := by
  induction ts with
  | nil => intro _; rfl
  | cons t rest ih =>
    intro h
    have ht := h t (List.mem_cons_self _ _)
    have hrest : ∀ u ∈ rest, ';' ∉ u := fun u hu => h u (List.mem_cons_of_mem _ hu)
    cases rest with
    | nil =>
      unfold tokenize joinTokens
      have := tokenize_go_append t [] [] ht
      rw [List.append_nil] at this
      rw [this]
      by_cases he : t = []
      · simp [tokenize.go, he]
      · simp [tokenize.go, he]
    | cons t2 ts2 =>
      have ih2 := ih hrest
      unfold tokenize at ih2 ⊢
      unfold joinTokens
      rw [tokenize_go_append t _ [] ht, tokenize.go]
      by_cases he : t = []
      · simp only [he, List.reverse_nil, List.append_nil, if_true, ih2]
        simp
      · have hrev : ¬ t.reverse = [] := by simpa using he
        simp only [if_true, List.append_nil, hrev, if_false, List.reverse_reverse, ih2]
        simp [he]

/-- Every string is a list of segments without `;` written with `;` between them. -/
theorem exists_segments (s : List Char) :
    ∃ segs : List (List Char), (∀ x ∈ segs, ';' ∉ x) ∧ s = joinTokens segs := by
  have key : ∃ (x : List Char) (xs : List (List Char)),
      (∀ y ∈ x :: xs, ';' ∉ y) ∧ s = joinTokens (x :: xs) := by
    induction s with
    | nil => exact ⟨[], [], by simp, rfl⟩
    | cons c cs ih =>
      rcases ih with ⟨x, xs, hx, he⟩
      by_cases hc : c = ';'
      · refine ⟨[], x :: xs, ?_, ?_⟩
        · intro y hy
          rcases List.mem_cons.mp hy with rfl | hy1
          · simp
          · exact hx y hy1
        · rw [he, hc]
          rfl
      · refine ⟨c :: x, xs, ?_, ?_⟩
        · intro y hy
          rcases List.mem_cons.mp hy with rfl | hy1
          · intro hm
            rcases List.mem_cons.mp hm with h1 | h1
            · exact hc h1.symm
            · exact hx x (List.mem_cons_self _ _) h1
          · exact hx y (List.mem_cons_of_mem _ hy1)
        · rw [he]
          cases xs with
          | nil => rfl
          | cons x2 xs2 => rfl
  rcases key with ⟨x, xs, hx, he⟩
  exact ⟨x :: xs, hx, he⟩

/-- What the constructor gives for a metadata string whose part after the mark is the segments
`segs` written with `;` between them, each non-empty segment holding a `=`. -/
theorem construct_segments (meta : List Char) (segs : List (List Char))
    (hsplit : meta.drop STD_LEN = joinTokens segs) (hseg : ∀ s ∈ segs, ';' ∉ s)
    (htok : ∀ s ∈ segs, s ≠ [] → '=' ∈ s) :
    ∃ m, construct meta = some m ∧ m._meta = meta ∧
      (m.isStd = true ↔
        meta.take STD_LEN = STD_META_MARK ∧
          ∀ key ∈ [NAME_KEY, SHORT_NAME_KEY, UNIT_NAME_KEY, NTH_UNIT_NAME_KEY],
            ∃ s ∈ segs, s.takeWhile (fun c => c != '=') = key) := by
  have htoks : tokenize (meta.drop STD_LEN) = segs.filter (fun t => decide (t ≠ [])) := by
    rw [hsplit]
    exact tokenize_joinTokens segs hseg
  have hmem : ∀ t, t ∈ tokenize (meta.drop STD_LEN) ↔ t ∈ segs ∧ t ≠ [] := by
    intro t
    rw [htoks, List.mem_filter]
    simp
  rcases construct_spec meta (fun t ht => htok t ((hmem t).mp ht).1 ((hmem t).mp ht).2) with
    ⟨m, hm, hmeta, hiff⟩
  refine ⟨m, hm, hmeta, ?_⟩
  rw [hiff]
  have hkeys : ∀ key ∈ [NAME_KEY, SHORT_NAME_KEY, UNIT_NAME_KEY, NTH_UNIT_NAME_KEY],
      key ≠ [] := by decide
  constructor
  · rintro ⟨hmark, hall⟩
    refine ⟨hmark, ?_⟩
    intro key hkey
    rcases hall key hkey with ⟨t, ht, he⟩
    exact ⟨t, ((hmem t).mp ht).1, he⟩
  · rintro ⟨hmark, hall⟩
    refine ⟨hmark, ?_⟩
    intro key hkey
    rcases hall key hkey with ⟨s, hs, he⟩
    refine ⟨s, (hmem s).mpr ⟨hs, ?_⟩, he⟩
    intro hnil
    rw [hnil] at he
    exact hkeys key hkey he.symm

/-- C30: let the part of a metadata string after its first four chars be the segments `segs`
written with `;` between them (every string is of this form), each non-empty segment holding a
`=`. Then the constructor returns and `isStd()` is true if and only if the string begins with
`STD:` and, for each of the keys `N`, `SN`, `UN` and `NTHUN`, some segment has that key before
its first `=`. The result does not depend on the order of the segments: two strings `STD:`
followed by the same segments in two orders have the same `isStd()`. A string that does not
begin with `STD:` is never standard, whatever follows. -/
theorem is_std_iff_all_keys (meta : List Char) (segs : List (List Char))
    (hsplit : meta.drop STD_LEN = joinTokens segs) (hseg : ∀ s ∈ segs, ';' ∉ s)
    (htok : ∀ s ∈ segs, s ≠ [] → '=' ∈ s) :
    (∃ m, construct meta = some m ∧ m._meta = meta ∧
      (m.isStd = true ↔
        meta.take STD_LEN = STD_META_MARK ∧
          ∀ key ∈ [NAME_KEY, SHORT_NAME_KEY, UNIT_NAME_KEY, NTH_UNIT_NAME_KEY],
            ∃ s ∈ segs, s.takeWhile (fun c => c != '=') = key)) ∧
      (∀ segs1 : List (List Char), segs.Perm segs1 →
        ∃ m m1, construct (STD_META_MARK ++ joinTokens segs) = some m ∧
          construct (STD_META_MARK ++ joinTokens segs1) = some m1 ∧ m.isStd = m1.isStd) ∧
      (∀ other : List Char, other.take STD_LEN ≠ STD_META_MARK →
        ∃ m, construct other = some m ∧ m.isStd = false) ∧
      (∀ other : List Char, ∃ segs0 : List (List Char),
        (∀ x ∈ segs0, ';' ∉ x) ∧ other.drop STD_LEN = joinTokens segs0) := by
  refine ⟨construct_segments meta segs hsplit hseg htok, ?_, construct_of_no_mark,
    fun other => exists_segments _⟩
  intro segs1 hperm
  have hseg1 : ∀ s ∈ segs1, ';' ∉ s := fun s hs => hseg s (hperm.mem_iff.mpr hs)
  have htok1 : ∀ s ∈ segs1, s ≠ [] → '=' ∈ s := fun s hs => htok s (hperm.mem_iff.mpr hs)
  rcases construct_segments (STD_META_MARK ++ joinTokens segs) segs rfl hseg htok with
    ⟨m, hm, _, hiff⟩
  rcases construct_segments (STD_META_MARK ++ joinTokens segs1) segs1 rfl hseg1 htok1 with
    ⟨m1, hm1, _, hiff1⟩
  refine ⟨m, m1, hm, hm1, ?_⟩
  rw [Bool.eq_iff_iff, hiff, hiff1]
  have ht : ∀ l : List Char, (STD_META_MARK ++ l).take STD_LEN = STD_META_MARK := fun _ => rfl
  simp only [ht, true_and]
  constructor
  · intro hall key hkey
    rcases hall key hkey with ⟨t, ht1, he⟩
    exact ⟨t, hperm.mem_iff.mp ht1, he⟩
  · intro hall key hkey
    rcases hall key hkey with ⟨t, ht1, he⟩
    exact ⟨t, hperm.mem_iff.mpr ht1, he⟩

/-- C30 (witness): `sampleMeta` is standard, `sampleMetaShuffled`, which holds its tokens in
another order next to an empty token and an unknown key, is standard too, and the string
without the key `NTHUN` is not. -/
theorem is_std_iff_all_keys_witness :
    (construct sampleMeta).map isStd = some true ∧
      (construct sampleMetaShuffled).map isStd = some true ∧
      (construct sampleMetaNoUnit).map isStd = some false := by
  obtain ⟨m, hm, _, hiff⟩ :=
    (is_std_iff_all_keys sampleMeta
      ["N=Coin".toList, "SN=CN".toList, "UN=Cgro".toList, "NTHUN=Cgroth".toList]
      (by decide) (by decide) (by decide)).1
  obtain ⟨m1, hm1, _, hiff1⟩ :=
    (is_std_iff_all_keys sampleMetaShuffled
      ["NTHUN=Cgroth".toList, [], "UN=Cgro".toList, "X=1".toList, "N=Coin".toList,
        "SN=CN".toList, []]
      (by decide) (by decide) (by decide)).1
  obtain ⟨m2, hm2, _, hiff2⟩ :=
    (is_std_iff_all_keys sampleMetaNoUnit
      ["N=Coin".toList, "SN=CN".toList, "UN=Cgro".toList]
      (by decide) (by decide) (by decide)).1
  refine ⟨?_, ?_, ?_⟩
  · rw [hm]
    exact congrArg some (hiff.mpr (by decide))
  · rw [hm1]
    exact congrArg some (hiff1.mpr (by decide))
  · rw [hm2]
    have hfalse : ¬ m2.isStd = true := fun h => absurd (hiff2.mp h) (by decide)
    exact congrArg some (by simpa using hfalse)

end AssetMeta

end wallet

end beam
